import Mathlib

/-!
# Verification of the DecentralizedResourceID core

Shallow embedding, in Lean 4, of the core algorithms of the
DecentralizedResourceID JavaScript library, together with proofs of the
specified properties:

* the text watermark codec (`src/verification/watermarking.js`,
  `TextWatermarkStrategy`): space-channel embedding and extraction;
* the identifier factory (`DIDFactory`): canonical hashing, identifier
  assembly, compression and decompression;
* the resource relationship graph (`src/relation/resource_graph.js`,
  `ResourceGraph`): node/edge mutation, DFS path queries, and the W3C PROV
  projection together with its reverse import;
* the hierarchical metadata manager (`HierarchicalMetadataManager`):
  selective views.

Texts are `List Char`; JavaScript `Map`s and plain objects are association
lists; JavaScript `undefined`-able values are `Option`; functions that
`throw` return `Option`/`Except`.  Current time is threaded explicitly as a
string parameter wherever the source calls `new Date().toISOString()`.
-/

namespace DRID

/-! ## Watermark codec (`TextWatermarkStrategy`)

The spaces channel of `watermarking.js`.  Bits are `Bool` (`'1'` ↦ `true`).
-/

namespace Watermark

def regularSpace : Char := ' '

def noBreakSpace : Char := Char.ofNat 0xA0

def zeroWidthSpace : Char := Char.ofNat 0x200B

/-- Bits of `n`, most significant first, as produced by the JavaScript
`Number.prototype.toString(2)` (no leading zeros; `0` renders as `"0"`).
Fuelled structural recursion; `natToBits` supplies enough fuel, so the
out-of-fuel branch is unreachable. -/
def natToBitsGo : Nat → Nat → List Bool
  | _, 0 => [false]
  | 0, _ + 1 => []
  | fuel + 1, n + 1 =>
    if n + 1 < 2 then [true] else natToBitsGo fuel ((n + 1) / 2) ++ [(n + 1) % 2 == 1]

def natToBits (n : Nat) : List Bool :=
  natToBitsGo n n

/-- `String.prototype.padStart(8, '0')` on a bit string. -/
def padStart8 (l : List Bool) : List Bool :=
  List.replicate (8 - l.length) false ++ l

/-- The 8-bit (or longer, for code points above 255) representation of one
character, as in `TextWatermarkStrategy._textToBinary`. -/
def charBits (c : Char) : List Bool :=
  padStart8 (natToBits c.toNat)

/-- `TextWatermarkStrategy._textToBinary`: concatenated per-character bit
strings. -/
def textToBinary (s : List Char) : List Bool :=
  (s.map charBits).flatten

/-- Indices of the ASCII space characters starting from position `i`
(the `spacesIndices` scan in `_embedWithSpaces`). -/
def spacesIndicesFrom (i : Nat) : List Char → List Nat
  | [] => []
  | c :: cs =>
    if c = regularSpace then i :: spacesIndicesFrom (i + 1) cs
    else spacesIndicesFrom (i + 1) cs

def spacesIndices (t : List Char) : List Nat :=
  spacesIndicesFrom 0 t

/-- The replacement text for one embedded bit (`_embedWithSpaces`): bit `0`
keeps the regular space; bit `1` becomes a no-break space, or a zero-width
space followed by a regular space when `options.useZeroWidth` is set. -/
def bitRepl (useZW : Bool) (b : Bool) : List Char :=
  if b then (if useZW then [zeroWidthSpace, regularSpace] else [noBreakSpace])
  else [regularSpace]

/-- `result.substring(0, i) + replacement + result.substring(i + 1)`. -/
def replaceAt (t : List Char) (i : Nat) (r : List Char) : List Char :=
  t.take i ++ r ++ t.drop (i + 1)

/-- The embedding loop of `_embedWithSpaces`: replace the `k`-th candidate
position by the replacement for the `k`-th payload bit, shifting all later
indices by the length change. -/
def embedGo (useZW : Bool) : List Char → List Nat → List Bool → List Char
  | res, _, [] => res
  | res, [], _ :: _ => res
  | res, i :: is, b :: bs =>
    let r := bitRepl useZW b
    embedGo useZW (replaceAt res i r) (is.map (· + (r.length - 1))) bs

/-- `TextWatermarkStrategy._embedWithSpaces`.  Returns `none` where the
source throws `'Text has insufficient spaces to embed the payload'`. -/
def embedWithSpaces (t : List Char) (bits : List Bool) (useZW : Bool) :
    Option (List Char) :=
  let idxs := spacesIndices t
  if idxs.length < bits.length then none
  else some (embedGo useZW t idxs bits)

/-- The scan of `_extractFromSpaces`: one bit per space-equivalent
character, where a regular space preceded by a zero-width space reads as
`1`.  `prev` is the previous character of the text (`text[i-1]`). -/
def extractBitsAux (prev : Option Char) : List Char → List Bool
  | [] => []
  | c :: cs =>
    (if c = regularSpace then
      (if prev = some zeroWidthSpace then [true] else [false])
     else if c = noBreakSpace then [true] else [])
      ++ extractBitsAux (some c) cs

/-- `TextWatermarkStrategy._extractFromSpaces`, including its 16-bit
minimum-length validation. -/
def extractFromSpaces (t : List Char) : Option (List Bool) :=
  let b := extractBitsAux none t
  if b.length < 16 then none else some b

/-- `parseInt(byte, 2)`: value of a big-endian bit string. -/
def bitsToNat (l : List Bool) : Nat :=
  l.foldl (fun a b => 2 * a + (if b then 1 else 0)) 0

/-- Split into 8-bit groups (the byte regrouping of `_binaryToText`).
Fuelled structural recursion; `chunk8` supplies the list length as fuel,
which is always enough. -/
def chunk8Go : Nat → List Bool → List (List Bool)
  | _, [] => []
  | 0, _ :: _ => []
  | fuel + 1, l => l.take 8 :: chunk8Go fuel (l.drop 8)

def chunk8 (l : List Bool) : List (List Bool) :=
  chunk8Go l.length l

/-- `TextWatermarkStrategy._binaryToText`: zero-pad to a multiple of 8 bits
and decode each byte with `String.fromCharCode`. -/
def binaryToText (bits : List Bool) : List Char :=
  let padded := bits ++ List.replicate ((8 - bits.length % 8) % 8) false
  (chunk8 padded).map (fun byte => Char.ofNat (bitsToNat byte))

/-! ### Watermark payloads

`WatermarkStrategy._createPayload` always builds a flat object with fields
`did`, `timestamp` and optionally `metadataHash`, `issuer`,
`expirationDate`, in that insertion order, all string-valued.
`stringifyPayload`/`parsePayload` model the JavaScript builtins
`JSON.stringify`/`JSON.parse` on objects of exactly this shape (flat
string-valued members; `JSON.parse` rejects any input that is not a single
complete JSON value, in particular input with trailing bytes). -/

structure WatermarkPayload where
  did : String
  timestamp : String
  metadataHash : Option String
  issuer : Option String
  expirationDate : Option String
deriving DecidableEq

/-- One `"key":"value"` member, as `JSON.stringify` renders a string-valued
property whose key and value need no escaping. -/
def serializeMember (kv : String × String) : String :=
  "\"" ++ kv.1 ++ "\":\"" ++ kv.2 ++ "\""

/-- Comma-separated members. -/
def serializeMembers : List (String × String) → String
  | [] => ""
  | [kv] => serializeMember kv
  | kv :: kvs => serializeMember kv ++ "," ++ serializeMembers kvs

/-- The members of a watermark payload object, in the insertion order fixed
by `_createPayload`. -/
def payloadMembers (p : WatermarkPayload) : List (String × String) :=
  [("did", p.did), ("timestamp", p.timestamp)]
    ++ (p.metadataHash.map (fun v => ("metadataHash", v))).toList
    ++ (p.issuer.map (fun v => ("issuer", v))).toList
    ++ (p.expirationDate.map (fun v => ("expirationDate", v))).toList

/-- `JSON.stringify` of a watermark payload (all members string-valued, no
escaping needed). -/
def stringifyPayload (p : WatermarkPayload) : String :=
  "\x7b" ++ serializeMembers (payloadMembers p) ++ "\x7d"

/-- Read a JSON string body up to its closing quote.  Escape sequences are
not modelled (the codec never produces them); an escape or a missing
closing quote fails. -/
def readStr : List Char → Option (List Char × List Char)
  | [] => none
  | c :: cs =>
    if c = '"' then some ([], cs)
    else if c = '\\' then none
    else (readStr cs).map (fun vr => (c :: vr.1, vr.2))

/-- Parse one `"key":"value"` member. -/
def parseMember (l : List Char) : Option ((String × String) × List Char) :=
  match l with
  | '"' :: r =>
    (readStr r).bind (fun kr =>
      match kr.2 with
      | ':' :: '"' :: r2 =>
        (readStr r2).map (fun vr => ((String.mk kr.1, String.mk vr.1), vr.2))
      | _ => none)
  | _ => none

/-- Parse a comma-separated member list (fuelled; the callers pass enough
fuel for the whole input). -/
def parseMembersF : Nat → List Char → Option (List (String × String) × List Char)
  | 0, _ => none
  | fuel + 1, l =>
    (parseMember l).bind (fun kvr =>
      match kvr.2 with
      | ',' :: r2 => (parseMembersF fuel r2).map (fun psr => (kvr.1 :: psr.1, psr.2))
      | r2 => some ([kvr.1], r2))

/-- Rebuild a payload from the parsed member list: only the member layouts
that `_createPayload` can produce are payload objects. -/
def payloadOfPairs : List (String × String) → Option WatermarkPayload
  | ("did", d) :: ("timestamp", t) :: rest =>
    match rest with
    | [] => some ⟨d, t, none, none, none⟩
    | [("metadataHash", m)] => some ⟨d, t, some m, none, none⟩
    | [("issuer", i)] => some ⟨d, t, none, some i, none⟩
    | [("expirationDate", e)] => some ⟨d, t, none, none, some e⟩
    | [("metadataHash", m), ("issuer", i)] => some ⟨d, t, some m, some i, none⟩
    | [("metadataHash", m), ("expirationDate", e)] => some ⟨d, t, some m, none, some e⟩
    | [("issuer", i), ("expirationDate", e)] => some ⟨d, t, none, some i, some e⟩
    | [("metadataHash", m), ("issuer", i), ("expirationDate", e)] =>
      some ⟨d, t, some m, some i, some e⟩
    | _ => none
  | _ => none

/-- `JSON.parse` on watermark-payload-shaped input: a `\x7b`, a member
list, a `\x7d`, and nothing after it.  Anything else — in particular
trailing bytes after the closing brace — is a parse failure (`none`). -/
def parsePayload (s : String) : Option WatermarkPayload :=
  match s.data with
  | '\x7b' :: r =>
    match parseMembersF (r.length + 1) r with
    | some (ps, ['\x7d']) => payloadOfPairs ps
    | _ => none
  | _ => none

/-- `TextWatermarkStrategy.embed` with `strategy: 'spaces'`: serialize the
payload, turn it into bits, and embed on the space channel. -/
def embedSpacesPayload (t : List Char) (p : WatermarkPayload) (useZW : Bool) :
    Option (List Char) :=
  embedWithSpaces t (textToBinary (stringifyPayload p).data) useZW

/-- `TextWatermarkStrategy.extract` with `strategy: 'spaces'`: recover the
bit string, decode it to text, and `JSON.parse` it (parse failure is
`null`). -/
def extractSpacesPayload (t : List Char) : Option WatermarkPayload :=
  (extractFromSpaces t).bind (fun bits => parsePayload (String.mk (binaryToText bits)))

/-! ### Watermark codec: helper lemmas -/

theorem spacesIndicesFrom_succ (t : List Char) :
    ∀ i, spacesIndicesFrom (i + 1) t = (spacesIndicesFrom i t).map (· + 1) := by
  induction t with
  | nil => intro i; rfl
  | cons c cs ih =>
    intro i
    by_cases hc : c = regularSpace <;> simp [spacesIndicesFrom, hc, ih]

theorem spacesIndices_cons (c : Char) (t : List Char) :
    spacesIndices (c :: t) =
      if c = regularSpace then 0 :: (spacesIndices t).map (· + 1)
      else (spacesIndices t).map (· + 1) := by
  by_cases hc : c = regularSpace <;>
    simp [spacesIndices, spacesIndicesFrom, hc, spacesIndicesFrom_succ]

theorem replaceAt_prepend (pre t r : List Char) (i : Nat) :
    replaceAt (pre ++ t) (pre.length + i) r = pre ++ replaceAt t i r := by
  have h1 : (pre ++ t).take (pre.length + i) = pre ++ t.take i := by
    simp [List.take_append_eq_append_take]
  have h2 : (pre ++ t).drop (pre.length + i + 1) = t.drop (i + 1) := by
    have : pre.length + i + 1 = pre.length + (i + 1) := by omega
    rw [this]; simp [List.drop_append_eq_append_drop]
  simp [replaceAt, h1, h2]

theorem embedGo_nil_bits (u : Bool) (res : List Char) (idxs : List Nat) :
    embedGo u res idxs [] = res := by
  cases idxs <;> rfl

theorem bitRepl_length_pos (u b : Bool) : 1 ≤ (bitRepl u b).length := by
  cases u <;> cases b <;> simp [bitRepl]

theorem embedGo_prepend (u : Bool) (bits : List Bool) :
    ∀ (pre t : List Char) (idxs : List Nat),
      embedGo u (pre ++ t) (idxs.map (· + pre.length)) bits = pre ++ embedGo u t idxs bits := by
  induction bits with
  | nil => intro pre t idxs; simp [embedGo_nil_bits]
  | cons b bs ih =>
    intro pre t idxs
    cases idxs with
    | nil => rfl
    | cons i is =>
      show embedGo u (replaceAt (pre ++ t) (i + pre.length) (bitRepl u b))
          ((is.map (· + pre.length)).map (· + ((bitRepl u b).length - 1))) bs = _
      have hco : (is.map (· + pre.length)).map (· + ((bitRepl u b).length - 1))
          = (is.map (· + ((bitRepl u b).length - 1))).map (· + pre.length) := by
        simp only [List.map_map]
        exact List.map_congr_left (fun a _ => by simp [Function.comp]; omega)
      have hadd : i + pre.length = pre.length + i := by omega
      rw [hco, hadd, replaceAt_prepend, ih]
      rfl

/-- Traversal formulation of the embedding loop: replace the leading
payload bits into the spaces of the text, left to right. -/
def embedRec (u : Bool) : List Char → List Bool → List Char
  | [], _ => []
  | c :: cs, bits =>
    if c = regularSpace then
      match bits with
      | [] => c :: embedRec u cs []
      | b :: bs => bitRepl u b ++ embedRec u cs bs
    else c :: embedRec u cs bits

theorem embedRec_nil_bits (u : Bool) (t : List Char) : embedRec u t [] = t := by
  induction t with
  | nil => rfl
  | cons c cs ih => by_cases hc : c = regularSpace <;> simp [embedRec, hc, ih]

/-- The index-juggling loop of `_embedWithSpaces` equals the left-to-right
traversal when the capacity check holds. -/
theorem embedGo_eq_embedRec (u : Bool) :
    ∀ (t : List Char) (bits : List Bool),
      bits.length ≤ (spacesIndices t).length →
      embedGo u t (spacesIndices t) bits = embedRec u t bits := by
  intro t
  induction t with
  | nil =>
    intro bits hlen
    cases bits with
    | nil => rfl
    | cons b bs => simp [spacesIndices, spacesIndicesFrom] at hlen
  | cons c cs ih =>
    intro bits hlen
    rw [spacesIndices_cons] at hlen ⊢
    by_cases hc : c = regularSpace
    · subst hc
      simp only [if_pos rfl] at hlen ⊢
      cases bits with
      | nil => simp [embedGo_nil_bits, embedRec, embedRec_nil_bits]
      | cons b bs =>
        show embedGo u (replaceAt (regularSpace :: cs) 0 (bitRepl u b))
            (((spacesIndices cs).map (· + 1)).map (· + ((bitRepl u b).length - 1))) bs = _
        have hrepl : replaceAt (regularSpace :: cs) 0 (bitRepl u b) = bitRepl u b ++ cs := by
          simp [replaceAt]
        have hco : ((spacesIndices cs).map (· + 1)).map (· + ((bitRepl u b).length - 1))
            = (spacesIndices cs).map (· + (bitRepl u b).length) := by
          have h1 := bitRepl_length_pos u b
          simp only [List.map_map]
          exact List.map_congr_left (fun a _ => by simp [Function.comp]; omega)
        rw [hrepl, hco, embedGo_prepend u bs (bitRepl u b) cs (spacesIndices cs)]
        have hcap : bs.length ≤ (spacesIndices cs).length := by
          simp at hlen; omega
        rw [ih bs hcap]
        simp [embedRec]
    · simp only [if_neg hc] at hlen ⊢
      have := embedGo_prepend u bits [c] cs (spacesIndices cs)
      simp only [List.cons_append, List.nil_append, List.length_cons,
        List.length_nil, Nat.zero_add] at this
      rw [this]
      · simp [embedRec, hc]
        exact ih bits (by simpa using hlen)

theorem zeroWidth_ne_regular : zeroWidthSpace ≠ regularSpace := by decide

theorem zeroWidth_ne_noBreak : zeroWidthSpace ≠ noBreakSpace := by decide

theorem noBreak_ne_regular : noBreakSpace ≠ regularSpace := by decide

theorem embedRec_cons_space (u b : Bool) (bs : List Bool) (cs : List Char) :
    embedRec u (regularSpace :: cs) (b :: bs) = bitRepl u b ++ embedRec u cs bs := by
  simp [embedRec]

theorem extractBitsAux_cons_space (prev : Option Char)
    (h : prev ≠ some zeroWidthSpace) (cs : List Char) :
    extractBitsAux prev (regularSpace :: cs)
      = false :: extractBitsAux (some regularSpace) cs := by
  simp [extractBitsAux, h]

theorem extractBitsAux_cons_noBreak (prev : Option Char) (cs : List Char) :
    extractBitsAux prev (noBreakSpace :: cs)
      = true :: extractBitsAux (some noBreakSpace) cs := by
  simp [extractBitsAux, noBreak_ne_regular]

theorem extractBitsAux_cons_other (prev : Option Char) (c : Char)
    (h1 : c ≠ regularSpace) (h2 : c ≠ noBreakSpace) (cs : List Char) :
    extractBitsAux prev (c :: cs) = extractBitsAux (some c) cs := by
  simp [extractBitsAux, h1, h2]

/-- On text free of watermark characters, the extraction scan reads one
`0` bit per regular space (whatever the previous character was, as long as
it is not a zero-width space). -/
theorem extractBitsAux_clean :
    ∀ (l : List Char) (prev : Option Char), zeroWidthSpace ∉ l →
      noBreakSpace ∉ l → prev ≠ some zeroWidthSpace →
      extractBitsAux prev l = List.replicate (spacesIndices l).length false := by
  intro l
  induction l with
  | nil => intro prev _ _ _; rfl
  | cons c cs ih =>
    intro prev hzw hnb hprev
    have hzw' : zeroWidthSpace ∉ cs := fun h => hzw (List.mem_cons_of_mem _ h)
    have hnb' : noBreakSpace ∉ cs := fun h => hnb (List.mem_cons_of_mem _ h)
    have hczw : c ≠ zeroWidthSpace := fun h => hzw (h ▸ List.mem_cons_self _ _)
    have hcnb : c ≠ noBreakSpace := fun h => hnb (h ▸ List.mem_cons_self _ _)
    have hrec := ih (some c) hzw' hnb' (by simpa using hczw)
    rw [spacesIndices_cons]
    by_cases hc : c = regularSpace
    · subst hc
      rw [extractBitsAux_cons_space prev hprev, hrec]
      simp [List.replicate_succ]
    · rw [extractBitsAux_cons_other prev c hc hcnb, hrec]
      simp [hc]

/-- Extraction after embedding (default space alphabet, no zero-width
variant): the scan returns the payload bits followed by one `0` bit per
unused space. -/
theorem extractBitsAux_embedRec :
    ∀ (t : List Char) (bits : List Bool) (prev : Option Char),
      zeroWidthSpace ∉ t → noBreakSpace ∉ t → prev ≠ some zeroWidthSpace →
      bits.length ≤ (spacesIndices t).length →
      extractBitsAux prev (embedRec false t bits)
        = bits ++ List.replicate ((spacesIndices t).length - bits.length) false := by
  intro t
  induction t with
  | nil =>
    intro bits prev _ _ _ hlen
    cases bits with
    | nil => rfl
    | cons b bs => simp [spacesIndices, spacesIndicesFrom] at hlen
  | cons c cs ih =>
    intro bits prev hzw hnb hprev hlen
    have hzw' : zeroWidthSpace ∉ cs := fun h => hzw (List.mem_cons_of_mem _ h)
    have hnb' : noBreakSpace ∉ cs := fun h => hnb (List.mem_cons_of_mem _ h)
    have hczw : c ≠ zeroWidthSpace := fun h => hzw (h ▸ List.mem_cons_self _ _)
    have hcnb : c ≠ noBreakSpace := fun h => hnb (h ▸ List.mem_cons_self _ _)
    rw [spacesIndices_cons] at hlen ⊢
    by_cases hc : c = regularSpace
    · subst hc
      simp only [if_pos rfl] at hlen ⊢
      cases bits with
      | nil =>
        rw [embedRec_nil_bits]
        have hzw2 : zeroWidthSpace ∉ regularSpace :: cs := by
          intro h
          rcases List.mem_cons.mp h with h | h
          · exact zeroWidth_ne_regular h
          · exact hzw' h
        have hnb2 : noBreakSpace ∉ regularSpace :: cs := by
          intro h
          rcases List.mem_cons.mp h with h | h
          · exact noBreak_ne_regular h
          · exact hnb' h
        rw [extractBitsAux_clean (regularSpace :: cs) prev hzw2 hnb2 hprev,
          spacesIndices_cons]
        simp
      | cons b bs =>
        have hcap : bs.length ≤ (spacesIndices cs).length := by simp at hlen; omega
        rw [embedRec_cons_space]
        cases b with
        | false =>
          have hrec := ih bs (some regularSpace) hzw' hnb'
            (by simp [Ne.symm zeroWidth_ne_regular]) hcap
          show extractBitsAux prev ([regularSpace] ++ embedRec false cs bs) = _
          rw [List.singleton_append, extractBitsAux_cons_space prev hprev, hrec]
          simp
        | true =>
          have hrec := ih bs (some noBreakSpace) hzw' hnb'
            (by simp [Ne.symm zeroWidth_ne_noBreak]) hcap
          show extractBitsAux prev ([noBreakSpace] ++ embedRec false cs bs) = _
          rw [List.singleton_append, extractBitsAux_cons_noBreak, hrec]
          simp
    · simp only [if_neg hc, List.length_map] at hlen ⊢
      have hrec := ih bits (some c) hzw' hnb' (by simpa using hczw) hlen
      have hemb : embedRec false (c :: cs) bits = c :: embedRec false cs bits := by
        cases bits <;> simp [embedRec, hc]
      rw [hemb, extractBitsAux_cons_other prev c hc hcnb, hrec]

/-- Length preservation under default options (all replacements are a
single character). -/
theorem embedRec_length (t : List Char) :
    ∀ bits : List Bool, (embedRec false t bits).length = t.length := by
  induction t with
  | nil => intro bits; rfl
  | cons c cs ih =>
    intro bits
    by_cases hc : c = regularSpace
    · subst hc
      cases bits with
      | nil => simp [embedRec, ih]
      | cons b bs => cases b <;> simp [embedRec, bitRepl, ih]
    · simp [embedRec, hc, ih]

/-- Frame property of the traversal embedding: any position that does not
hold a regular space is left untouched (default options). -/
theorem embedRec_getElem (t : List Char) :
    ∀ (bits : List Bool) (i : Nat), t[i]? ≠ some regularSpace →
      (embedRec false t bits)[i]? = t[i]? := by
  induction t with
  | nil => intro bits i _; simp [embedRec]
  | cons c cs ih =>
    intro bits i hi
    by_cases hc : c = regularSpace
    · subst hc
      cases i with
      | zero => simp at hi
      | succ j =>
        have hj : cs[j]? ≠ some regularSpace := by simpa using hi
        cases bits with
        | nil => rw [embedRec_nil_bits]
        | cons b bs =>
          show ((bitRepl false b) ++ embedRec false cs bs)[j+1]? = _
          cases b <;> simp [bitRepl, ih bs j hj]
    · cases i with
      | zero => simp [embedRec, hc]
      | succ j =>
        have hj : cs[j]? ≠ some regularSpace := by simpa using hi
        simp [embedRec, hc, ih bits j hj]

/-! ### Bit-string / byte round trip -/

theorem bitsToNat_append_singleton (l : List Bool) (b : Bool) :
    bitsToNat (l ++ [b]) = 2 * bitsToNat l + (if b then 1 else 0) := by
  simp [bitsToNat, List.foldl_append]

theorem bitsToNat_replicate_false_append (k : Nat) (l : List Bool) :
    bitsToNat (List.replicate k false ++ l) = bitsToNat l := by
  induction k with
  | zero => rfl
  | succ n ih => simpa [bitsToNat, List.replicate_succ] using ih

theorem bitsToNat_padStart8 (l : List Bool) : bitsToNat (padStart8 l) = bitsToNat l :=
  bitsToNat_replicate_false_append _ _

theorem bitsToNat_natToBitsGo :
    ∀ (fuel n : Nat), n ≤ fuel → bitsToNat (natToBitsGo fuel n) = n := by
  intro fuel
  induction fuel with
  | zero =>
    intro n hn
    interval_cases n
    rfl
  | succ f ih =>
    intro n hn
    match n with
    | 0 => rfl
    | 1 => rfl
    | m + 2 =>
      have h2 : ¬ m + 2 < 2 := by omega
      show bitsToNat (natToBitsGo (f + 1) (m + 2)) = m + 2
      rw [natToBitsGo, if_neg h2, bitsToNat_append_singleton,
        ih ((m + 2) / 2) (by omega)]
      rcases Nat.even_or_odd (m + 2) with he | ho
      · have : (m + 2) % 2 = 0 := Nat.even_iff.mp he
        simp [this]
        omega
      · have : (m + 2) % 2 = 1 := Nat.odd_iff.mp ho
        simp [this]
        omega

theorem bitsToNat_natToBits (n : Nat) : bitsToNat (natToBits n) = n :=
  bitsToNat_natToBitsGo n n le_rfl

theorem natToBitsGo_length_le :
    ∀ (fuel n k : Nat), n ≤ fuel → n < 2 ^ k → 1 ≤ k →
      (natToBitsGo fuel n).length ≤ k := by
  intro fuel
  induction fuel with
  | zero =>
    intro n k hn _ hk
    interval_cases n
    simpa [natToBitsGo] using hk
  | succ f ih =>
    intro n k hn hnk hk
    rcases n with _ | _ | m
    · simpa [natToBitsGo] using hk
    · simpa [natToBitsGo] using hk
    · have h2 : ¬ m + 1 + 1 < 2 := by omega
      rw [natToBitsGo, if_neg h2]
      have hk2 : 2 ≤ k := by
        by_contra hlt
        interval_cases k
        omega
      have hpow : 2 ^ k = 2 ^ (k - 1) * 2 := by
        conv_lhs => rw [show k = k - 1 + 1 by omega]
        rw [Nat.pow_succ]
      have hdiv : (m + 1 + 1) / 2 < 2 ^ (k - 1) := by
        apply Nat.div_lt_of_lt_mul
        omega
      have hrec := ih ((m + 1 + 1) / 2) (k - 1) (by omega) hdiv (by omega)
      rw [List.length_append]
      simp only [List.length_cons, List.length_nil]
      omega

theorem charBits_length (c : Char) (h : c.toNat < 256) : (charBits c).length = 8 := by
  have := natToBitsGo_length_le c.toNat c.toNat 8 le_rfl (by simpa using h) (by omega)
  simp [charBits, padStart8, natToBits]
  omega

theorem bitsToNat_charBits (c : Char) : bitsToNat (charBits c) = c.toNat := by
  rw [charBits, bitsToNat_padStart8, bitsToNat_natToBits]

theorem chunk8Go_cons (fuel : Nat) (x : Bool) (xs : List Bool) :
    chunk8Go (fuel + 1) (x :: xs) = (x :: xs).take 8 :: chunk8Go fuel ((x :: xs).drop 8) :=
  rfl

/-- De-chunking a concatenation of 8-bit blocks recovers the blocks. -/
theorem chunk8Go_flatten :
    ∀ (blocks : List (List Bool)) (fuel : Nat), blocks.length ≤ fuel →
      (∀ b ∈ blocks, b.length = 8) → chunk8Go fuel blocks.flatten = blocks := by
  intro blocks
  induction blocks with
  | nil =>
    intro fuel _ _
    cases fuel <;> rfl
  | cons b bs ih =>
    intro fuel hfuel hlen
    have hb : b.length = 8 := hlen b (List.mem_cons_self _ _)
    match fuel with
    | 0 => exact absurd hfuel (by simp)
    | f + 1 =>
      have hbne : b ++ bs.flatten ≠ [] := by
        intro h
        have hb0 : b = [] := (List.append_eq_nil.mp h).1
        rw [hb0] at hb
        simp at hb
      have hcons : ∃ x xs, b ++ bs.flatten = x :: xs := by
        cases hx : b ++ bs.flatten with
        | nil => exact absurd hx hbne
        | cons x xs => exact ⟨x, xs, rfl⟩
      obtain ⟨x, xs, hx⟩ := hcons
      show chunk8Go (f + 1) (b ++ bs.flatten) = b :: bs
      rw [hx, chunk8Go_cons, ← hx]
      have htake : (b ++ bs.flatten).take 8 = b := by
        rw [← hb]
        exact List.take_left b bs.flatten
      have hdrop : (b ++ bs.flatten).drop 8 = bs.flatten := by
        rw [← hb]
        exact List.drop_left b bs.flatten
      rw [htake, hdrop, ih f (by simp at hfuel; omega)
        (fun x hx => hlen x (List.mem_cons_of_mem _ hx))]

theorem textToBinary_length (s : List Char) (h : ∀ c ∈ s, c.toNat < 256) :
    (textToBinary s).length = 8 * s.length := by
  induction s with
  | nil => rfl
  | cons c cs ih =>
    have hc : c.toNat < 256 := h c (List.mem_cons_self _ _)
    have := ih (fun x hx => h x (List.mem_cons_of_mem _ hx))
    simp only [textToBinary, List.map_cons, List.flatten_cons, List.length_append,
      charBits_length c hc]
    simp only [textToBinary] at this
    rw [this]
    simp [Nat.mul_succ]
    omega

/-- Decoding the bit string of a text recovers the text (for characters
below 256, where `_textToBinary` emits exactly 8 bits per character). -/
theorem binaryToText_textToBinary (s : List Char) (h : ∀ c ∈ s, c.toNat < 256) :
    binaryToText (textToBinary s) = s := by
  have hlen := textToBinary_length s h
  have hmod : (textToBinary s).length % 8 = 0 := by omega
  have hpad : (8 - (textToBinary s).length % 8) % 8 = 0 := by rw [hmod]
  rw [binaryToText]
  simp only [hpad, List.replicate_zero, List.append_nil]
  have hflat : textToBinary s = (s.map charBits).flatten := rfl
  rw [chunk8, hflat, chunk8Go_flatten (s.map charBits) _
    (by
      simp only [← hflat, hlen, List.length_map]
      omega)
    (by
      intro b hb
      obtain ⟨c, hc, rfl⟩ := List.mem_map.mp hb
      exact charBits_length c (h c hc))]
  rw [List.map_map]
  have : (fun byte => Char.ofNat (bitsToNat byte)) ∘ charBits = id := by
    funext c
    simp [Function.comp, bitsToNat_charBits, Char.ofNat_toNat]
  rw [this, List.map_id]

/-- Decoding a text's bit string followed by `k` stray `0` bits
(`1 ≤ k ≤ 8`) yields the text followed by one NUL character. -/
theorem binaryToText_extra (s : List Char) (k : Nat) (h : ∀ c ∈ s, c.toNat < 256)
    (hk1 : 1 ≤ k) (hk8 : k ≤ 8) :
    binaryToText (textToBinary s ++ List.replicate k false) = s ++ [Char.ofNat 0] := by
  have hlen := textToBinary_length s h
  have hmod : (textToBinary s ++ List.replicate k false).length % 8 = k % 8 := by
    simp [List.length_append, hlen]
    omega
  have hpadlen : (8 - (textToBinary s ++ List.replicate k false).length % 8) % 8 = 8 - k := by
    rw [hmod]
    rcases Nat.lt_or_ge k 8 with hlt | hge
    · rw [Nat.mod_eq_of_lt hlt, Nat.mod_eq_of_lt (by omega)]
    · have hk : k = 8 := by omega
      simp [hk]
  rw [binaryToText]
  simp only [hpadlen]
  have hjoin : textToBinary s ++ List.replicate k false ++ List.replicate (8 - k) false
      = ((s.map charBits) ++ [List.replicate 8 false]).flatten := by
    rw [List.flatten_append]
    have : List.replicate k false ++ List.replicate (8 - k) false
        = List.replicate 8 false := by
      rw [List.append_replicate_replicate]
      congr 1
      omega
    simp [textToBinary, ← this]
  rw [hjoin, chunk8, chunk8Go_flatten _ _
    (by
      have hfl : ((s.map charBits) ++ [List.replicate 8 false]).flatten.length
          = 8 * s.length + 8 := by
        rw [← hjoin]
        simp [hlen]
        omega
      rw [hfl]
      simp
      omega)
    (by
      intro b hb
      rcases List.mem_append.mp hb with hb | hb
      · obtain ⟨c, hc, rfl⟩ := List.mem_map.mp hb
        exact charBits_length c (h c hc)
      · simp at hb
        simp [hb])]
  rw [List.map_append, List.map_map]
  have : (fun byte => Char.ofNat (bitsToNat byte)) ∘ charBits = id := by
    funext c
    simp [Function.comp, bitsToNat_charBits, Char.ofNat_toNat]
  rw [this, List.map_id]
  rfl

/-! ### Payload serializer / parser round trip -/

/-- A character that `JSON.stringify` emits verbatim inside a string
literal: printable ASCII, no quote, no backslash. -/
def plainCharB (c : Char) : Bool :=
  32 ≤ c.toNat && c.toNat < 128 && c ≠ '"' && c ≠ '\\'

def plainStrB (s : String) : Bool :=
  s.data.all plainCharB

/-- All field values of the payload are plain (so serialization needs no
escapes and every character fits in one byte). -/
def plainPayloadB (p : WatermarkPayload) : Bool :=
  plainStrB p.did && plainStrB p.timestamp
    && p.metadataHash.all plainStrB && p.issuer.all plainStrB
    && p.expirationDate.all plainStrB

theorem String.mk_data (s : String) : String.mk s.data = s := rfl

theorem readStr_append (w rest : List Char) (hq : '"' ∉ w) (hb : '\\' ∉ w) :
    readStr (w ++ '"' :: rest) = some (w, rest) := by
  induction w with
  | nil => simp [readStr]
  | cons c cs ih =>
    have hcq : c ≠ '"' := fun h => hq (h ▸ List.mem_cons_self _ _)
    have hcb : c ≠ '\\' := fun h => hb (h ▸ List.mem_cons_self _ _)
    have ih' := ih (fun h => hq (List.mem_cons_of_mem _ h))
      (fun h => hb (List.mem_cons_of_mem _ h))
    simp [readStr, hcq, hcb, ih']

theorem plainStrB_no_quote {s : String} (h : plainStrB s = true) : '"' ∉ s.data := by
  intro hm
  have := List.all_eq_true.mp h _ hm
  simp [plainCharB] at this

theorem plainStrB_no_backslash {s : String} (h : plainStrB s = true) : '\\' ∉ s.data := by
  intro hm
  have := List.all_eq_true.mp h _ hm
  simp [plainCharB] at this

theorem serializeMember_data (k v : String) :
    (serializeMember (k, v)).data
      = '"' :: (k.data ++ '"' :: ':' :: '"' :: (v.data ++ ['"'])) := by
  simp [serializeMember, String.data_append]

theorem parseMember_append (k v : String) (rest : List Char)
    (hk : plainStrB k = true) (hv : plainStrB v = true) :
    parseMember ((serializeMember (k, v)).data ++ rest) = some ((k, v), rest) := by
  rw [serializeMember_data]
  show parseMember ('"' :: ((k.data ++ '"' :: ':' :: '"' :: (v.data ++ ['"'])) ++ rest))
    = some ((k, v), rest)
  have h1 : (k.data ++ '"' :: ':' :: '"' :: (v.data ++ ['"'])) ++ rest
      = k.data ++ '"' :: (':' :: '"' :: (v.data ++ '"' :: rest)) := by
    simp
  rw [parseMember, h1,
    readStr_append k.data _ (plainStrB_no_quote hk) (plainStrB_no_backslash hk)]
  simp only [Option.bind_eq_bind, Option.some_bind]
  rw [readStr_append v.data rest (plainStrB_no_quote hv) (plainStrB_no_backslash hv)]
  simp [String.mk_data]

/-- Plainness of a member list. -/
def plainPairsB (ps : List (String × String)) : Bool :=
  ps.all (fun kv => plainStrB kv.1 && plainStrB kv.2)

theorem parseMembersF_append (ps : List (String × String)) :
    ∀ (rest : List Char) (fuel : Nat), ps ≠ [] → plainPairsB ps = true →
      ps.length ≤ fuel → rest.head? ≠ some ',' →
      parseMembersF fuel ((serializeMembers ps).data ++ rest) = some (ps, rest) := by
  induction ps with
  | nil => intro _ _ hne; exact absurd rfl hne
  | cons kv kvs ih =>
    intro rest fuel _ hplain hfuel hrest
    have hkv : plainStrB kv.1 = true ∧ plainStrB kv.2 = true := by
      have := List.all_eq_true.mp hplain kv (List.mem_cons_self _ _)
      constructor <;> simp_all
    match fuel with
    | 0 => simp at hfuel
    | f + 1 =>
      cases kvs with
      | nil =>
        show parseMembersF (f + 1) ((serializeMember kv).data ++ rest) = _
        rw [parseMembersF]
        obtain ⟨k, v⟩ := kv
        rw [parseMember_append k v rest hkv.1 hkv.2]
        simp only [Option.bind_eq_bind, Option.some_bind]
        cases hr : rest with
        | nil => rfl
        | cons c cs =>
          have hc : c ≠ ',' := by
            rw [hr] at hrest
            simpa using hrest
          cases hcc : c
          simp_all [parseMembersF]
      | cons kv2 kvs2 =>
        have hser : serializeMembers (kv :: kv2 :: kvs2)
            = serializeMember kv ++ "," ++ serializeMembers (kv2 :: kvs2) := by
          rfl
        rw [hser]
        have hdata : (serializeMember kv ++ "," ++ serializeMembers (kv2 :: kvs2)).data ++ rest
            = (serializeMember kv).data
              ++ (',' :: ((serializeMembers (kv2 :: kvs2)).data ++ rest)) := by
          simp [String.data_append]
        rw [hdata, parseMembersF]
        obtain ⟨k, v⟩ := kv
        rw [parseMember_append k v _ hkv.1 hkv.2]
        simp only [Option.bind_eq_bind, Option.some_bind]
        have hplain2 : plainPairsB (kv2 :: kvs2) = true := by
          simp only [plainPairsB, List.all_cons, Bool.and_eq_true] at hplain ⊢
          exact hplain.2
        rw [ih rest f (by simp) hplain2 (by simp at hfuel ⊢; omega) hrest]
        rfl

theorem payloadOfPairs_payloadMembers (p : WatermarkPayload) :
    payloadOfPairs (payloadMembers p) = some p := by
  obtain ⟨d, t, mh, is, ed⟩ := p
  cases mh <;> cases is <;> cases ed <;> rfl

theorem serializeMembers_length_ge (ps : List (String × String)) :
    ps.length ≤ (serializeMembers ps).data.length := by
  induction ps with
  | nil => simp
  | cons kv kvs ih =>
    cases kvs with
    | nil =>
      obtain ⟨k, v⟩ := kv
      show [(k, v)].length ≤ (serializeMember (k, v)).data.length
      rw [serializeMember_data]
      simp
    | cons kv2 kvs2 =>
      have hser : serializeMembers (kv :: kv2 :: kvs2)
          = serializeMember kv ++ "," ++ serializeMembers (kv2 :: kvs2) := rfl
      obtain ⟨k, v⟩ := kv
      rw [hser]
      simp only [String.data_append, List.length_append, serializeMember_data]
      simp at ih ⊢
      omega

theorem stringifyPayload_data (p : WatermarkPayload) :
    (stringifyPayload p).data
      = '\x7b' :: ((serializeMembers (payloadMembers p)).data ++ ['\x7d']) := by
  simp [stringifyPayload, String.data_append]

theorem payloadMembers_ne_nil (p : WatermarkPayload) : payloadMembers p ≠ [] := by
  simp [payloadMembers]

theorem plainPairsB_payloadMembers (p : WatermarkPayload)
    (h : plainPayloadB p = true) : plainPairsB (payloadMembers p) = true := by
  obtain ⟨d, t, mh, is, ed⟩ := p
  simp only [plainPayloadB, Bool.and_eq_true] at h
  obtain ⟨⟨⟨⟨h1, h2⟩, h3⟩, h4⟩, h5⟩ := h
  have hdid : plainStrB "did" = true := by decide
  have hts : plainStrB "timestamp" = true := by decide
  have hmh : plainStrB "metadataHash" = true := by decide
  have his : plainStrB "issuer" = true := by decide
  have hed : plainStrB "expirationDate" = true := by decide
  cases mh <;> cases is <;> cases ed <;>
    simp_all [plainPairsB, payloadMembers, Option.all]

/-- `JSON.parse ∘ JSON.stringify` is the identity on watermark payloads
with plain field values, and any nonempty junk after the closing brace
makes the parse fail.  Together these model the behaviour of `JSON.parse`
in `TextWatermarkStrategy.extract`. -/
theorem parsePayload_stringify_append (p : WatermarkPayload) (junk : List Char)
    (h : plainPayloadB p = true) :
    parsePayload (String.mk ((stringifyPayload p).data ++ junk))
      = if junk = [] then some p else none := by
  rw [stringifyPayload_data]
  have hinput : ('\x7b' :: ((serializeMembers (payloadMembers p)).data ++ ['\x7d'])) ++ junk
      = '\x7b' :: ((serializeMembers (payloadMembers p)).data ++ ('\x7d' :: junk)) := by
    simp
  rw [hinput]
  show (match parseMembersF _ _ with
    | some (ps, ['\x7d']) => payloadOfPairs ps
    | _ => none) = _
  rw [parseMembersF_append (payloadMembers p) ('\x7d' :: junk) _
    (payloadMembers_ne_nil p) (plainPairsB_payloadMembers p h)
    (by
      have h1 := serializeMembers_length_ge (payloadMembers p)
      simp only [List.length_append, List.length_cons]
      omega)
    (by simp)]
  cases junk with
  | nil => simp [payloadOfPairs_payloadMembers]
  | cons c cs => rfl

theorem parsePayload_stringify (p : WatermarkPayload) (h : plainPayloadB p = true) :
    parsePayload (stringifyPayload p) = some p := by
  have := parsePayload_stringify_append p [] h
  simpa [String.mk_data] using this

theorem plainStrB_chars {s : String} {c : Char} (h : plainStrB s = true)
    (hc : c ∈ s.data) : c.toNat < 256 := by
  have := List.all_eq_true.mp h _ hc
  simp only [plainCharB, Bool.and_eq_true, decide_eq_true_eq] at this
  omega

theorem serializeMembers_chars (ps : List (String × String)) :
    plainPairsB ps = true → ∀ c ∈ (serializeMembers ps).data, c.toNat < 256 := by
  induction ps with
  | nil => intro _ c hc; simp [serializeMembers] at hc
  | cons kv kvs ih =>
    intro hplain c hc
    have hkv : plainStrB kv.1 = true ∧ plainStrB kv.2 = true := by
      have := List.all_eq_true.mp hplain kv (List.mem_cons_self _ _)
      constructor <;> simp_all
    obtain ⟨k, v⟩ := kv
    cases kvs with
    | nil =>
      rw [show serializeMembers [(k, v)] = serializeMember (k, v) from rfl,
        serializeMember_data] at hc
      simp only [List.mem_cons, List.mem_append, List.mem_singleton,
        List.not_mem_nil, or_false] at hc
      rcases hc with rfl | hc
      · decide
      rcases hc with hc | hc
      · exact plainStrB_chars hkv.1 hc
      rcases hc with rfl | hc
      · decide
      rcases hc with rfl | hc
      · decide
      rcases hc with rfl | hc
      · decide
      rcases hc with hc | rfl
      · exact plainStrB_chars hkv.2 hc
      · decide
    | cons kv2 kvs2 =>
      rw [show serializeMembers ((k, v) :: kv2 :: kvs2)
          = serializeMember (k, v) ++ "," ++ serializeMembers (kv2 :: kvs2) from rfl] at hc
      simp only [String.data_append, List.mem_append] at hc
      have hplain2 : plainPairsB (kv2 :: kvs2) = true := by
        simp only [plainPairsB, List.all_cons, Bool.and_eq_true] at hplain ⊢
        exact hplain.2
      rcases hc with hc | hc
      · rcases hc with hc | hc
        · rw [serializeMember_data] at hc
          simp only [List.mem_cons, List.mem_append, List.mem_singleton,
            List.not_mem_nil, or_false] at hc
          rcases hc with rfl | hc
          · decide
          rcases hc with hc | hc
          · exact plainStrB_chars hkv.1 hc
          rcases hc with rfl | hc
          · decide
          rcases hc with rfl | hc
          · decide
          rcases hc with rfl | hc
          · decide
          rcases hc with hc | rfl
          · exact plainStrB_chars hkv.2 hc
          · decide
        · have : c = ',' := by simpa using hc
          subst this; decide
      · exact ih hplain2 c hc

theorem stringifyPayload_chars (p : WatermarkPayload) (h : plainPayloadB p = true) :
    ∀ c ∈ (stringifyPayload p).data, c.toNat < 256 := by
  intro c hc
  rw [stringifyPayload_data] at hc
  simp only [List.mem_cons, List.mem_append, List.mem_singleton,
    List.not_mem_nil, or_false] at hc
  rcases hc with rfl | hc
  · decide
  rcases hc with hc | rfl
  · exact serializeMembers_chars (payloadMembers p) (plainPairsB_payloadMembers p h) c hc
  · decide

theorem stringifyPayload_length_ge (p : WatermarkPayload) :
    2 ≤ (stringifyPayload p).data.length := by
  rw [stringifyPayload_data]
  simp

/-! ### Claim theorems: C1 (watermark round trip) and C8 (frame) -/

/-- **C1** (amended).  Round trip of the spaces channel at exact capacity:
if the text contains exactly as many ASCII spaces as the payload bit
string has bits, no watermark alphabet characters (U+00A0, U+200B) occur
in the text, and the payload fields are plain printable ASCII, then
extraction from the embedding returns the payload.  (The original claim,
with *at least* as many spaces, fails: every surplus space contributes a
surplus `0` bit, the decoded text gains trailing NUL characters, and
`JSON.parse` rejects it — see `c1_counterexample`.) -/
theorem c1_extract_embed_roundtrip (t : List Char) (p : WatermarkPayload)
    (hzw : zeroWidthSpace ∉ t) (hnb : noBreakSpace ∉ t)
    (hplain : plainPayloadB p = true)
    (hcap : (spacesIndices t).length = (textToBinary (stringifyPayload p).data).length) :
    (embedSpacesPayload t p false).map extractSpacesPayload = some (some p) := by
  have hchars := stringifyPayload_chars p hplain
  have hbitlen : (textToBinary (stringifyPayload p).data).length
      = 8 * (stringifyPayload p).data.length := textToBinary_length _ hchars
  have hemb : embedSpacesPayload t p false
      = some (embedRec false t (textToBinary (stringifyPayload p).data)) := by
    rw [embedSpacesPayload, embedWithSpaces]
    simp only [hcap, lt_self_iff_false, if_false]
    rw [embedGo_eq_embedRec false t _ (le_of_eq hcap.symm)]
  rw [hemb]
  have hscan := extractBitsAux_embedRec t (textToBinary (stringifyPayload p).data) none
    hzw hnb (by simp) (le_of_eq hcap.symm)
  rw [hcap] at hscan
  simp only [Nat.sub_self, List.replicate_zero, List.append_nil] at hscan
  have hlen16 : ¬ (textToBinary (stringifyPayload p).data).length < 16 := by
    have := stringifyPayload_length_ge p
    omega
  have hextr : extractFromSpaces (embedRec false t (textToBinary (stringifyPayload p).data))
      = some (textToBinary (stringifyPayload p).data) := by
    rw [extractFromSpaces]
    simp only [hscan, hlen16, if_false]
  simp only [Option.map_some']
  rw [extractSpacesPayload, hextr, Option.some_bind,
    binaryToText_textToBinary _ hchars, String.mk_data,
    parsePayload_stringify p hplain]

def c1WitnessText : List Char := List.replicate 200 ' '

def c1WitnessPayload : WatermarkPayload := ⟨"", "", none, none, none⟩

set_option maxRecDepth 40000 in
theorem c1_extract_embed_roundtrip_witness :
    (zeroWidthSpace ∉ c1WitnessText ∧ noBreakSpace ∉ c1WitnessText
      ∧ plainPayloadB c1WitnessPayload = true
      ∧ (spacesIndices c1WitnessText).length
          = (textToBinary (stringifyPayload c1WitnessPayload).data).length)
    ∧ (embedSpacesPayload c1WitnessText c1WitnessPayload false).map extractSpacesPayload
        = some (some c1WitnessPayload) :=
  ⟨⟨by decide, by decide, by decide, by decide⟩,
    c1_extract_embed_roundtrip c1WitnessText c1WitnessPayload
      (by decide) (by decide) (by decide) (by decide)⟩

def c1Text : List Char := List.replicate 201 ' '

def c1Payload : WatermarkPayload := ⟨"", "", none, none, none⟩

set_option maxRecDepth 40000 in
/-- **C1, counterexample to the claim as stated.**  `c1Text` has 201
spaces, one more than the 200 payload bits, so the claim's capacity
hypothesis holds, the embedding succeeds — and extraction returns `none`
(the stray `0` bit decodes to a trailing NUL byte that `JSON.parse`
rejects), not the payload. -/
theorem c1_counterexample :
    (textToBinary (stringifyPayload c1Payload).data).length ≤ (spacesIndices c1Text).length
    ∧ (embedSpacesPayload c1Text c1Payload false).map extractSpacesPayload
        ≠ some (some c1Payload) := by
  have hchars := stringifyPayload_chars c1Payload (by decide)
  have hbits : (textToBinary (stringifyPayload c1Payload).data).length = 200 := by decide
  have hsp : (spacesIndices c1Text).length = 201 := by decide
  have hzw : zeroWidthSpace ∉ c1Text := by decide
  have hnb : noBreakSpace ∉ c1Text := by decide
  refine ⟨by omega, ?_⟩
  have hemb : embedSpacesPayload c1Text c1Payload false
      = some (embedRec false c1Text (textToBinary (stringifyPayload c1Payload).data)) := by
    rw [embedSpacesPayload, embedWithSpaces]
    simp only [hbits, hsp]
    rw [if_neg (by omega)]
    rw [embedGo_eq_embedRec false c1Text _ (by rw [hbits, hsp]; omega)]
  rw [hemb]
  simp only [Option.map_some']
  have hscan := extractBitsAux_embedRec c1Text
    (textToBinary (stringifyPayload c1Payload).data) none hzw hnb (by simp)
    (by rw [hbits, hsp]; omega)
  rw [hsp, hbits] at hscan
  rw [show (201 : Nat) - 200 = 1 from by norm_num] at hscan
  have hextr : extractFromSpaces
      (embedRec false c1Text (textToBinary (stringifyPayload c1Payload).data))
      = some (textToBinary (stringifyPayload c1Payload).data
          ++ List.replicate 1 false) := by
    have hl : (textToBinary (stringifyPayload c1Payload).data
        ++ List.replicate 1 false).length = 201 := by
      simp [hbits]
    rw [extractFromSpaces]
    simp only [hscan, hl]
    rw [if_neg (by omega)]
  rw [extractSpacesPayload, hextr, Option.some_bind,
    binaryToText_extra _ 1 hchars (by omega) (by omega)]
  have hjunk := parsePayload_stringify_append c1Payload [Char.ofNat 0] (by decide)
  rw [hjunk]
  simp

/-- **C8.**  Frame property of the spaces channel (default options): with
sufficient capacity the embedding succeeds, preserves the text length, and
leaves every position that is not an ASCII space unchanged. -/
theorem c8_embed_frame (t : List Char) (p : WatermarkPayload)
    (hcap : (textToBinary (stringifyPayload p).data).length ≤ (spacesIndices t).length) :
    (embedSpacesPayload t p false).isSome = true
    ∧ ((embedSpacesPayload t p false).getD []).length = t.length
    ∧ ∀ i : Nat, t[i]? ≠ some regularSpace →
        ((embedSpacesPayload t p false).getD [])[i]? = t[i]? := by
  have hemb : embedSpacesPayload t p false
      = some (embedRec false t (textToBinary (stringifyPayload p).data)) := by
    rw [embedSpacesPayload, embedWithSpaces]
    simp only [Nat.not_lt.mpr hcap, if_false]
    rw [embedGo_eq_embedRec false t _ hcap]
  rw [hemb]
  exact ⟨rfl, embedRec_length t _, fun i hi => embedRec_getElem t _ i hi⟩

def c8WitnessText : List Char := 'a' :: List.replicate 200 ' '

set_option maxRecDepth 40000 in
theorem c8_embed_frame_witness :
    (textToBinary (stringifyPayload c1WitnessPayload).data).length
        ≤ (spacesIndices c8WitnessText).length
    ∧ ((embedSpacesPayload c8WitnessText c1WitnessPayload false).isSome = true
        ∧ ((embedSpacesPayload c8WitnessText c1WitnessPayload false).getD []).length
            = c8WitnessText.length
        ∧ ∀ i : Nat, c8WitnessText[i]? ≠ some regularSpace →
            ((embedSpacesPayload c8WitnessText c1WitnessPayload false).getD [])[i]?
              = c8WitnessText[i]?) :=
  ⟨by decide, c8_embed_frame c8WitnessText c1WitnessPayload (by decide)⟩

end Watermark

/-! ## Identifier factory (`DIDFactory`)

`did_factory.js`: canonical hashing (`_generateHash`), identifier assembly
(`generateDID`), compression (`_compressIdentifier`) and decompression
(`decompressDID`).  Bytes are `Nat` below 256.  SHA-256 is implemented
from FIPS 180-4 (the source delegates to Node's `crypto` module). -/

namespace DIDFactory

/-- 32-bit truncation. -/
def m32 (n : Nat) : Nat := n % 4294967296

def rotr (n x : Nat) : Nat :=
  m32 ((x >>> n) ||| (x <<< (32 - n)))

def shaCh (x y z : Nat) : Nat := (x &&& y) ^^^ ((4294967295 - x) &&& z)

def shaMaj (x y z : Nat) : Nat := (x &&& y) ^^^ (x &&& z) ^^^ (y &&& z)

def bigSigma0 (x : Nat) : Nat := rotr 2 x ^^^ rotr 13 x ^^^ rotr 22 x

def bigSigma1 (x : Nat) : Nat := rotr 6 x ^^^ rotr 11 x ^^^ rotr 25 x

def smallSigma0 (x : Nat) : Nat := rotr 7 x ^^^ rotr 18 x ^^^ (x >>> 3)

def smallSigma1 (x : Nat) : Nat := rotr 17 x ^^^ rotr 19 x ^^^ (x >>> 10)

def shaK : List Nat :=
  [1116352408, 1899447441, 3049323471, 3921009573, 961987163, 1508970993,
   2453635748, 2870763221, 3624381080, 310598401, 607225278, 1426881987,
   1925078388, 2162078206, 2614888103, 3248222580, 3835390401, 4022224774,
   264347078, 604807628, 770255983, 1249150122, 1555081692, 1996064986,
   2554220882, 2821834349, 2952996808, 3210313671, 3336571891, 3584528711,
   113926993, 338241895, 666307205, 773529912, 1294757372, 1396182291,
   1695183700, 1986661051, 2177026350, 2456956037, 2730485921, 2820302411,
   3259730800, 3345764771, 3516065817, 3600352804, 4094571909, 275423344,
   430227734, 506948616, 659060556, 883997877, 958139571, 1322822218,
   1537002063, 1747873779, 1955562222, 2024104815, 2227730452, 2361852424,
   2428436474, 2756734187, 3204031479, 3329325298]

def shaH0 : List Nat :=
  [1779033703, 3144134277, 1013904242, 2773480762,
   1359893119, 2600822924, 528734635, 1541459225]

/-- Message padding: `0x80`, zeros to 56 mod 64, 8-byte big-endian bit
length. -/
def shaPad (msg : List Nat) : List Nat :=
  let len := msg.length
  let zeros := (64 + 56 - (len + 1) % 64) % 64
  let bitLen := 8 * len
  msg ++ [0x80] ++ List.replicate zeros 0
    ++ [m32 (bitLen >>> 56) % 256, (bitLen >>> 48) % 256, (bitLen >>> 40) % 256,
        (bitLen >>> 32) % 256, (bitLen >>> 24) % 256, (bitLen >>> 16) % 256,
        (bitLen >>> 8) % 256, bitLen % 256]

/-- Split a padded message into 64-byte blocks (fuelled structural
recursion as for `chunk8Go`). -/
def blocks64Go : Nat → List Nat → List (List Nat)
  | _, [] => []
  | 0, _ :: _ => []
  | fuel + 1, l => l.take 64 :: blocks64Go fuel (l.drop 64)

def blocks64 (l : List Nat) : List (List Nat) :=
  blocks64Go l.length l

/-- The 16 initial 32-bit big-endian words of a block. -/
def blockWords (b : List Nat) : List Nat :=
  (List.range 16).map (fun i =>
    (b.getD (4 * i) 0) <<< 24 ||| (b.getD (4 * i + 1) 0) <<< 16
      ||| (b.getD (4 * i + 2) 0) <<< 8 ||| b.getD (4 * i + 3) 0)

/-- Extend the schedule to 64 words. -/
def extendWords (w : List Nat) : List Nat :=
  (List.range 48).foldl
    (fun w _ =>
      let n := w.length
      w ++ [m32 (smallSigma1 (w.getD (n - 2) 0) + w.getD (n - 7) 0
        + smallSigma0 (w.getD (n - 15) 0) + w.getD (n - 16) 0)])
    w

/-- One compression round; the state is `[a, b, c, d, e, f, g, h]`. -/
def shaRound (st : List Nat) (kw : Nat × Nat) : List Nat :=
  let a := st.getD 0 0
  let b := st.getD 1 0
  let c := st.getD 2 0
  let d := st.getD 3 0
  let e := st.getD 4 0
  let f := st.getD 5 0
  let g := st.getD 6 0
  let h := st.getD 7 0
  let t1 := m32 (h + bigSigma1 e + shaCh e f g + kw.1 + kw.2)
  let t2 := m32 (bigSigma0 a + shaMaj a b c)
  [m32 (t1 + t2), a, b, c, m32 (d + t1), e, f, g]

def shaCompress (h : List Nat) (block : List Nat) : List Nat :=
  let w := extendWords (blockWords block)
  let st := (shaK.zip w).foldl shaRound h
  (h.zip st).map (fun p => m32 (p.1 + p.2))

/-- SHA-256 of a byte sequence, as 32 digest bytes. -/
def sha256 (msg : List Nat) : List Nat :=
  let hFinal := (blocks64 (shaPad msg)).foldl shaCompress shaH0
  hFinal.flatMap (fun w => [(w >>> 24) % 256, (w >>> 16) % 256, (w >>> 8) % 256, w % 256])

def hexDigit (n : Nat) : Char :=
  Char.ofNat (if n < 10 then 48 + n else 87 + n)

def byteToHex (n : Nat) : List Char :=
  [hexDigit (n / 16), hexDigit (n % 16)]

def bytesToHex (bs : List Nat) : String :=
  String.mk (bs.flatMap byteToHex)

/-- UTF-8 encoding of one scalar value (RFC 3629). -/
def utf8Char (c : Char) : List Nat :=
  let n := c.toNat
  if n < 0x80 then [n]
  else if n < 0x800 then [0xC0 ||| (n >>> 6), 0x80 ||| (n &&& 0x3F)]
  else if n < 0x10000 then
    [0xE0 ||| (n >>> 12), 0x80 ||| ((n >>> 6) &&& 0x3F), 0x80 ||| (n &&& 0x3F)]
  else
    [0xF0 ||| (n >>> 18), 0x80 ||| ((n >>> 12) &&& 0x3F),
     0x80 ||| ((n >>> 6) &&& 0x3F), 0x80 ||| (n &&& 0x3F)]

def utf8Bytes (s : String) : List Nat :=
  s.data.flatMap utf8Char

/-- `DIDFactory._generateHash` on a string resource:
`crypto.createHash('sha256').update(resource).digest('hex')`. -/
def generateHashStr (s : String) : String :=
  bytesToHex (sha256 (utf8Bytes s))

/-! ### Canonical JSON serialization (`_generateHash` on objects)

`_generateHash` serializes an object resource with
`JSON.stringify(resource, Object.keys(resource).sort())`.  Per
ECMA-262, an array second argument is a *property list*: at **every**
nesting level only the listed keys are serialized, in the order of the
list — here the lexicographically sorted top-level keys. -/

inductive Json where
  | str : String → Json
  | num : Int → Json
  | bool : Bool → Json
  | null : Json
  | arr : List Json → Json
  | obj : List (String × Json) → Json

/-- JSON string quoting.  Quote and backslash are escaped; control
characters (which never occur in resource attributes) are not modelled. -/
def jsQuote (s : String) : String :=
  String.mk ('"' :: s.data.flatMap (fun c => if c = '"' ∨ c = '\\' then ['\\', c] else [c])
    ++ ['"'])

/-- `Option`-valued map (serialization fails only on fuel exhaustion). -/
def optMapList (f : α → Option β) : List α → Option (List β)
  | [] => some []
  | x :: xs => (f x).bind (fun y => (optMapList f xs).map (y :: ·))

/-- The members selected by a property list `K`: for each listed key, in
list order, the object's member if present. -/
def selectMembers (K : List String) (ps : List (String × Json)) :
    List (String × Json) :=
  K.filterMap (fun k => (ps.lookup k).map (fun v => (k, v)))

/-- `JSON.stringify(value, K)` with an array replacer `K` (fuelled; every
theorem below holds for all fuels, and callers pick a sufficient one). -/
def jsStringifyF : Nat → List String → Json → Option String
  | 0, _, _ => none
  | fuel + 1, K, j =>
    match j with
    | .str s => some (jsQuote s)
    | .num n => some (toString n)
    | .bool b => some (if b then "true" else "false")
    | .null => some "null"
    | .arr l =>
      (optMapList (jsStringifyF fuel K) l).map
        (fun ss => "[" ++ String.intercalate "," ss ++ "]")
    | .obj ps =>
      (optMapList
          (fun kv => (jsStringifyF fuel K kv.2).map (fun s => jsQuote kv.1 ++ ":" ++ s))
          (selectMembers K ps)).map
        (fun ms => "\x7b" ++ String.intercalate "," ms ++ "\x7d")

/-- Code-unit lexicographic comparison, the default comparator of
JavaScript `Array.prototype.sort` on strings. -/
def charListLe : List Char → List Char → Bool
  | [], _ => true
  | _ :: _, [] => false
  | x :: xs, y :: ys =>
    if x.toNat < y.toNat then true
    else if y.toNat < x.toNat then false
    else charListLe xs ys

def strLe (a b : String) : Prop := charListLe a.data b.data = true

instance : DecidableRel strLe := fun a b =>
  instDecidableEqBool (charListLe a.data b.data) true

def sortStr (l : List String) : List String :=
  l.insertionSort strLe

/-- `Object.keys(resource).sort()` (empty for non-objects). -/
def sortedTopKeys : Json → List String
  | .obj ps => sortStr (ps.map Prod.fst)
  | _ => []

/-- The canonical serialization `_generateHash` feeds to SHA-256. -/
def canonicalSerialize (fuel : Nat) (j : Json) : Option String :=
  jsStringifyF fuel (sortedTopKeys j) j

/-- `DIDFactory._generateHash` on an object resource. -/
def generateHashJson (fuel : Nat) (j : Json) : Option String :=
  (canonicalSerialize fuel j).map generateHashStr

/-- Structural equivalence of JSON trees up to object member order
(members compared by key, keys required duplicate-free). -/
def jsonEquivF : Nat → Json → Json → Bool
  | 0, _, _ => false
  | fuel + 1, a, b =>
    match a, b with
    | .str s, .str t => s == t
    | .num n, .num m => n == m
    | .bool x, .bool y => x == y
    | .null, .null => true
    | .arr l, .arr m =>
      l.length == m.length && (l.zip m).all (fun xy => jsonEquivF fuel xy.1 xy.2)
    | .obj ps, .obj qs =>
      let ka := ps.map Prod.fst
      let kb := qs.map Prod.fst
      decide ka.Nodup && decide kb.Nodup && sortStr ka == sortStr kb
        && ka.all (fun k =>
            match ps.lookup k, qs.lookup k with
            | some v, some w => jsonEquivF fuel v w
            | _, _ => false)
    | _, _ => false

theorem lookup_none_iff (ps : List (String × Json)) (k : String) :
    ps.lookup k = none ↔ k ∉ ps.map Prod.fst := by
  induction ps with
  | nil => simp
  | cons p ps ih =>
    obtain ⟨k', v⟩ := p
    by_cases hk : k = k'
    · subst hk
      simp [List.lookup]
    · have hbeq : (k == k') = false := beq_eq_false_iff_ne.mpr hk
      simp [List.lookup, hbeq, ih, hk]

theorem lookup_mem_of_some {ps : List (String × Json)} {k : String} {v : Json}
    (h : ps.lookup k = some v) : k ∈ ps.map Prod.fst := by
  by_contra hmem
  rw [← lookup_none_iff ps k] at hmem
  rw [h] at hmem
  exact Option.noConfusion hmem

theorem sortStr_perm (l : List String) : (sortStr l).Perm l :=
  List.perm_insertionSort _ l

/-- Key congruence lemma for C2: equivalent JSON values have identical
`JSON.stringify(·, K)` output, for every property list `K` and every
fuel. -/
theorem jsStringifyF_congr :
    ∀ (fuel' : Nat) (K : List String) (fuel : Nat) (a b : Json),
      jsonEquivF fuel a b = true → jsStringifyF fuel' K a = jsStringifyF fuel' K b := by
  intro fuel'
  induction fuel' with
  | zero => intro K fuel a b _; rfl
  | succ f' ih =>
    intro K fuel a b h
    match fuel with
    | 0 => simp [jsonEquivF] at h
    | f + 1 =>
      cases a with
      | str s =>
        cases b <;> simp [jsonEquivF] at h
        rename_i t
        subst h
        rfl
      | num n =>
        cases b <;> simp [jsonEquivF] at h
        rename_i m
        subst h
        rfl
      | bool x =>
        cases b <;> simp [jsonEquivF] at h
        rename_i y
        subst h
        rfl
      | null =>
        cases b <;> simp [jsonEquivF] at h
        rfl
      | arr l =>
        cases b with
        | str t => simp [jsonEquivF] at h
        | num m => simp [jsonEquivF] at h
        | bool y => simp [jsonEquivF] at h
        | null => simp [jsonEquivF] at h
        | obj qs => simp [jsonEquivF] at h
        | arr m =>
        simp only [jsonEquivF, Bool.and_eq_true, beq_iff_eq] at h
        obtain ⟨hlen, hall⟩ := h
        have harr : ∀ (l m : List Json), l.length = m.length →
            (∀ p ∈ l.zip m, jsonEquivF f p.1 p.2 = true) →
            optMapList (jsStringifyF f' K) l = optMapList (jsStringifyF f' K) m := by
          intro l
          induction l with
          | nil =>
            intro m hlen _
            cases m with
            | nil => rfl
            | cons => simp at hlen
          | cons x xs ihl =>
            intro m hlen hall
            cases m with
            | nil => simp at hlen
            | cons y ys =>
              have hx : jsonEquivF f x y = true :=
                hall (x, y) (by simp [List.zip_cons_cons])
              have hxs := ihl ys (by simpa using hlen)
                (fun p hp => hall p (by simp [List.zip_cons_cons, hp]))
              simp only [optMapList, ih K f x y hx, hxs]
        rw [jsStringifyF, jsStringifyF, harr l m hlen
          (fun p hp => List.all_eq_true.mp hall p hp)]
      | obj ps =>
        cases b with
        | str t => simp [jsonEquivF] at h
        | num m => simp [jsonEquivF] at h
        | bool y => simp [jsonEquivF] at h
        | null => simp [jsonEquivF] at h
        | arr m => simp [jsonEquivF] at h
        | obj qs =>
        simp only [jsonEquivF, Bool.and_eq_true, beq_iff_eq,
          decide_eq_true_eq] at h
        obtain ⟨⟨⟨hndA, hndB⟩, hsort⟩, hall⟩ := h
        have hperm : (ps.map Prod.fst).Perm (qs.map Prod.fst) :=
          ((sortStr_perm (ps.map Prod.fst)).symm.trans (hsort ▸ sortStr_perm _))
        have hobj : ∀ Kiter : List String,
            optMapList
                (fun kv => (jsStringifyF f' K kv.2).map (fun s => jsQuote kv.1 ++ ":" ++ s))
                (selectMembers Kiter ps)
              = optMapList
                  (fun kv => (jsStringifyF f' K kv.2).map (fun s => jsQuote kv.1 ++ ":" ++ s))
                  (selectMembers Kiter qs) := by
          intro Kiter
          induction Kiter with
          | nil => rfl
          | cons k K' ihK =>
            cases hp : ps.lookup k with
            | none =>
              have hknot : k ∉ ps.map Prod.fst := (lookup_none_iff ps k).mp hp
              have hknotB : k ∉ qs.map Prod.fst := fun hm => hknot (hperm.mem_iff.mpr hm)
              have hq : qs.lookup k = none := (lookup_none_iff qs k).mpr hknotB
              simp only [selectMembers, List.filterMap_cons, hp, hq, Option.map_none']
              exact ihK
            | some v =>
              have hkmem : k ∈ ps.map Prod.fst := lookup_mem_of_some hp
              have hk := List.all_eq_true.mp hall k hkmem
              cases hq : qs.lookup k with
              | none => rw [hp, hq] at hk; simp at hk
              | some w =>
                rw [hp, hq] at hk
                simp only [selectMembers, List.filterMap_cons, hp, hq, Option.map_some']
                show optMapList _ ((k, v) :: _) = optMapList _ ((k, w) :: _)
                simp only [optMapList, ih K f v w hk]
                rw [show (List.filterMap (fun k => Option.map (fun v => (k, v)) (ps.lookup k)) K')
                    = selectMembers K' ps from rfl,
                  show (List.filterMap (fun k => Option.map (fun v => (k, v)) (qs.lookup k)) K')
                    = selectMembers K' qs from rfl, ihK]
        rw [jsStringifyF, jsStringifyF, hobj K]

theorem sortedTopKeys_congr {fuel : Nat} {a b : Json}
    (h : jsonEquivF fuel a b = true) : sortedTopKeys a = sortedTopKeys b := by
  match fuel with
  | 0 => simp [jsonEquivF] at h
  | f + 1 =>
    cases a with
    | obj ps =>
      cases b with
      | obj qs =>
        simp only [jsonEquivF, Bool.and_eq_true, beq_iff_eq, decide_eq_true_eq] at h
        simp only [sortedTopKeys]
        exact h.1.2
      | str t => simp [jsonEquivF] at h
      | num m => simp [jsonEquivF] at h
      | bool y => simp [jsonEquivF] at h
      | null => simp [jsonEquivF] at h
      | arr m => simp [jsonEquivF] at h
    | str s =>
      cases b <;> first | rfl | simp [jsonEquivF] at h
    | num n =>
      cases b <;> first | rfl | simp [jsonEquivF] at h
    | bool x =>
      cases b <;> first | rfl | simp [jsonEquivF] at h
    | null =>
      cases b <;> first | rfl | simp [jsonEquivF] at h
    | arr l =>
      cases b <;> first | rfl | simp [jsonEquivF] at h

/-! ### Claim theorem: C2 (canonical serialization is key-order
independent) -/

/-- **C2.**  Two attribute objects with the same key-value pairs
(recursively, nested sub-objects included) listed in different orders have
byte-identical canonical serialization under
`JSON.stringify(resource, Object.keys(resource).sort())`, hence identical
SHA-256 digests in `_generateHash`, hence byte-identical derived
identifiers.  (`fuel` bounds the comparison depth, `fuel'` the
serialization depth; the statement holds for all of them.) -/
theorem c2_canonical_key_order (fuel fuel' : Nat) (a b : Json)
    (h : jsonEquivF fuel a b = true) :
    canonicalSerialize fuel' a = canonicalSerialize fuel' b
    ∧ generateHashJson fuel' a = generateHashJson fuel' b := by
  have hser : canonicalSerialize fuel' a = canonicalSerialize fuel' b := by
    rw [canonicalSerialize, canonicalSerialize, sortedTopKeys_congr h,
      jsStringifyF_congr fuel' (sortedTopKeys b) fuel a b h]
  exact ⟨hser, by rw [generateHashJson, generateHashJson, hser]⟩

/-- The spec's S3 scenario: `{"b":1,"a":2}` versus `{"a":2,"b":1}`. -/
def c2ObjA : Json := .obj [("b", .num 1), ("a", .num 2)]

def c2ObjB : Json := .obj [("a", .num 2), ("b", .num 1)]

theorem c2_canonical_key_order_witness :
    jsonEquivF 2 c2ObjA c2ObjB = true
    ∧ (canonicalSerialize 3 c2ObjA = canonicalSerialize 3 c2ObjB
        ∧ generateHashJson 3 c2ObjA = generateHashJson 3 c2ObjB) :=
  ⟨by decide, c2_canonical_key_order 2 3 c2ObjA c2ObjB (by decide)⟩

/-! ### Identifier compression and decompression (`_compressIdentifier`,
`generateDID`, `decompressDID`) -/

def hexDigitVal (c : Char) : Option Nat :=
  let n := c.toNat
  if 48 ≤ n ∧ n ≤ 57 then some (n - 48)
  else if 97 ≤ n ∧ n ≤ 102 then some (n - 87)
  else if 65 ≤ n ∧ n ≤ 70 then some (n - 55)
  else none

/-- `Buffer.from(s, 'hex')` on well-formed even-length hex input. -/
def hexToBytes : List Char → Option (List Nat)
  | [] => some []
  | [_] => none
  | c1 :: c2 :: rest =>
    (hexDigitVal c1).bind (fun h1 =>
      (hexDigitVal c2).bind (fun h2 =>
        (hexToBytes rest).map (fun bs => (16 * h1 + h2) :: bs)))

/-- The standard base64 alphabet character for a 6-bit value. -/
def b64Char (n : Nat) : Char :=
  if n < 26 then Char.ofNat (65 + n)
  else if n < 52 then Char.ofNat (97 + (n - 26))
  else if n < 62 then Char.ofNat (48 + (n - 52))
  else if n = 62 then '+'
  else '/'

/-- `Buffer.prototype.toString('base64')`: standard alphabet with `=`
padding. -/
def bytesToBase64Go : List Nat → List Char
  | [] => []
  | [a] =>
    [b64Char (a >>> 2), b64Char ((a &&& 3) <<< 4), '=', '=']
  | [a, b] =>
    [b64Char (a >>> 2), b64Char (((a &&& 3) <<< 4) ||| (b >>> 4)),
     b64Char ((b &&& 15) <<< 2), '=']
  | a :: b :: c :: rest =>
    [b64Char (a >>> 2), b64Char (((a &&& 3) <<< 4) ||| (b >>> 4)),
     b64Char (((b &&& 15) <<< 2) ||| (c >>> 6)), b64Char (c &&& 63)]
      ++ bytesToBase64Go rest

def bytesToBase64 (bs : List Nat) : List Char :=
  bytesToBase64Go bs

/-- Value of a base64 alphabet character (`=` handled by the caller). -/
def b64Val (c : Char) : Option Nat :=
  let n := c.toNat
  if 65 ≤ n ∧ n ≤ 90 then some (n - 65)
  else if 97 ≤ n ∧ n ≤ 122 then some (n - 71)
  else if 48 ≤ n ∧ n ≤ 57 then some (n + 4)
  else if c = '+' then some 62
  else if c = '/' then some 63
  else none

/-- `Buffer.from(s, 'base64')` on input whose length is a multiple of 4. -/
def base64ToBytes : List Char → Option (List Nat)
  | [] => some []
  | a :: b :: c :: d :: rest =>
    (b64Val a).bind (fun va =>
      (b64Val b).bind (fun vb =>
        if c = '=' then
          if d = '=' ∧ rest = [] then some [(va <<< 2) ||| (vb >>> 4)] else none
        else
          (b64Val c).bind (fun vc =>
            if d = '=' then
              if rest = [] then
                some [(va <<< 2) ||| (vb >>> 4), ((vb &&& 15) <<< 4) ||| (vc >>> 2)]
              else none
            else
              (b64Val d).bind (fun vd =>
                (base64ToBytes rest).map
                  (fun bs => ((va <<< 2) ||| (vb >>> 4))
                    :: (((vb &&& 15) <<< 4) ||| (vc >>> 2))
                    :: (((vc &&& 3) <<< 6) ||| vd) :: bs)))))
  | _ => none

/-- `_compressIdentifier`: note that `base58` and `tlv` are placeholder
truncations in the source, and `base64url` converts from hex to unpadded
URL-safe base64. -/
def compressIdentifier (id : String) (format : String) : Option String :=
  if format = "none" then some id
  else if format = "base58" then some (String.mk (id.data.take 32))
  else if format = "base64url" then
    (hexToBytes id.data).map (fun bs =>
      String.mk (((bytesToBase64 bs).map
        (fun c => if c = '+' then '-' else if c = '/' then '_' else c)).filter
          (· ≠ '=')))
  else if format = "hex" then some id
  else if format = "tlv" then some (String.mk (id.data.take 32))
  else none

/-- `did.split(':')`. -/
def splitOnColon : List Char → List (List Char)
  | [] => [[]]
  | c :: cs =>
    if c = ':' then [] :: splitOnColon cs
    else
      match splitOnColon cs with
      | [] => [[c]]
      | p :: ps => (c :: p) :: ps

/-- `generateDID` on a string resource (the default branch of
`_generateUniqueId` hashes the resource directly), with explicit method,
compression and optional owner.  An empty owner string is falsy in the
source and adds no owner tag. -/
def generateDID (resource : String) (resourceType : String) (method : String)
    (compression : String) (owner : Option String) : Option String :=
  let uniqueId := generateHashStr resource
  (compressIdentifier uniqueId compression).map (fun compressedId =>
    let did := "did:" ++ method ++ ":" ++ resourceType ++ ":" ++ compressedId
    match owner with
    | some o =>
      if o.isEmpty then did
      else did ++ ":" ++ String.mk ((generateHashStr o).data.take 8)
    | none => did)

structure DecompressedDID where
  method : String
  resourceType : String
  identifier : String
  owner : Option String
deriving DecidableEq

/-- `decompressDID`.  The source always assumes the base64url format
(`const format = COMPRESSION_FORMATS.BASE64URL`), restores `=` padding,
undoes the URL-safe substitutions, and decodes to hex. -/
def decompressDID (did : String) : Option DecompressedDID :=
  let parts := splitOnColon did.data
  if parts.length < 4 ∨ parts.headD [] ≠ "did".data then none
  else
    let method := String.mk (parts.getD 1 [])
    let resourceType := String.mk (parts.getD 2 [])
    let compressedId := parts.getD 3 []
    let owner := if parts.length > 4 then some (String.mk (parts.getD 4 [])) else none
    let padded := compressedId ++ List.replicate ((4 - compressedId.length % 4) % 4) '='
    let swapped := padded.map (fun c => if c = '-' then '+' else if c = '_' then '/' else c)
    (base64ToBytes swapped).map (fun bs =>
      ⟨method, resourceType, bytesToHex bs, owner⟩)

/-! ### Claim theorem: C3 (encode/decode reversibility) -/

set_option maxRecDepth 100000 in
/-- **C3 is violated by the code** (its own comments call the base58 and
TLV branches "Placeholder implementation" and note that `decompressDID`
"in practice would detect" the encoding instead of hard-coding base64url).
Concretely, for the declared `hex` encoding the identifier embeds the
digest as 64 hex characters, but `decompressDID` decodes them *as
base64*, producing 48 bytes = 96 hex characters instead of the original
digest: the round trip fails.  This theorem evaluates the model at the
failing input `resource = "hello"`, `encoding = hex`. -/
theorem c3_decode_not_inverse_on_hex :
    (generateDID "hello" "text" "asset" "hex" none).isSome = true
    ∧ ((generateDID "hello" "text" "asset" "hex" none).bind decompressDID).map
        (fun r => r.identifier) ≠ some (generateHashStr "hello")
    ∧ ((generateDID "hello" "text" "asset" "hex" none).bind decompressDID).map
        (fun r => r.identifier.length) = some 96
    ∧ (generateHashStr "hello").length = 64 := by
  refine ⟨by decide, ?_, by decide, by decide⟩
  intro hcontra
  have h1 : ((generateDID "hello" "text" "asset" "hex" none).bind decompressDID).map
      (fun r => r.identifier.length) = some 96 := by decide
  have h2 : (generateHashStr "hello").length = 64 := by decide
  rw [show ((generateDID "hello" "text" "asset" "hex" none).bind decompressDID).map
      (fun r => r.identifier.length)
    = (((generateDID "hello" "text" "asset" "hex" none).bind decompressDID).map
        (fun r => r.identifier)).map String.length from by
      cases (generateDID "hello" "text" "asset" "hex" none).bind decompressDID <;> rfl,
    hcontra] at h1
  simp only [Option.map_some'] at h1
  rw [h2] at h1
  exact Option.noConfusion h1 (fun h => by omega)

end DIDFactory

/-! ## Resource relationship graph (`ResourceGraph`)

`resource_graph.js`.  The node `Map` is an association list in insertion
order; the edge array is a list.  JavaScript `x || y` string defaulting
treats the empty string as falsy (`jsOr`).  The edge fields `from`/`to`
are named `src`/`tgt` (`from` is reserved in Lean).  Metadata objects
passed to `addNode`/`addEdge` are modelled as optional known fields plus a
property map; a metadata object overriding the reserved `did`, `from`,
`to`, `type` keys with *different* values is not modelled (no caller does
this). -/

namespace ResourceGraph

def RELATIONSHIP_TYPES : List String :=
  ["contains", "isPartOf", "hasComponent", "isComponentOf",
   "wasDerivedFrom", "wasRevisionOf", "wasQuotedFrom", "wasInfluencedBy",
   "wasGeneratedBy", "used", "wasAttributedTo", "wasAssociatedWith",
   "dependsOn", "requires", "uses", "supports",
   "precedes", "follows", "replaces",
   "trainedOn", "fineTunedFrom", "generates", "analyzes"]

def jsOr (s d : String) : String := if s = "" then d else s

def jsOrO (o : Option String) (d : String) : String :=
  match o with
  | some s => jsOr s d
  | none => d

structure NodeRec where
  did : String
  type : String
  label : String
  created : String
  updated : String
  startTime : Option String
  endTime : Option String
  props : List (String × String)
deriving DecidableEq

structure EdgeRec where
  src : String
  tgt : String
  type : String
  created : String
  updated : Option String
  props : List (String × String)
deriving DecidableEq

/-! ### PROV documents (the shape `toPROV` produces)

The fixed `@context` object is constant and omitted.  `custom` holds the
`asset:{type}` keyed member lists, full key included, in insertion
order. -/

structure EntityRec where
  provType : String
  label : String
  generatedAtTime : String
  wasDerivedFrom : List String
  wasGeneratedBy : Option String
  wasAttributedTo : Option String
  custom : List (String × List String)
deriving DecidableEq

structure ActivityRec where
  startedAtTime : String
  endedAtTime : String
  label : String
  used : List String
  wasAssociatedWith : Option String
deriving DecidableEq

structure AgentRec where
  provType : String
  label : String
deriving DecidableEq

structure ProvDoc where
  entity : List (String × EntityRec)
  activity : List (String × ActivityRec)
  agent : List (String × AgentRec)
deriving DecidableEq

structure Graph where
  nodes : List NodeRec
  edges : List EdgeRec
  provData : Option ProvDoc
  modified : Bool
deriving DecidableEq

def emptyGraph : Graph := ⟨[], [], none, false⟩

def hasNode (g : Graph) (did : String) : Bool :=
  g.nodes.any (fun n => n.did = did)

/-- `did.split(':').pop()`. -/
def didTail (did : String) : String :=
  String.mk ((DIDFactory.splitOnColon did.data).getLastD [])

/-- Metadata argument of `addNode`. -/
structure NodeMeta where
  type : Option String
  label : Option String
  created : Option String
  updated : Option String
  startTime : Option String
  endTime : Option String
  props : List (String × String)
deriving DecidableEq

def emptyMeta : NodeMeta := ⟨none, none, none, none, none, none, []⟩

/-- `{...a, ...b}` on property maps: keys of `a` in order (values
overridden by `b` where present), then the new keys of `b`. -/
def propsMerge (old new : List (String × String)) : List (String × String) :=
  old.map (fun kv =>
    match new.lookup kv.1 with
    | some v => (kv.1, v)
    | none => kv)
    ++ new.filter (fun kv => (old.lookup kv.1).isNone)

/-- The node built by the `addNode` insert branch:
`{did, type: m.type || 'DigitalResource', label: m.label || did.split(':').pop(),
created: now, updated: now, ...metadata}` — fields present in the metadata
win over the defaults via the final spread. -/
def newNode (did : String) (m : NodeMeta) (now : String) : NodeRec :=
  { did := did
    type := m.type.getD "DigitalResource"
    label := m.label.getD (didTail did)
    created := m.created.getD now
    updated := m.updated.getD now
    startTime := m.startTime
    endTime := m.endTime
    props := m.props }

/-- The `addNode` update branch: `{...existingNode, ...metadata, updated: now}`. -/
def mergeNode (n : NodeRec) (m : NodeMeta) (now : String) : NodeRec :=
  { did := n.did
    type := m.type.getD n.type
    label := m.label.getD n.label
    created := m.created.getD n.created
    updated := now
    startTime := m.startTime.orElse (fun _ => n.startTime)
    endTime := m.endTime.orElse (fun _ => n.endTime)
    props := propsMerge n.props m.props }

/-- `ResourceGraph.addNode`.  Returns `none` where the source throws
(`'DID is required'`, i.e. a falsy `did`). -/
def addNode (g : Graph) (did : String) (m : NodeMeta) (now : String) : Option Graph :=
  if did = "" then none
  else if hasNode g did then
    some { g with
      nodes := g.nodes.map (fun n => if n.did = did then mergeNode n m now else n)
      modified := true }
  else
    some { g with nodes := g.nodes ++ [newNode did m now], modified := true }

def edgeKey (e : EdgeRec) : String × String × String := (e.src, e.tgt, e.type)

/-- The `addEdge` update branch:
`{...existing, ...edge, updated: now}` — `edge` refreshes `created` and
carries the new metadata, which is spread over the old. -/
def mergeEdge (old : EdgeRec) (props : List (String × String)) (now : String) : EdgeRec :=
  { src := old.src, tgt := old.tgt, type := old.type, created := now
    updated := some now, props := propsMerge old.props props }

def updateFirstEdge (src tgt ty : String) (props : List (String × String))
    (now : String) : List EdgeRec → List EdgeRec
  | [] => []
  | e :: es =>
    if e.src = src ∧ e.tgt = tgt ∧ e.type = ty then mergeEdge e props now :: es
    else e :: updateFirstEdge src tgt ty props now es

/-- `ResourceGraph.addEdge`.  `none` where the source throws (absent
endpoint or invalid relationship type). -/
def addEdge (g : Graph) (src tgt ty : String) (props : List (String × String))
    (now : String) : Option Graph :=
  if ¬ hasNode g src then none
  else if ¬ hasNode g tgt then none
  else if ty ∉ RELATIONSHIP_TYPES then none
  else if g.edges.any (fun e => e.src = src ∧ e.tgt = tgt ∧ e.type = ty) then
    some { g with edges := updateFirstEdge src tgt ty props now g.edges, modified := true }
  else
    some { g with edges := g.edges ++ [⟨src, tgt, ty, now, none, props⟩], modified := true }

/-- `ResourceGraph.removeNode` (returns the updated graph and the
source's boolean result). -/
def removeNode (g : Graph) (did : String) : Graph × Bool :=
  if ¬ hasNode g did then (g, false)
  else
    ({ g with
        nodes := g.nodes.filter (fun n => ¬ n.did = did)
        edges := g.edges.filter (fun e => ¬ e.src = did ∧ ¬ e.tgt = did)
        modified := true }, true)

/-- `ResourceGraph.removeEdge`.  Note the source *assigns*
`this.modified = this.edges.length !== initialCount`, clobbering any
previously set dirty flag. -/
def removeEdge (g : Graph) (src tgt : String) (ty : Option String) : Graph × Bool :=
  let edges' :=
    match ty with
    | some t =>
      if t = "" then g.edges.filter (fun e => ¬ (e.src = src ∧ e.tgt = tgt))
      else g.edges.filter (fun e => ¬ (e.src = src ∧ e.tgt = tgt ∧ e.type = t))
    | none => g.edges.filter (fun e => ¬ (e.src = src ∧ e.tgt = tgt))
  let changed := edges'.length ≠ g.edges.length
  ({ g with edges := edges', modified := changed }, changed)

/-! ### PROV projection (`toPROV`) and reverse import (`fromPROV`) -/

def agentTypes : List String := ["Agent", "Person", "Organization", "Software"]

def derivFamily : List String :=
  ["wasDerivedFrom", "wasRevisionOf", "wasQuotedFrom", "wasInfluencedBy"]

/-- Node partitioning phase of `toPROV`. -/
def provAddNode (d : ProvDoc) (n : NodeRec) : ProvDoc :=
  if n.type = "Activity" then
    { d with activity := d.activity
        ++ [(n.did, ⟨jsOrO n.startTime n.created, jsOrO n.endTime n.updated,
              jsOr n.label n.did, [], none⟩)] }
  else if n.type ∈ agentTypes then
    { d with agent := d.agent ++ [(n.did, ⟨n.type, jsOr n.label n.did⟩)] }
  else
    { d with entity := d.entity
        ++ [(n.did, ⟨n.type, jsOr n.label n.did, n.created, [], none, none, []⟩)] }

def updateEntity (d : ProvDoc) (k : String) (f : EntityRec → EntityRec) : ProvDoc :=
  { d with entity := d.entity.map (fun kv => if kv.1 = k then (kv.1, f kv.2) else kv) }

def updateActivity (d : ProvDoc) (k : String) (f : ActivityRec → ActivityRec) : ProvDoc :=
  { d with activity := d.activity.map (fun kv => if kv.1 = k then (kv.1, f kv.2) else kv) }

/-- Append a target under an `asset:{type}` key, creating the key on
first use. -/
def pushCustom (key tgt : String) (e : EntityRec) : EntityRec :=
  { e with custom :=
      match e.custom.lookup key with
      | some _ => e.custom.map (fun kv => if kv.1 = key then (kv.1, kv.2 ++ [tgt]) else kv)
      | none => e.custom ++ [(key, [tgt])] }

/-- Relationship mapping phase of `toPROV` (the `switch` over
`edge.type`); edges whose endpoints are not in the required categories are
skipped (`continue`). -/
def provAddEdge (nodes : List NodeRec) (d : ProvDoc) (e : EdgeRec) : ProvDoc :=
  if e.type ∈ derivFamily then
    if (d.entity.lookup e.tgt).isSome then
      updateEntity d e.tgt (fun ent =>
        { ent with wasDerivedFrom := ent.wasDerivedFrom ++ [e.src] })
    else d
  else if e.type = "wasGeneratedBy" then
    if (d.entity.lookup e.src).isSome ∧ (d.activity.lookup e.tgt).isSome then
      updateEntity d e.src (fun ent => { ent with wasGeneratedBy := some e.tgt })
    else d
  else if e.type = "used" then
    if (d.activity.lookup e.src).isSome ∧ (d.entity.lookup e.tgt).isSome then
      updateActivity d e.src (fun a => { a with used := a.used ++ [e.tgt] })
    else d
  else if e.type = "wasAttributedTo" then
    if (d.entity.lookup e.src).isSome ∧ (d.agent.lookup e.tgt).isSome then
      updateEntity d e.src (fun ent => { ent with wasAttributedTo := some e.tgt })
    else d
  else if e.type = "wasAssociatedWith" then
    if (d.activity.lookup e.src).isSome ∧ (d.agent.lookup e.tgt).isSome then
      updateActivity d e.src (fun a => { a with wasAssociatedWith := some e.tgt })
    else d
  else
    let fromType := ((nodes.find? (fun n => n.did = e.src)).map (fun n => n.type)).getD ""
    if fromType = "DigitalResource" ∨ fromType = "AIModel" then
      if (d.entity.lookup e.src).isSome then
        updateEntity d e.src (pushCustom ("asset:" ++ e.type) e.tgt)
      else d
    else d

/-- The PROV projection of a node/edge collection (the recomputation
branch of `toPROV`). -/
def provOf (nodes : List NodeRec) (edges : List EdgeRec) : ProvDoc :=
  edges.foldl (provAddEdge nodes) (nodes.foldl provAddNode ⟨[], [], []⟩)

/-- `ResourceGraph.toPROV`, including its `provData`/`modified` cache:
an unmodified graph with cached data returns the cache. -/
def toPROV (g : Graph) : ProvDoc × Graph :=
  match g.modified, g.provData with
  | false, some d => (d, g)
  | _, _ =>
    let d' := provOf g.nodes g.edges
    (d', { g with provData := some d', modified := false })

/-- Entity import of `fromPROV`. -/
def importEntity (now : String) (g : Graph) (kv : String × EntityRec) : Option Graph :=
  addNode g kv.1
    { emptyMeta with
        type := some (jsOr kv.2.provType "DigitalResource")
        label := some (jsOr kv.2.label (didTail kv.1))
        created := some (jsOr kv.2.generatedAtTime now) } now

/-- Activity import of `fromPROV`. -/
def importActivity (now : String) (g : Graph) (kv : String × ActivityRec) : Option Graph :=
  let created := jsOr kv.2.startedAtTime now
  let updated := jsOr kv.2.endedAtTime created
  addNode g kv.1
    { type := some "Activity"
      label := some (jsOr kv.2.label (didTail kv.1))
      created := some created
      updated := some updated
      startTime := some kv.2.startedAtTime
      endTime := some kv.2.endedAtTime
      props := [] } now

/-- Agent import of `fromPROV`. -/
def importAgent (now : String) (g : Graph) (kv : String × AgentRec) : Option Graph :=
  addNode g kv.1
    { emptyMeta with
        type := some (jsOr kv.2.provType "Agent")
        label := some (jsOr kv.2.label (didTail kv.1)) } now

/-- One optional single-valued relation import (`wasGeneratedBy`,
`wasAttributedTo`, `wasAssociatedWith`): guarded by non-emptiness and
node existence, as in the source. -/
def importOptEdge (now : String) (g : Graph) (src ty : String)
    (o : Option String) : Option Graph :=
  match o with
  | some a => if a ≠ "" ∧ hasNode g a then addEdge g src a ty [] now else some g
  | none => some g

/-- Relationship import of `fromPROV` for one entity: derivations,
generation, attribution, then `asset:`-prefixed custom keys. -/
def importEntityRels (now : String) (g : Graph) (kv : String × EntityRec) :
    Option Graph := do
  let g ← kv.2.wasDerivedFrom.foldlM
    (fun g src =>
      if hasNode g src then addEdge g src kv.1 "wasDerivedFrom" [] now else some g) g
  let g ← importOptEdge now g kv.1 "wasGeneratedBy" kv.2.wasGeneratedBy
  let g ← importOptEdge now g kv.1 "wasAttributedTo" kv.2.wasAttributedTo
  kv.2.custom.foldlM
    (fun g kt =>
      if "asset:".data.isPrefixOf kt.1.data then
        let relationType := String.mk (kt.1.data.drop 6)
        kt.2.foldlM
          (fun g tgt =>
            if hasNode g tgt then addEdge g kv.1 tgt relationType [] now else some g) g
      else some g) g

/-- Relationship import of `fromPROV` for one activity. -/
def importActivityRels (now : String) (g : Graph) (kv : String × ActivityRec) :
    Option Graph := do
  let g ← kv.2.used.foldlM
    (fun g ent =>
      if hasNode g ent then addEdge g kv.1 ent "used" [] now else some g) g
  importOptEdge now g kv.1 "wasAssociatedWith" kv.2.wasAssociatedWith

/-- `ResourceGraph.fromPROV`.  `none` where an `addNode`/`addEdge` call
inside it would throw. -/
def fromPROV (d : ProvDoc) (now : String) : Option Graph := do
  let g ← d.entity.foldlM (importEntity now) emptyGraph
  let g ← d.activity.foldlM (importActivity now) g
  let g ← d.agent.foldlM (importAgent now) g
  let g ← d.entity.foldlM (importEntityRels now) g
  d.activity.foldlM (importActivityRels now) g

/-! ### Path search (`findPaths` / `_dfs`) -/

def getEdgesOutgoing (g : Graph) (did : String) : List EdgeRec :=
  if ¬ hasNode g did then [] else g.edges.filter (fun e => e.src = did)

/-- `_dfs`.  The source recurses with `depth - 1` and returns when
`depth < 0`; here `fuel = depth + 1`, so `fuel = 0` is exactly the
source's `depth < 0` guard, and the recursion is structural. -/
def dfsF (g : Graph) (target : String) (relTypes : Option (List String)) :
    Nat → String → List String → List String → List (List String)
  | 0, _, _, _ => []
  | fuel + 1, current, visited, path =>
    let visited' := visited ++ [current]
    let path' := path ++ [current]
    if current = target then [path']
    else
      (getEdgesOutgoing g current).foldl
        (fun acc e =>
          let typeOk := match relTypes with
            | none => true
            | some ts => ts.contains e.type
          if ¬ visited'.contains e.tgt ∧ typeOk = true then
            acc ++ dfsF g target relTypes fuel e.tgt visited' path'
          else acc) []

/-- `ResourceGraph.findPaths` (with `maxDepth` already defaulted by the
caller). -/
def findPaths (g : Graph) (s t : String) (maxDepth : Int)
    (relTypes : Option (List String)) : List (List String) :=
  if ¬ hasNode g s ∨ ¬ hasNode g t then []
  else dfsF g t relTypes (maxDepth + 1).toNat s [] []

/-! ### Claim theorems: C7 (edge uniqueness), C10 (node merge), C5
(projection staleness), C6 (simple paths) -/

/-- At most one edge per `(source, target, type)` tuple. -/
def edgesUnique (es : List EdgeRec) : Prop := (es.map edgeKey).Nodup

theorem updateFirstEdge_length (src tgt ty : String) (props : List (String × String))
    (now : String) : ∀ es : List EdgeRec,
      (updateFirstEdge src tgt ty props now es).length = es.length := by
  intro es
  induction es with
  | nil => rfl
  | cons e es ih =>
    by_cases h : e.src = src ∧ e.tgt = tgt ∧ e.type = ty <;>
      simp [updateFirstEdge, h, ih]

theorem updateFirstEdge_keys (src tgt ty : String) (props : List (String × String))
    (now : String) : ∀ es : List EdgeRec,
      (updateFirstEdge src tgt ty props now es).map edgeKey = es.map edgeKey := by
  intro es
  induction es with
  | nil => rfl
  | cons e es ih =>
    by_cases h : e.src = src ∧ e.tgt = tgt ∧ e.type = ty
    · simp only [updateFirstEdge, if_pos h, List.map_cons, ih]
      obtain ⟨h1, h2, h3⟩ := h
      simp [edgeKey, mergeEdge, h1, h2, h3]
    · simp [updateFirstEdge, h, ih]

theorem updateFirstEdge_find (src tgt ty : String) (props : List (String × String))
    (now : String) : ∀ es : List EdgeRec,
      (updateFirstEdge src tgt ty props now es).find?
          (fun e => e.src = src ∧ e.tgt = tgt ∧ e.type = ty)
        = (es.find? (fun e => e.src = src ∧ e.tgt = tgt ∧ e.type = ty)).map
            (fun e => mergeEdge e props now) := by
  intro es
  induction es with
  | nil => rfl
  | cons e es ih =>
    by_cases h : e.src = src ∧ e.tgt = tgt ∧ e.type = ty
    · obtain ⟨h1, h2, h3⟩ := h
      simp [updateFirstEdge, List.find?_cons, h1, h2, h3, mergeEdge]
    · have hb : (decide (e.src = src ∧ e.tgt = tgt ∧ e.type = ty)) = false := by
        simpa using h
      simp only [updateFirstEdge, if_neg h, List.find?_cons, hb, ih]

theorem addEdge_nodes {g g' : Graph} {src tgt ty : String}
    {props : List (String × String)} {now : String}
    (h : addEdge g src tgt ty props now = some g') : g'.nodes = g.nodes := by
  rw [addEdge] at h
  split at h
  · exact Option.noConfusion h
  split at h
  · exact Option.noConfusion h
  split at h
  · exact Option.noConfusion h
  split at h <;> (injection h with h; subst h; rfl)

/-- With valid endpoints and type, `addEdge` reduces to the merge/push
alternative on the duplicate check. -/
theorem addEdge_eq (g : Graph) (src tgt ty : String)
    (props : List (String × String)) (now : String)
    (hs : hasNode g src = true) (ht : hasNode g tgt = true)
    (hty : ty ∈ RELATIONSHIP_TYPES) :
    addEdge g src tgt ty props now
      = some (if g.edges.any (fun e => e.src = src ∧ e.tgt = tgt ∧ e.type = ty)
          then { g with edges := updateFirstEdge src tgt ty props now g.edges,
                        modified := true }
          else { g with edges := g.edges ++ [⟨src, tgt, ty, now, none, props⟩],
                        modified := true }) := by
  rw [addEdge, if_neg (by simp [hs]), if_neg (by simp [ht]), if_neg (by simp [hty])]
  split <;> simp_all

theorem updateFirstEdge_any (src tgt ty : String) (props : List (String × String))
    (now : String) : ∀ es : List EdgeRec,
      (updateFirstEdge src tgt ty props now es).any
          (fun e => e.src = src ∧ e.tgt = tgt ∧ e.type = ty)
        = es.any (fun e => e.src = src ∧ e.tgt = tgt ∧ e.type = ty) := by
  intro es
  induction es with
  | nil => rfl
  | cons e es ih =>
    by_cases h : e.src = src ∧ e.tgt = tgt ∧ e.type = ty
    · simp [updateFirstEdge, h, mergeEdge]
    · simp only [updateFirstEdge, if_neg h, List.any_cons, ih]

theorem edgeKey_not_mem_of_not_any {es : List EdgeRec} {src tgt ty : String}
    (h : es.any (fun e => e.src = src ∧ e.tgt = tgt ∧ e.type = ty) = false) :
    (src, tgt, ty) ∉ es.map edgeKey := by
  intro hmem
  obtain ⟨e, he, hk⟩ := List.mem_map.mp hmem
  have := List.any_eq_false.mp h e he
  simp only [edgeKey, Prod.mk.injEq] at hk
  simp [hk.1, hk.2.1, hk.2.2] at this

/-- **C7.**  Adding the same `(source, target, type)` twice leaves the
edge count unchanged after the second call, merges the new property map
into the existing edge, and preserves the at-most-one-edge-per-key
invariant. -/
theorem c7_addEdge_unique (g : Graph) (src tgt ty : String)
    (m1 m2 : List (String × String)) (now1 now2 : String)
    (hs : hasNode g src = true) (ht : hasNode g tgt = true)
    (hty : ty ∈ RELATIONSHIP_TYPES) :
    ∃ g1 g2, addEdge g src tgt ty m1 now1 = some g1
      ∧ addEdge g1 src tgt ty m2 now2 = some g2
      ∧ g2.edges.length = g1.edges.length
      ∧ (∀ e1, g1.edges.find? (fun e => e.src = src ∧ e.tgt = tgt ∧ e.type = ty) = some e1 →
          g2.edges.find? (fun e => e.src = src ∧ e.tgt = tgt ∧ e.type = ty)
            = some (mergeEdge e1 m2 now2))
      ∧ (edgesUnique g.edges → edgesUnique g1.edges ∧ edgesUnique g2.edges) := by
  by_cases hex : g.edges.any (fun e => e.src = src ∧ e.tgt = tgt ∧ e.type = ty) = true
  · -- first call merges
    refine ⟨{ g with edges := updateFirstEdge src tgt ty m1 now1 g.edges, modified := true },
      ?_, ?_, ?_, ?_, ?_, ?_⟩
    case _ => exact { g with
      edges := updateFirstEdge src tgt ty m2 now2 (updateFirstEdge src tgt ty m1 now1 g.edges)
      modified := true }
    · rw [addEdge_eq g src tgt ty m1 now1 hs ht hty, if_pos hex]
    · rw [addEdge_eq _ src tgt ty m2 now2 (by simpa [hasNode] using hs)
        (by simpa [hasNode] using ht) hty]
      rw [if_pos (show (updateFirstEdge src tgt ty m1 now1 g.edges).any
        (fun e => e.src = src ∧ e.tgt = tgt ∧ e.type = ty) = true from by
          rw [updateFirstEdge_any]; exact hex)]
    · exact updateFirstEdge_length src tgt ty m2 now2 _
    · intro e1 h1
      rw [updateFirstEdge_find, h1]
      rfl
    · intro hu
      have h1 : edgesUnique (updateFirstEdge src tgt ty m1 now1 g.edges) := by
        rw [edgesUnique, updateFirstEdge_keys]
        exact hu
      have h2 : edgesUnique (updateFirstEdge src tgt ty m2 now2
          (updateFirstEdge src tgt ty m1 now1 g.edges)) := by
        rw [edgesUnique, updateFirstEdge_keys]
        exact h1
      exact ⟨h1, h2⟩
  · -- first call pushes a fresh edge
    have hexf : g.edges.any (fun e => e.src = src ∧ e.tgt = tgt ∧ e.type = ty) = false := by
      simpa using hex
    refine ⟨{ g with edges := g.edges ++ [⟨src, tgt, ty, now1, none, m1⟩], modified := true },
      ?_, ?_, ?_, ?_, ?_, ?_⟩
    case _ => exact { g with
      edges := updateFirstEdge src tgt ty m2 now2 (g.edges ++ [⟨src, tgt, ty, now1, none, m1⟩])
      modified := true }
    · rw [addEdge_eq g src tgt ty m1 now1 hs ht hty, if_neg (by rw [hexf]; simp)]
    · rw [addEdge_eq _ src tgt ty m2 now2 (by simpa [hasNode] using hs)
        (by simpa [hasNode] using ht) hty]
      rw [if_pos (by simp [List.any_append])]
    · exact updateFirstEdge_length src tgt ty m2 now2 _
    · intro e1 h1
      rw [updateFirstEdge_find, h1]
      rfl
    · intro hu
      have h1 : edgesUnique (g.edges ++ [⟨src, tgt, ty, now1, none, m1⟩]) := by
        rw [edgesUnique, List.map_append]
        rw [List.nodup_append]
        refine ⟨hu, by simp [edgeKey], ?_⟩
        intro k hk hk2
        simp only [List.map_cons, List.map_nil, List.mem_singleton, edgeKey] at hk2
        subst hk2
        exact edgeKey_not_mem_of_not_any hexf hk
      have h2 : edgesUnique (updateFirstEdge src tgt ty m2 now2
          (g.edges ++ [⟨src, tgt, ty, now1, none, m1⟩])) := by
        rw [edgesUnique, updateFirstEdge_keys]
        exact h1
      exact ⟨h1, h2⟩

def c7G : Graph :=
  ((addNode emptyGraph "A" emptyMeta "t0").bind
    (fun g => addNode g "B" emptyMeta "t0")).getD emptyGraph

theorem c7_addEdge_unique_witness :
    (hasNode c7G "A" = true ∧ hasNode c7G "B" = true
      ∧ "contains" ∈ RELATIONSHIP_TYPES)
    ∧ (∃ g1 g2, addEdge c7G "A" "B" "contains" [("w", "1")] "t1" = some g1
        ∧ addEdge g1 "A" "B" "contains" [("w", "2")] "t2" = some g2
        ∧ g2.edges.length = g1.edges.length
        ∧ (∀ e1, g1.edges.find? (fun e => e.src = "A" ∧ e.tgt = "B" ∧ e.type = "contains")
              = some e1 →
            g2.edges.find? (fun e => e.src = "A" ∧ e.tgt = "B" ∧ e.type = "contains")
              = some (mergeEdge e1 [("w", "2")] "t2"))
        ∧ (edgesUnique c7G.edges → edgesUnique g1.edges ∧ edgesUnique g2.edges)) :=
  ⟨⟨by decide, by decide, by decide⟩,
    c7_addEdge_unique c7G "A" "B" "contains" [("w", "1")] [("w", "2")] "t1" "t2"
      (by decide) (by decide) (by decide)⟩

theorem find?_map_update (l : List NodeRec) (did : String) (f : NodeRec → NodeRec)
    (hf : ∀ n, (f n).did = n.did) :
    (l.map (fun n => if n.did = did then f n else n)).find? (fun x => x.did = did)
      = (l.find? (fun x => x.did = did)).map f := by
  induction l with
  | nil => rfl
  | cons n l ih =>
    by_cases h : n.did = did
    · have hfd : ((f n).did = did) := by rw [hf n, h]
      simp [List.find?_cons, h, hfd]
    · have hb : (decide (n.did = did)) = false := by simpa using h
      simp only [List.map_cons, if_neg h, List.find?_cons, hb, ih]

/-- **C10.**  `addNode` on an existing identifier does not add a node:
the count is unchanged, the metadata is merged over the existing fields,
`created` survives when the metadata carries no `created` key, and
`updated` is refreshed to the call time. -/
theorem c10_addNode_merge (g : Graph) (did : String) (m : NodeMeta) (now : String)
    (n : NodeRec) (hfind : g.nodes.find? (fun x => x.did = did) = some n)
    (hne : did ≠ "") :
    ∃ g', addNode g did m now = some g'
      ∧ g'.nodes.length = g.nodes.length
      ∧ g'.nodes.find? (fun x => x.did = did) = some (mergeNode n m now)
      ∧ (m.created = none → (mergeNode n m now).created = n.created)
      ∧ (mergeNode n m now).updated = now
      ∧ (mergeNode n m now).type = m.type.getD n.type
      ∧ (mergeNode n m now).label = m.label.getD n.label
      ∧ (mergeNode n m now).props = propsMerge n.props m.props := by
  have hmem : n ∈ g.nodes := List.mem_of_find?_eq_some hfind
  have hpred : (n.did = did) := by simpa using List.find?_some hfind
  have hhas : hasNode g did = true := by
    rw [hasNode, List.any_eq_true]
    exact ⟨n, hmem, by simpa using hpred⟩
  refine ⟨{ g with
      nodes := g.nodes.map (fun x => if x.did = did then mergeNode x m now else x)
      modified := true }, ?_, by simp, ?_, ?_, rfl, rfl, rfl, rfl⟩
  · rw [addNode, if_neg hne, if_pos hhas]
  · show (g.nodes.map (fun x => if x.did = did then mergeNode x m now else x)).find?
        (fun x => x.did = did) = some (mergeNode n m now)
    rw [find?_map_update g.nodes did (fun x => mergeNode x m now) (fun _ => rfl), hfind]
    rfl
  · intro hc
    simp [mergeNode, hc]

def c10G : Graph :=
  (addNode emptyGraph "A"
    { emptyMeta with type := some "Dataset", props := [("p", "1")] } "t0").getD emptyGraph

def c10Meta : NodeMeta :=
  { emptyMeta with label := some "L", props := [("p", "2"), ("q", "3")] }

def c10Node : NodeRec :=
  ⟨"A", "Dataset", "A", "t0", "t0", none, none, [("p", "1")]⟩

theorem c10_addNode_merge_witness :
    (c10G.nodes.find? (fun x => x.did = "A") = some c10Node ∧ "A" ≠ "")
    ∧ (∃ g', addNode c10G "A" c10Meta "t9" = some g'
        ∧ g'.nodes.length = c10G.nodes.length
        ∧ g'.nodes.find? (fun x => x.did = "A") = some (mergeNode c10Node c10Meta "t9")
        ∧ (c10Meta.created = none → (mergeNode c10Node c10Meta "t9").created = c10Node.created)
        ∧ (mergeNode c10Node c10Meta "t9").updated = "t9"
        ∧ (mergeNode c10Node c10Meta "t9").type = c10Meta.type.getD c10Node.type
        ∧ (mergeNode c10Node c10Meta "t9").label = c10Meta.label.getD c10Node.label
        ∧ (mergeNode c10Node c10Meta "t9").props = propsMerge c10Node.props c10Meta.props) :=
  ⟨⟨by decide, by decide⟩,
    c10_addNode_merge c10G "A" c10Meta "t9" c10Node (by decide) (by decide)⟩

/-- Graph with node `A`, after a `toPROV` call has filled the cache. -/
def c5g2 : Graph :=
  (toPROV ((addNode emptyGraph "A" emptyMeta "t1").getD emptyGraph)).2

/-- `c5g2` after adding node `B` (dirty flag set again). -/
def c5g3 : Graph := (addNode c5g2 "B" emptyMeta "t2").getD emptyGraph

/-- **C5 exhibits a code bug.**  `removeEdge` *assigns*
`this.modified = this.edges.length !== initialCount`; a no-op
`removeEdge` therefore clears a dirty flag set by an earlier mutation, and
the next `toPROV` serves the stale cached document.  Sequence: add node
`A`; project (cache filled); add node `B`; `removeEdge('A','A')` (removes
nothing, resets `modified`); project again — the result omits `B` and
differs from the true projection of the current state. -/
theorem c5_toPROV_stale_cache :
    (addNode emptyGraph "A" emptyMeta "t1").isSome = true
    ∧ (addNode c5g2 "B" emptyMeta "t2").isSome = true
    ∧ (removeEdge c5g3 "A" "A" none).1.nodes = c5g3.nodes
    ∧ (removeEdge c5g3 "A" "A" none).1.edges = c5g3.edges
    ∧ (removeEdge c5g3 "A" "A" none).1.modified = false
    ∧ (toPROV (removeEdge c5g3 "A" "A" none).1).1
      ≠ provOf (removeEdge c5g3 "A" "A" none).1.nodes
          (removeEdge c5g3 "A" "A" none).1.edges := by
  decide

theorem mem_ite_append {α : Type} {r : α} {acc ext : List α} {c : Prop}
    [Decidable c] (h : r ∈ if c then acc ++ ext else acc) :
    r ∈ acc ∨ (c ∧ r ∈ ext) := by
  by_cases hc : c
  · rw [if_pos hc] at h
    rcases List.mem_append.mp h with h | h
    · exact Or.inl h
    · exact Or.inr ⟨hc, h⟩
  · rw [if_neg hc] at h
    exact Or.inl h

theorem dfsF_mem_nodup (g : Graph) (target : String) (rt : Option (List String)) :
    ∀ (fuel : Nat) (current : String) (visited path : List String),
      visited = path → path.Nodup → current ∉ path →
      ∀ p ∈ dfsF g target rt fuel current visited path, p.Nodup := by
  intro fuel
  induction fuel with
  | zero => intro current visited path _ _ _ p hp; simp [dfsF] at hp
  | succ f ih =>
    intro current visited path hvp hnd hcur p hp
    rw [dfsF] at hp
    subst hvp
    by_cases htgt : current = target
    · rw [if_pos htgt] at hp
      have : p = visited ++ [current] := by simpa using hp
      subst this
      simp [List.nodup_append, hcur, hnd]
    · rw [if_neg htgt] at hp
      have hnd' : (visited ++ [current]).Nodup := by
        simp [List.nodup_append, hcur, hnd]
      have haux : ∀ (es : List EdgeRec) (acc : List (List String)),
          (∀ q ∈ acc, q.Nodup) →
          ∀ q ∈ es.foldl
            (fun acc e =>
              let typeOk := match rt with
                | none => true
                | some ts => ts.contains e.type
              if ¬ (visited ++ [current]).contains e.tgt ∧ typeOk = true then
                acc ++ dfsF g target rt f e.tgt (visited ++ [current]) (visited ++ [current])
              else acc) acc, q.Nodup := by
        intro es
        induction es with
        | nil => intro acc hacc q hq; exact hacc q hq
        | cons e es ihe =>
          intro acc hacc q hq
          rw [List.foldl_cons] at hq
          refine ihe _ ?_ q hq
          intro r hr
          rcases mem_ite_append hr with hr | ⟨hc, hr⟩
          · exact hacc r hr
          · have htgtmem : e.tgt ∉ visited ++ [current] := by
              intro hm
              exact hc.1 (List.elem_iff.mpr hm)
            exact ih e.tgt (visited ++ [current]) (visited ++ [current]) rfl hnd'
              htgtmem r hr
      exact haux _ [] (by simp) p hp

/-- **C6.**  `findPaths` is a total function (the model's recursion is on
the decreasing depth, exactly the source's termination argument), and
every path it returns is simple: no node identifier repeats within a
returned path — on every graph, cyclic ones included. -/
theorem c6_findPaths_simple (g : Graph) (s t : String) (maxDepth : Int)
    (rt : Option (List String)) :
    ∀ p ∈ findPaths g s t maxDepth rt, p.Nodup := by
  intro p hp
  rw [findPaths] at hp
  split at hp
  · simp at hp
  · exact dfsF_mem_nodup g t rt _ s [] [] rfl (by simp) (by simp) p hp

/-- A two-node cycle: `A → B → A`. -/
def c6G : Graph :=
  (((((addNode emptyGraph "A" emptyMeta "t").bind
    (fun g => addNode g "B" emptyMeta "t")).bind
    (fun g => addEdge g "A" "B" "contains" [] "t")).bind
    (fun g => addEdge g "B" "A" "contains" [] "t"))).getD emptyGraph

theorem c6_findPaths_simple_witness :
    (["A", "B"] ∈ findPaths c6G "A" "B" 5 none) ∧ (["A", "B"] : List String).Nodup :=
  ⟨by decide, c6_findPaths_simple c6G "A" "B" 5 none ["A", "B"] (by decide)⟩

/-! ### Toward C4: characterizing the projection

`provOf` is a fold; the lemmas below compute it entrywise.  The node
phase appends one entry per node to the map of its category; the edge
phase only rewrites values, never keys, so each entry's final value is
the fold of its own edges' effects over its base record. -/

/-- Category test for the entity partition (`default` branch of the node
loop). -/
def entityCat (n : NodeRec) : Bool :=
  ¬ n.type = "Activity" ∧ n.type ∉ agentTypes

def entityBase (n : NodeRec) : EntityRec :=
  ⟨n.type, jsOr n.label n.did, n.created, [], none, none, []⟩

def activityBase (n : NodeRec) : ActivityRec :=
  ⟨jsOrO n.startTime n.created, jsOrO n.endTime n.updated, jsOr n.label n.did, [], none⟩

def agentBase (n : NodeRec) : AgentRec :=
  ⟨n.type, jsOr n.label n.did⟩

theorem provAddNode_cases (d : ProvDoc) (n : NodeRec) :
    provAddNode d n =
      if n.type = "Activity" then
        { d with activity := d.activity ++ [(n.did, activityBase n)] }
      else if n.type ∈ agentTypes then
        { d with agent := d.agent ++ [(n.did, agentBase n)] }
      else { d with entity := d.entity ++ [(n.did, entityBase n)] } := by
  rw [provAddNode]
  rfl

theorem provNodes_spec (nodes : List NodeRec) :
    ∀ d : ProvDoc,
      nodes.foldl provAddNode d =
        ⟨d.entity ++ (nodes.filter entityCat).map (fun n => (n.did, entityBase n)),
         d.activity ++ (nodes.filter (fun n => n.type = "Activity")).map
           (fun n => (n.did, activityBase n)),
         d.agent ++ (nodes.filter (fun n => decide (n.type ∈ agentTypes)
             && ¬ n.type = "Activity")).map (fun n => (n.did, agentBase n))⟩ := by
  induction nodes with
  | nil => intro d; simp
  | cons n ns ih =>
    intro d
    rw [List.foldl_cons, provAddNode_cases, ih]
    by_cases ha : n.type = "Activity"
    · simp [entityCat, ha, List.filter_cons]
    · by_cases hg : n.type ∈ agentTypes
      · simp [entityCat, ha, hg, List.filter_cons]
      · simp [entityCat, ha, hg, List.filter_cons]

/-- One step of the key-targeted value update used by `updateEntity` /
`updateActivity` / `pushCustom`. -/
theorem keyUpdate_cons {α : Type} (a : String) (v : α) (l : List (String × α))
    (k : String) (f : α → α) :
    ((a, v) :: l).map (fun kv => if kv.1 = k then (kv.1, f kv.2) else kv)
      = (if a = k then (a, f v) else (a, v))
        :: l.map (fun kv => if kv.1 = k then (kv.1, f kv.2) else kv) := rfl

/-- Association-list update by key rewrites no keys. -/
theorem map_fst_keyUpdate {α : Type} (l : List (String × α)) (k : String)
    (f : α → α) :
    (l.map (fun kv => if kv.1 = k then (kv.1, f kv.2) else kv)).map Prod.fst
      = l.map Prod.fst := by
  induction l with
  | nil => rfl
  | cons kv l ih =>
    obtain ⟨a, v⟩ := kv
    rw [keyUpdate_cons]
    by_cases h : a = k
    · rw [if_pos h]
      simp [ih]
    · rw [if_neg h]
      simp [ih]

theorem lookup_keyUpdate_self {α : Type} (l : List (String × α)) (k : String)
    (f : α → α) :
    (l.map (fun kv => if kv.1 = k then (kv.1, f kv.2) else kv)).lookup k
      = (l.lookup k).map f := by
  induction l with
  | nil => rfl
  | cons kv l ih =>
    obtain ⟨a, v⟩ := kv
    rw [keyUpdate_cons]
    by_cases h : a = k
    · subst h
      rw [if_pos rfl]
      simp [List.lookup, ih]
    · rw [if_neg h]
      have hb : (k == a) = false := beq_eq_false_iff_ne.mpr (fun hh => h hh.symm)
      simp [List.lookup, hb, ih]

theorem lookup_keyUpdate_other {α : Type} (l : List (String × α)) (k k' : String)
    (f : α → α) (hne : k' ≠ k) :
    (l.map (fun kv => if kv.1 = k then (kv.1, f kv.2) else kv)).lookup k'
      = l.lookup k' := by
  induction l with
  | nil => rfl
  | cons kv l ih =>
    obtain ⟨a, v⟩ := kv
    rw [keyUpdate_cons]
    by_cases h : a = k
    · subst h
      have hb : (k' == a) = false := beq_eq_false_iff_ne.mpr hne
      rw [if_pos rfl]
      simp [List.lookup, hb, ih]
    · rw [if_neg h]
      cases hk : k' == a with
      | true => simp [List.lookup, hk]
      | false => simp [List.lookup, hk, ih]

theorem lookup_none_iff' {α : Type} (ps : List (String × α)) (k : String) :
    ps.lookup k = none ↔ k ∉ ps.map Prod.fst := by
  induction ps with
  | nil => simp
  | cons p ps ih =>
    obtain ⟨k', v⟩ := p
    by_cases hk : k = k'
    · subst hk
      simp [List.lookup]
    · have hbeq : (k == k') = false := beq_eq_false_iff_ne.mpr hk
      simp [List.lookup, hbeq, ih, hk]

theorem lookup_isSome_iff {α : Type} (ps : List (String × α)) (k : String) :
    (ps.lookup k).isSome = true ↔ k ∈ ps.map Prod.fst := by
  constructor
  · intro h
    by_contra hmem
    rw [(lookup_none_iff' ps k).mpr hmem] at h
    exact Bool.noConfusion h
  · intro h
    cases hl : ps.lookup k with
    | some v => rfl
    | none => exact absurd h ((lookup_none_iff' ps k).mp hl)

/-- Two association lists with the same key sequence, duplicate-free, and
pointwise equal lookups are equal. -/
theorem assoc_ext {α : Type} :
    ∀ (l1 l2 : List (String × α)), l1.map Prod.fst = l2.map Prod.fst →
      (l1.map Prod.fst).Nodup → (∀ k, l1.lookup k = l2.lookup k) → l1 = l2 := by
  intro l1
  induction l1 with
  | nil =>
    intro l2 hk _ _
    cases l2 with
    | nil => rfl
    | cons kv l2 => simp at hk
  | cons kv l1 ih =>
    intro l2 hk hnd hlook
    cases l2 with
    | nil => simp at hk
    | cons kv2 l2 =>
      obtain ⟨a1, v1⟩ := kv
      obtain ⟨a2, v2⟩ := kv2
      simp only [List.map_cons, List.cons.injEq] at hk
      obtain ⟨hk1, hkrest⟩ := hk
      subst hk1
      have hnd' := List.nodup_cons.mp hnd
      have hv : v1 = v2 := by
        have := hlook a1
        simpa [List.lookup] using this
      have hrest : l1 = l2 := by
        refine ih l2 hkrest hnd'.2 ?_
        intro k
        by_cases hkk : k = a1
        · subst hkk
          rw [(lookup_none_iff' l1 k).mpr hnd'.1,
            (lookup_none_iff' l2 k).mpr (hkrest ▸ hnd'.1)]
        · have hb : (k == a1) = false := beq_eq_false_iff_ne.mpr hkk
          have := hlook k
          simpa [List.lookup, hb] using this
      rw [hv, hrest]

/-- Effect of one edge on the entity record stored under `did`, assuming
`did` is an entity key and `kA` / `kG` decide activity / agent key
membership (both are invariant during the edge fold). -/
def entityEffect (kA kG : String → Bool) (nodes : List NodeRec) (did : String)
    (r : EntityRec) (e : EdgeRec) : EntityRec :=
  if e.type ∈ derivFamily then
    (if e.tgt = did then { r with wasDerivedFrom := r.wasDerivedFrom ++ [e.src] } else r)
  else if e.type = "wasGeneratedBy" then
    (if e.src = did ∧ kA e.tgt = true then { r with wasGeneratedBy := some e.tgt } else r)
  else if e.type = "used" then r
  else if e.type = "wasAttributedTo" then
    (if e.src = did ∧ kG e.tgt = true then { r with wasAttributedTo := some e.tgt } else r)
  else if e.type = "wasAssociatedWith" then r
  else
    let fromType := ((nodes.find? (fun n => n.did = e.src)).map (fun n => n.type)).getD ""
    if (fromType = "DigitalResource" ∨ fromType = "AIModel") ∧ e.src = did then
      pushCustom ("asset:" ++ e.type) e.tgt r
    else r

/-- Effect of one edge on the activity record stored under `did` (`kE` /
`kG` decide entity / agent key membership). -/
def activityEffect (kE kG : String → Bool) (did : String)
    (r : ActivityRec) (e : EdgeRec) : ActivityRec :=
  if e.type ∈ derivFamily then r
  else if e.type = "wasGeneratedBy" then r
  else if e.type = "used" then
    (if e.src = did ∧ kE e.tgt = true then { r with used := r.used ++ [e.tgt] } else r)
  else if e.type = "wasAttributedTo" then r
  else if e.type = "wasAssociatedWith" then
    (if e.src = did ∧ kG e.tgt = true then { r with wasAssociatedWith := some e.tgt } else r)
  else r

theorem provAddEdge_agent (nodes : List NodeRec) (d : ProvDoc) (e : EdgeRec) :
    (provAddEdge nodes d e).agent = d.agent := by
  simp only [provAddEdge]
  repeat' split
  all_goals rfl

theorem provAddEdge_entity_keys (nodes : List NodeRec) (d : ProvDoc) (e : EdgeRec) :
    (provAddEdge nodes d e).entity.map Prod.fst = d.entity.map Prod.fst := by
  simp only [provAddEdge]
  repeat' split
  all_goals simp [updateEntity, updateActivity, map_fst_keyUpdate]
  all_goals (intro a b _; split <;> rfl)

theorem provAddEdge_activity_keys (nodes : List NodeRec) (d : ProvDoc) (e : EdgeRec) :
    (provAddEdge nodes d e).activity.map Prod.fst = d.activity.map Prod.fst := by
  simp only [provAddEdge]
  repeat' split
  all_goals simp [updateEntity, updateActivity, map_fst_keyUpdate]
  all_goals (intro a b _; split <;> rfl)

theorem isSome_congr_keys {α : Type} {l1 l2 : List (String × α)}
    (h : l1.map Prod.fst = l2.map Prod.fst) (k : String) :
    (l1.lookup k).isSome = (l2.lookup k).isSome := by
  cases h1 : (l1.lookup k).isSome with
  | true =>
    have hm : k ∈ l2.map Prod.fst := h ▸ (lookup_isSome_iff l1 k).mp h1
    exact ((lookup_isSome_iff l2 k).mpr hm).symm
  | false =>
    cases h2 : (l2.lookup k).isSome with
    | true =>
      have hm : k ∈ l1.map Prod.fst := h ▸ (lookup_isSome_iff l2 k).mp h2
      rw [(lookup_isSome_iff l1 k).mpr hm] at h1
      exact Bool.noConfusion h1
    | false => rfl

theorem updateEntity_lookup_self (d : ProvDoc) (k : String)
    (f : EntityRec → EntityRec) :
    (updateEntity d k f).entity.lookup k = (d.entity.lookup k).map f :=
  lookup_keyUpdate_self d.entity k f

theorem updateEntity_lookup_other (d : ProvDoc) (k k' : String)
    (f : EntityRec → EntityRec) (hne : k' ≠ k) :
    (updateEntity d k f).entity.lookup k' = d.entity.lookup k' :=
  lookup_keyUpdate_other d.entity k k' f hne

theorem updateActivity_lookup_self (d : ProvDoc) (k : String)
    (f : ActivityRec → ActivityRec) :
    (updateActivity d k f).activity.lookup k = (d.activity.lookup k).map f :=
  lookup_keyUpdate_self d.activity k f

theorem updateActivity_lookup_other (d : ProvDoc) (k k' : String)
    (f : ActivityRec → ActivityRec) (hne : k' ≠ k) :
    (updateActivity d k f).activity.lookup k' = d.activity.lookup k' :=
  lookup_keyUpdate_other d.activity k k' f hne

theorem provAddEdge_entity_lookup (nodes : List NodeRec) (d : ProvDoc) (e : EdgeRec)
    (did : String) (r : EntityRec) (kA kG : String → Bool)
    (hA : ∀ k, kA k = (d.activity.lookup k).isSome)
    (hG : ∀ k, kG k = (d.agent.lookup k).isSome)
    (hr : d.entity.lookup did = some r) :
    (provAddEdge nodes d e).entity.lookup did
      = some (entityEffect kA kG nodes did r e) := by
  rw [provAddEdge, entityEffect]
  by_cases h1 : e.type ∈ derivFamily
  · rw [if_pos h1, if_pos h1]
    by_cases h2 : e.tgt = did
    · subst h2
      rw [if_pos (by rw [hr]; rfl), if_pos rfl]
      rw [updateEntity_lookup_self, hr]
      rfl
    · rw [if_neg h2]
      by_cases h3 : (d.entity.lookup e.tgt).isSome = true
      · rw [if_pos h3]
        rw [updateEntity_lookup_other _ _ _ _ (fun hh => h2 hh.symm), hr]
      · rw [if_neg h3]
        exact hr
  · rw [if_neg h1, if_neg h1]
    by_cases h2 : e.type = "wasGeneratedBy"
    · rw [if_pos h2, if_pos h2]
      by_cases h3 : e.src = did
      · subst h3
        by_cases h4 : kA e.tgt = true
        · rw [if_pos ⟨(by rw [hr]; rfl), (hA e.tgt) ▸ h4⟩, if_pos ⟨rfl, h4⟩]
          rw [updateEntity_lookup_self, hr]
          rfl
        · have h4' : ¬ (d.activity.lookup e.tgt).isSome = true := (hA e.tgt) ▸ h4
          rw [if_neg (fun hh => h4' hh.2), if_neg (fun hh => h4 hh.2)]
          exact hr
      · by_cases h4 : (d.entity.lookup e.src).isSome = true
            ∧ (d.activity.lookup e.tgt).isSome = true
        · rw [if_pos h4, if_neg (fun hh => h3 hh.1)]
          rw [updateEntity_lookup_other _ _ _ _ (fun hh => h3 hh.symm), hr]
        · rw [if_neg h4, if_neg (fun hh => h3 hh.1)]
          exact hr
    · rw [if_neg h2, if_neg h2]
      by_cases h3 : e.type = "used"
      · rw [if_pos h3, if_pos h3]
        by_cases h4 : (d.activity.lookup e.src).isSome = true
            ∧ (d.entity.lookup e.tgt).isSome = true
        · rw [if_pos h4]
          exact hr
        · rw [if_neg h4]
          exact hr
      · rw [if_neg h3, if_neg h3]
        by_cases h5 : e.type = "wasAttributedTo"
        · rw [if_pos h5, if_pos h5]
          by_cases h6 : e.src = did
          · subst h6
            by_cases h7 : kG e.tgt = true
            · rw [if_pos ⟨(by rw [hr]; rfl), (hG e.tgt) ▸ h7⟩, if_pos ⟨rfl, h7⟩]
              rw [updateEntity_lookup_self, hr]
              rfl
            · have h7' : ¬ (d.agent.lookup e.tgt).isSome = true := (hG e.tgt) ▸ h7
              rw [if_neg (fun hh => h7' hh.2), if_neg (fun hh => h7 hh.2)]
              exact hr
          · by_cases h7 : (d.entity.lookup e.src).isSome = true
                ∧ (d.agent.lookup e.tgt).isSome = true
            · rw [if_pos h7, if_neg (fun hh => h6 hh.1)]
              rw [updateEntity_lookup_other _ _ _ _ (fun hh => h6 hh.symm), hr]
            · rw [if_neg h7, if_neg (fun hh => h6 hh.1)]
              exact hr
        · rw [if_neg h5, if_neg h5]
          by_cases h6 : e.type = "wasAssociatedWith"
          · rw [if_pos h6, if_pos h6]
            by_cases h7 : (d.activity.lookup e.src).isSome = true
                ∧ (d.agent.lookup e.tgt).isSome = true
            · rw [if_pos h7]
              exact hr
            · rw [if_neg h7]
              exact hr
          · rw [if_neg h6, if_neg h6]
            show ((if _ then _ else _) : ProvDoc).entity.lookup did
              = some ((if _ then _ else _) : EntityRec)
            by_cases h7 : (((nodes.find? (fun n => n.did = e.src)).map
                (fun n => n.type)).getD "" = "DigitalResource"
                ∨ ((nodes.find? (fun n => n.did = e.src)).map
                  (fun n => n.type)).getD "" = "AIModel")
            · by_cases h8 : e.src = did
              · subst h8
                rw [if_pos h7, if_pos (by rw [hr]; rfl), if_pos ⟨h7, rfl⟩]
                rw [updateEntity_lookup_self, hr]
                rfl
              · by_cases h9 : (d.entity.lookup e.src).isSome = true
                · rw [if_pos h7, if_pos h9, if_neg (fun hh => h8 hh.2)]
                  rw [updateEntity_lookup_other _ _ _ _ (fun hh => h8 hh.symm), hr]
                · rw [if_pos h7, if_neg h9, if_neg (fun hh => h8 hh.2)]
                  exact hr
            · rw [if_neg h7, if_neg (fun hh => h7 hh.1)]
              exact hr

theorem provAddEdge_activity_lookup (nodes : List NodeRec) (d : ProvDoc) (e : EdgeRec)
    (did : String) (r : ActivityRec) (kE kG : String → Bool)
    (hE : ∀ k, kE k = (d.entity.lookup k).isSome)
    (hG : ∀ k, kG k = (d.agent.lookup k).isSome)
    (hr : d.activity.lookup did = some r) :
    (provAddEdge nodes d e).activity.lookup did
      = some (activityEffect kE kG did r e) := by
  rw [provAddEdge, activityEffect]
  by_cases h1 : e.type ∈ derivFamily
  · rw [if_pos h1, if_pos h1]
    by_cases h2 : (d.entity.lookup e.tgt).isSome = true
    · rw [if_pos h2]
      exact hr
    · rw [if_neg h2]
      exact hr
  · rw [if_neg h1, if_neg h1]
    by_cases h2 : e.type = "wasGeneratedBy"
    · rw [if_pos h2, if_pos h2]
      by_cases h3 : (d.entity.lookup e.src).isSome = true
          ∧ (d.activity.lookup e.tgt).isSome = true
      · rw [if_pos h3]
        exact hr
      · rw [if_neg h3]
        exact hr
    · rw [if_neg h2, if_neg h2]
      by_cases h3 : e.type = "used"
      · rw [if_pos h3, if_pos h3]
        by_cases h4 : e.src = did
        · subst h4
          by_cases h5 : kE e.tgt = true
          · rw [if_pos ⟨(by rw [hr]; rfl), (hE e.tgt) ▸ h5⟩, if_pos ⟨rfl, h5⟩]
            rw [updateActivity_lookup_self, hr]
            rfl
          · have h5' : ¬ (d.entity.lookup e.tgt).isSome = true := (hE e.tgt) ▸ h5
            rw [if_neg (fun hh => h5' hh.2), if_neg (fun hh => h5 hh.2)]
            exact hr
        · by_cases h5 : (d.activity.lookup e.src).isSome = true
              ∧ (d.entity.lookup e.tgt).isSome = true
          · rw [if_pos h5, if_neg (fun hh => h4 hh.1)]
            rw [updateActivity_lookup_other _ _ _ _ (fun hh => h4 hh.symm), hr]
          · rw [if_neg h5, if_neg (fun hh => h4 hh.1)]
            exact hr
      · rw [if_neg h3, if_neg h3]
        by_cases h4 : e.type = "wasAttributedTo"
        · rw [if_pos h4, if_pos h4]
          by_cases h5 : (d.entity.lookup e.src).isSome = true
              ∧ (d.agent.lookup e.tgt).isSome = true
          · rw [if_pos h5]
            exact hr
          · rw [if_neg h5]
            exact hr
        · rw [if_neg h4, if_neg h4]
          by_cases h5 : e.type = "wasAssociatedWith"
          · rw [if_pos h5, if_pos h5]
            by_cases h6 : e.src = did
            · subst h6
              by_cases h7 : kG e.tgt = true
              · rw [if_pos ⟨(by rw [hr]; rfl), (hG e.tgt) ▸ h7⟩, if_pos ⟨rfl, h7⟩]
                rw [updateActivity_lookup_self, hr]
                rfl
              · have h7' : ¬ (d.agent.lookup e.tgt).isSome = true := (hG e.tgt) ▸ h7
                rw [if_neg (fun hh => h7' hh.2), if_neg (fun hh => h7 hh.2)]
                exact hr
            · by_cases h7 : (d.activity.lookup e.src).isSome = true
                  ∧ (d.agent.lookup e.tgt).isSome = true
              · rw [if_pos h7, if_neg (fun hh => h6 hh.1)]
                rw [updateActivity_lookup_other _ _ _ _ (fun hh => h6 hh.symm), hr]
              · rw [if_neg h7, if_neg (fun hh => h6 hh.1)]
                exact hr
          · rw [if_neg h5, if_neg h5]
            show ((if _ then _ else _) : ProvDoc).activity.lookup did = _
            by_cases h6 : (((nodes.find? (fun n => n.did = e.src)).map
                (fun n => n.type)).getD "" = "DigitalResource"
                ∨ ((nodes.find? (fun n => n.did = e.src)).map
                  (fun n => n.type)).getD "" = "AIModel")
            · rw [if_pos h6]
              by_cases h7 : (d.entity.lookup e.src).isSome = true
              · rw [if_pos h7]
                exact hr
              · rw [if_neg h7]
                exact hr
            · rw [if_neg h6]
              exact hr

theorem foldl_provAddEdge_agent (nodes : List NodeRec) :
    ∀ (edges : List EdgeRec) (d : ProvDoc),
      (edges.foldl (provAddEdge nodes) d).agent = d.agent := by
  intro edges
  induction edges with
  | nil => intro d; rfl
  | cons e es ih =>
    intro d
    rw [List.foldl_cons, ih, provAddEdge_agent]

theorem foldl_provAddEdge_entity_keys (nodes : List NodeRec) :
    ∀ (edges : List EdgeRec) (d : ProvDoc),
      (edges.foldl (provAddEdge nodes) d).entity.map Prod.fst
        = d.entity.map Prod.fst := by
  intro edges
  induction edges with
  | nil => intro d; rfl
  | cons e es ih =>
    intro d
    rw [List.foldl_cons, ih, provAddEdge_entity_keys]

theorem foldl_provAddEdge_activity_keys (nodes : List NodeRec) :
    ∀ (edges : List EdgeRec) (d : ProvDoc),
      (edges.foldl (provAddEdge nodes) d).activity.map Prod.fst
        = d.activity.map Prod.fst := by
  intro edges
  induction edges with
  | nil => intro d; rfl
  | cons e es ih =>
    intro d
    rw [List.foldl_cons, ih, provAddEdge_activity_keys]

theorem foldl_provAddEdge_entity_lookup (nodes : List NodeRec) (did : String)
    (kA kG : String → Bool) :
    ∀ (edges : List EdgeRec) (d : ProvDoc) (r : EntityRec),
      (∀ k, kA k = (d.activity.lookup k).isSome) →
      (∀ k, kG k = (d.agent.lookup k).isSome) →
      d.entity.lookup did = some r →
      (edges.foldl (provAddEdge nodes) d).entity.lookup did
        = some (edges.foldl (entityEffect kA kG nodes did) r) := by
  intro edges
  induction edges with
  | nil => intro d r _ _ hr; exact hr
  | cons e es ih =>
    intro d r hA hG hr
    rw [List.foldl_cons, List.foldl_cons]
    refine ih (provAddEdge nodes d e) (entityEffect kA kG nodes did r e) ?_ ?_ ?_
    · intro k
      rw [hA k]
      exact (isSome_congr_keys (provAddEdge_activity_keys nodes d e) k).symm
    · intro k
      rw [hG k, provAddEdge_agent]
    · exact provAddEdge_entity_lookup nodes d e did r kA kG hA hG hr

theorem foldl_provAddEdge_activity_lookup (nodes : List NodeRec) (did : String)
    (kE kG : String → Bool) :
    ∀ (edges : List EdgeRec) (d : ProvDoc) (r : ActivityRec),
      (∀ k, kE k = (d.entity.lookup k).isSome) →
      (∀ k, kG k = (d.agent.lookup k).isSome) →
      d.activity.lookup did = some r →
      (edges.foldl (provAddEdge nodes) d).activity.lookup did
        = some (edges.foldl (activityEffect kE kG did) r) := by
  intro edges
  induction edges with
  | nil => intro d r _ _ hr; exact hr
  | cons e es ih =>
    intro d r hE hG hr
    rw [List.foldl_cons, List.foldl_cons]
    refine ih (provAddEdge nodes d e) (activityEffect kE kG did r e) ?_ ?_ ?_
    · intro k
      rw [hE k]
      exact (isSome_congr_keys (provAddEdge_entity_keys nodes d e) k).symm
    · intro k
      rw [hG k, provAddEdge_agent]
    · exact provAddEdge_activity_lookup nodes d e did r kE kG hE hG hr

/-! Field-wise characterization of the entity / activity effect folds. -/

/-- `custom`-map update of `pushCustom`, at the list level. -/
def pushPair (c : List (String × List String)) (key tgt : String) :
    List (String × List String) :=
  match c.lookup key with
  | some _ => c.map (fun kv => if kv.1 = key then (kv.1, kv.2 ++ [tgt]) else kv)
  | none => c ++ [(key, [tgt])]

theorem pushCustom_custom (key tgt : String) (r : EntityRec) :
    (pushCustom key tgt r).custom = pushPair r.custom key tgt := rfl

/-- The `fromType` computed by the `default` branch of `toPROV`. -/
def fromTypeOf (nodes : List NodeRec) (src : String) : String :=
  ((nodes.find? (fun n => n.did = src)).map (fun n => n.type)).getD ""

/-- Edges that land in an `asset:{type}` custom member of entity `did`. -/
def customPred (nodes : List NodeRec) (did : String) (e : EdgeRec) : Bool :=
  decide (e.type ∉ derivFamily ∧ ¬ e.type = "wasGeneratedBy" ∧ ¬ e.type = "used"
    ∧ ¬ e.type = "wasAttributedTo" ∧ ¬ e.type = "wasAssociatedWith"
    ∧ (fromTypeOf nodes e.src = "DigitalResource" ∨ fromTypeOf nodes e.src = "AIModel")
    ∧ e.src = did)

theorem entityEffect_provType (kA kG : String → Bool) (nodes : List NodeRec)
    (did : String) (r : EntityRec) (e : EdgeRec) :
    (entityEffect kA kG nodes did r e).provType = r.provType := by
  simp only [entityEffect]
  repeat' split
  all_goals rfl

theorem entityEffect_label (kA kG : String → Bool) (nodes : List NodeRec)
    (did : String) (r : EntityRec) (e : EdgeRec) :
    (entityEffect kA kG nodes did r e).label = r.label := by
  simp only [entityEffect]
  repeat' split
  all_goals rfl

theorem entityEffect_generatedAtTime (kA kG : String → Bool) (nodes : List NodeRec)
    (did : String) (r : EntityRec) (e : EdgeRec) :
    (entityEffect kA kG nodes did r e).generatedAtTime = r.generatedAtTime := by
  simp only [entityEffect]
  repeat' split
  all_goals rfl

theorem entityEffect_wdf (kA kG : String → Bool) (nodes : List NodeRec)
    (did : String) (r : EntityRec) (e : EdgeRec) :
    (entityEffect kA kG nodes did r e).wasDerivedFrom
      = if e.type ∈ derivFamily ∧ e.tgt = did
        then r.wasDerivedFrom ++ [e.src] else r.wasDerivedFrom := by
  simp only [entityEffect]
  by_cases h1 : e.type ∈ derivFamily
  · rw [if_pos h1]
    by_cases h2 : e.tgt = did
    · rw [if_pos h2, if_pos ⟨h1, h2⟩]
    · rw [if_neg h2, if_neg (fun hh : e.type ∈ derivFamily ∧ e.tgt = did => h2 hh.2)]
  · rw [if_neg (fun hh : e.type ∈ derivFamily ∧ e.tgt = did => h1 hh.1), if_neg h1]
    repeat' split
    all_goals rfl

theorem entityEffect_wgb (kA kG : String → Bool) (nodes : List NodeRec)
    (did : String) (r : EntityRec) (e : EdgeRec) :
    (entityEffect kA kG nodes did r e).wasGeneratedBy
      = if e.type = "wasGeneratedBy" ∧ e.src = did ∧ kA e.tgt = true
        then some e.tgt else r.wasGeneratedBy := by
  simp only [entityEffect]
  by_cases h1 : e.type ∈ derivFamily
  · rw [if_pos h1,
      if_neg (fun hh : e.type = "wasGeneratedBy" ∧ e.src = did ∧ kA e.tgt = true =>
        by rw [hh.1] at h1; exact absurd h1 (by decide))]
    split
    all_goals rfl
  · rw [if_neg h1]
    by_cases h2 : e.type = "wasGeneratedBy"
    · rw [if_pos h2]
      by_cases h3 : e.src = did ∧ kA e.tgt = true
      · rw [if_pos h3, if_pos ⟨h2, h3⟩]
      · rw [if_neg h3,
          if_neg (fun hh : e.type = "wasGeneratedBy" ∧ e.src = did ∧ kA e.tgt = true =>
            h3 hh.2)]
    · rw [if_neg h2,
        if_neg (fun hh : e.type = "wasGeneratedBy" ∧ e.src = did ∧ kA e.tgt = true =>
          h2 hh.1)]
      repeat' split
      all_goals rfl

theorem entityEffect_wat (kA kG : String → Bool) (nodes : List NodeRec)
    (did : String) (r : EntityRec) (e : EdgeRec) :
    (entityEffect kA kG nodes did r e).wasAttributedTo
      = if e.type = "wasAttributedTo" ∧ e.src = did ∧ kG e.tgt = true
        then some e.tgt else r.wasAttributedTo := by
  simp only [entityEffect]
  by_cases h1 : e.type ∈ derivFamily
  · rw [if_pos h1,
      if_neg (fun hh : e.type = "wasAttributedTo" ∧ e.src = did ∧ kG e.tgt = true =>
        by rw [hh.1] at h1; exact absurd h1 (by decide))]
    split
    all_goals rfl
  · rw [if_neg h1]
    by_cases h2 : e.type = "wasGeneratedBy"
    · rw [if_pos h2,
        if_neg (fun hh : e.type = "wasAttributedTo" ∧ e.src = did ∧ kG e.tgt = true =>
          by rw [hh.1] at h2; exact absurd h2 (by decide))]
      split
      all_goals rfl
    · rw [if_neg h2]
      by_cases h3 : e.type = "used"
      · rw [if_pos h3,
          if_neg (fun hh : e.type = "wasAttributedTo" ∧ e.src = did ∧ kG e.tgt = true =>
            by rw [hh.1] at h3; exact absurd h3 (by decide))]
      · rw [if_neg h3]
        by_cases h4 : e.type = "wasAttributedTo"
        · rw [if_pos h4]
          by_cases h5 : e.src = did ∧ kG e.tgt = true
          · rw [if_pos h5, if_pos ⟨h4, h5⟩]
          · rw [if_neg h5,
              if_neg (fun hh : e.type = "wasAttributedTo" ∧ e.src = did
                  ∧ kG e.tgt = true => h5 hh.2)]
        · rw [if_neg h4,
            if_neg (fun hh : e.type = "wasAttributedTo" ∧ e.src = did
                ∧ kG e.tgt = true => h4 hh.1)]
          repeat' split
          all_goals rfl

theorem customPred_spec (nodes : List NodeRec) (did : String) (e : EdgeRec) :
    customPred nodes did e = true ↔
      (e.type ∉ derivFamily ∧ ¬ e.type = "wasGeneratedBy" ∧ ¬ e.type = "used"
        ∧ ¬ e.type = "wasAttributedTo" ∧ ¬ e.type = "wasAssociatedWith"
        ∧ (fromTypeOf nodes e.src = "DigitalResource"
            ∨ fromTypeOf nodes e.src = "AIModel")
        ∧ e.src = did) :=
  decide_eq_true_iff

theorem entityEffect_custom (kA kG : String → Bool) (nodes : List NodeRec)
    (did : String) (r : EntityRec) (e : EdgeRec) :
    (entityEffect kA kG nodes did r e).custom
      = if customPred nodes did e = true
        then pushPair r.custom ("asset:" ++ e.type) e.tgt else r.custom := by
  simp only [entityEffect]
  by_cases h1 : e.type ∈ derivFamily
  · rw [if_pos h1,
      if_neg (fun hh : customPred nodes did e = true =>
        ((customPred_spec nodes did e).mp hh).1 h1)]
    split
    all_goals rfl
  · rw [if_neg h1]
    by_cases h2 : e.type = "wasGeneratedBy"
    · rw [if_pos h2,
        if_neg (fun hh : customPred nodes did e = true =>
          ((customPred_spec nodes did e).mp hh).2.1 h2)]
      split
      all_goals rfl
    · rw [if_neg h2]
      by_cases h3 : e.type = "used"
      · rw [if_pos h3,
          if_neg (fun hh : customPred nodes did e = true =>
            ((customPred_spec nodes did e).mp hh).2.2.1 h3)]
      · rw [if_neg h3]
        by_cases h4 : e.type = "wasAttributedTo"
        · rw [if_pos h4,
            if_neg (fun hh : customPred nodes did e = true =>
              ((customPred_spec nodes did e).mp hh).2.2.2.1 h4)]
          split
          all_goals rfl
        · rw [if_neg h4]
          by_cases h5 : e.type = "wasAssociatedWith"
          · rw [if_pos h5,
              if_neg (fun hh : customPred nodes did e = true =>
                ((customPred_spec nodes did e).mp hh).2.2.2.2.1 h5)]
          · rw [if_neg h5]
            show (if (fromTypeOf nodes e.src = "DigitalResource"
                ∨ fromTypeOf nodes e.src = "AIModel") ∧ e.src = did
              then pushCustom ("asset:" ++ e.type) e.tgt r else r).custom = _
            by_cases h6 : (fromTypeOf nodes e.src = "DigitalResource"
                ∨ fromTypeOf nodes e.src = "AIModel") ∧ e.src = did
            · rw [if_pos h6,
                if_pos ((customPred_spec nodes did e).mpr
                  ⟨h1, h2, h3, h4, h5, h6.1, h6.2⟩)]
              exact pushCustom_custom _ _ _
            · rw [if_neg h6,
                if_neg (fun hh : customPred nodes did e = true =>
                  h6 ⟨((customPred_spec nodes did e).mp hh).2.2.2.2.2.1,
                    ((customPred_spec nodes did e).mp hh).2.2.2.2.2.2⟩)]

/-- Last-write-wins accumulator for the single-valued PROV members. -/
def lastWrite (init : Option String) : List String → Option String
  | [] => init
  | t :: ts => lastWrite (some t) ts

theorem activityEffect_sat (kE kG : String → Bool) (did : String)
    (r : ActivityRec) (e : EdgeRec) :
    (activityEffect kE kG did r e).startedAtTime = r.startedAtTime := by
  simp only [activityEffect]
  repeat' split
  all_goals rfl

theorem activityEffect_eat (kE kG : String → Bool) (did : String)
    (r : ActivityRec) (e : EdgeRec) :
    (activityEffect kE kG did r e).endedAtTime = r.endedAtTime := by
  simp only [activityEffect]
  repeat' split
  all_goals rfl

theorem activityEffect_label (kE kG : String → Bool) (did : String)
    (r : ActivityRec) (e : EdgeRec) :
    (activityEffect kE kG did r e).label = r.label := by
  simp only [activityEffect]
  repeat' split
  all_goals rfl

theorem activityEffect_used (kE kG : String → Bool) (did : String)
    (r : ActivityRec) (e : EdgeRec) :
    (activityEffect kE kG did r e).used
      = if e.type = "used" ∧ e.src = did ∧ kE e.tgt = true
        then r.used ++ [e.tgt] else r.used := by
  simp only [activityEffect]
  by_cases h1 : e.type ∈ derivFamily
  · rw [if_pos h1,
      if_neg (fun hh : e.type = "used" ∧ e.src = did ∧ kE e.tgt = true =>
        by rw [hh.1] at h1; exact absurd h1 (by decide))]
  · rw [if_neg h1]
    by_cases h2 : e.type = "wasGeneratedBy"
    · rw [if_pos h2,
        if_neg (fun hh : e.type = "used" ∧ e.src = did ∧ kE e.tgt = true =>
          by rw [hh.1] at h2; exact absurd h2 (by decide))]
    · rw [if_neg h2]
      by_cases h3 : e.type = "used"
      · rw [if_pos h3]
        by_cases h4 : e.src = did ∧ kE e.tgt = true
        · rw [if_pos h4, if_pos ⟨h3, h4⟩]
        · rw [if_neg h4,
            if_neg (fun hh : e.type = "used" ∧ e.src = did ∧ kE e.tgt = true =>
              h4 hh.2)]
      · rw [if_neg h3,
          if_neg (fun hh : e.type = "used" ∧ e.src = did ∧ kE e.tgt = true =>
            h3 hh.1)]
        repeat' split
        all_goals rfl

theorem activityEffect_waw (kE kG : String → Bool) (did : String)
    (r : ActivityRec) (e : EdgeRec) :
    (activityEffect kE kG did r e).wasAssociatedWith
      = if e.type = "wasAssociatedWith" ∧ e.src = did ∧ kG e.tgt = true
        then some e.tgt else r.wasAssociatedWith := by
  simp only [activityEffect]
  by_cases h1 : e.type ∈ derivFamily
  · rw [if_pos h1,
      if_neg (fun hh : e.type = "wasAssociatedWith" ∧ e.src = did ∧ kG e.tgt = true =>
        by rw [hh.1] at h1; exact absurd h1 (by decide))]
  · rw [if_neg h1]
    by_cases h2 : e.type = "wasGeneratedBy"
    · rw [if_pos h2,
        if_neg (fun hh : e.type = "wasAssociatedWith" ∧ e.src = did ∧ kG e.tgt = true =>
          by rw [hh.1] at h2; exact absurd h2 (by decide))]
    · rw [if_neg h2]
      by_cases h3 : e.type = "used"
      · rw [if_pos h3,
          if_neg (fun hh : e.type = "wasAssociatedWith" ∧ e.src = did ∧ kG e.tgt = true =>
            by rw [hh.1] at h3; exact absurd h3 (by decide))]
        split
        all_goals rfl
      · rw [if_neg h3]
        by_cases h4 : e.type = "wasAttributedTo"
        · rw [if_pos h4,
            if_neg (fun hh : e.type = "wasAssociatedWith" ∧ e.src = did
                ∧ kG e.tgt = true =>
              by rw [hh.1] at h4; exact absurd h4 (by decide))]
        · rw [if_neg h4]
          by_cases h5 : e.type = "wasAssociatedWith"
          · rw [if_pos h5]
            by_cases h6 : e.src = did ∧ kG e.tgt = true
            · rw [if_pos h6, if_pos ⟨h5, h6⟩]
            · rw [if_neg h6,
                if_neg (fun hh : e.type = "wasAssociatedWith" ∧ e.src = did
                    ∧ kG e.tgt = true => h6 hh.2)]
          · rw [if_neg h5,
              if_neg (fun hh : e.type = "wasAssociatedWith" ∧ e.src = did
                  ∧ kG e.tgt = true => h5 hh.1)]

theorem effectFold_provType (kA kG : String → Bool) (nodes : List NodeRec)
    (did : String) :
    ∀ (edges : List EdgeRec) (r : EntityRec),
      (edges.foldl (entityEffect kA kG nodes did) r).provType = r.provType := by
  intro edges
  induction edges with
  | nil => intro r; rfl
  | cons e es ih =>
    intro r
    rw [List.foldl_cons, ih, entityEffect_provType]

theorem effectFold_label (kA kG : String → Bool) (nodes : List NodeRec)
    (did : String) :
    ∀ (edges : List EdgeRec) (r : EntityRec),
      (edges.foldl (entityEffect kA kG nodes did) r).label = r.label := by
  intro edges
  induction edges with
  | nil => intro r; rfl
  | cons e es ih =>
    intro r
    rw [List.foldl_cons, ih, entityEffect_label]

theorem effectFold_generatedAtTime (kA kG : String → Bool) (nodes : List NodeRec)
    (did : String) :
    ∀ (edges : List EdgeRec) (r : EntityRec),
      (edges.foldl (entityEffect kA kG nodes did) r).generatedAtTime
        = r.generatedAtTime := by
  intro edges
  induction edges with
  | nil => intro r; rfl
  | cons e es ih =>
    intro r
    rw [List.foldl_cons, ih, entityEffect_generatedAtTime]

theorem effectFold_wdf (kA kG : String → Bool) (nodes : List NodeRec)
    (did : String) :
    ∀ (edges : List EdgeRec) (r : EntityRec),
      (edges.foldl (entityEffect kA kG nodes did) r).wasDerivedFrom
        = r.wasDerivedFrom
          ++ (edges.filter (fun e => decide (e.type ∈ derivFamily ∧ e.tgt = did))).map
            (fun e => e.src) := by
  intro edges
  induction edges with
  | nil => intro r; simp
  | cons e es ih =>
    intro r
    rw [List.foldl_cons, ih, entityEffect_wdf]
    by_cases h : e.type ∈ derivFamily ∧ e.tgt = did
    · simp [h, List.filter_cons]
    · simp [h, List.filter_cons]

theorem effectFold_wgb (kA kG : String → Bool) (nodes : List NodeRec)
    (did : String) :
    ∀ (edges : List EdgeRec) (r : EntityRec),
      (edges.foldl (entityEffect kA kG nodes did) r).wasGeneratedBy
        = lastWrite r.wasGeneratedBy
          ((edges.filter (fun e =>
            decide (e.type = "wasGeneratedBy" ∧ e.src = did ∧ kA e.tgt = true))).map
              (fun e => e.tgt)) := by
  intro edges
  induction edges with
  | nil => intro r; rfl
  | cons e es ih =>
    intro r
    rw [List.foldl_cons, ih, entityEffect_wgb]
    by_cases h : e.type = "wasGeneratedBy" ∧ e.src = did ∧ kA e.tgt = true
    · simp [h, List.filter_cons, lastWrite]
    · simp [h, List.filter_cons]

theorem effectFold_wat (kA kG : String → Bool) (nodes : List NodeRec)
    (did : String) :
    ∀ (edges : List EdgeRec) (r : EntityRec),
      (edges.foldl (entityEffect kA kG nodes did) r).wasAttributedTo
        = lastWrite r.wasAttributedTo
          ((edges.filter (fun e =>
            decide (e.type = "wasAttributedTo" ∧ e.src = did ∧ kG e.tgt = true))).map
              (fun e => e.tgt)) := by
  intro edges
  induction edges with
  | nil => intro r; rfl
  | cons e es ih =>
    intro r
    rw [List.foldl_cons, ih, entityEffect_wat]
    by_cases h : e.type = "wasAttributedTo" ∧ e.src = did ∧ kG e.tgt = true
    · simp [h, List.filter_cons, lastWrite]
    · simp [h, List.filter_cons]

theorem effectFold_custom (kA kG : String → Bool) (nodes : List NodeRec)
    (did : String) :
    ∀ (edges : List EdgeRec) (r : EntityRec),
      (edges.foldl (entityEffect kA kG nodes did) r).custom
        = (edges.filter (customPred nodes did)).foldl
            (fun c e => pushPair c ("asset:" ++ e.type) e.tgt) r.custom := by
  intro edges
  induction edges with
  | nil => intro r; rfl
  | cons e es ih =>
    intro r
    rw [List.foldl_cons, ih, entityEffect_custom]
    by_cases h : customPred nodes did e = true
    · rw [if_pos h, List.filter_cons_of_pos h, List.foldl_cons]
    · rw [if_neg h, List.filter_cons_of_neg (by simpa using h)]

theorem effectFoldA_sat (kE kG : String → Bool) (did : String) :
    ∀ (edges : List EdgeRec) (r : ActivityRec),
      (edges.foldl (activityEffect kE kG did) r).startedAtTime
        = r.startedAtTime := by
  intro edges
  induction edges with
  | nil => intro r; rfl
  | cons e es ih =>
    intro r
    rw [List.foldl_cons, ih, activityEffect_sat]

theorem effectFoldA_eat (kE kG : String → Bool) (did : String) :
    ∀ (edges : List EdgeRec) (r : ActivityRec),
      (edges.foldl (activityEffect kE kG did) r).endedAtTime = r.endedAtTime := by
  intro edges
  induction edges with
  | nil => intro r; rfl
  | cons e es ih =>
    intro r
    rw [List.foldl_cons, ih, activityEffect_eat]

theorem effectFoldA_label (kE kG : String → Bool) (did : String) :
    ∀ (edges : List EdgeRec) (r : ActivityRec),
      (edges.foldl (activityEffect kE kG did) r).label = r.label := by
  intro edges
  induction edges with
  | nil => intro r; rfl
  | cons e es ih =>
    intro r
    rw [List.foldl_cons, ih, activityEffect_label]

theorem effectFoldA_used (kE kG : String → Bool) (did : String) :
    ∀ (edges : List EdgeRec) (r : ActivityRec),
      (edges.foldl (activityEffect kE kG did) r).used
        = r.used
          ++ (edges.filter (fun e =>
            decide (e.type = "used" ∧ e.src = did ∧ kE e.tgt = true))).map
              (fun e => e.tgt) := by
  intro edges
  induction edges with
  | nil => intro r; simp
  | cons e es ih =>
    intro r
    rw [List.foldl_cons, ih, activityEffect_used]
    by_cases h : e.type = "used" ∧ e.src = did ∧ kE e.tgt = true
    · simp [h, List.filter_cons]
    · simp [h, List.filter_cons]

theorem effectFoldA_waw (kE kG : String → Bool) (did : String) :
    ∀ (edges : List EdgeRec) (r : ActivityRec),
      (edges.foldl (activityEffect kE kG did) r).wasAssociatedWith
        = lastWrite r.wasAssociatedWith
          ((edges.filter (fun e =>
            decide (e.type = "wasAssociatedWith" ∧ e.src = did ∧ kG e.tgt = true))).map
              (fun e => e.tgt)) := by
  intro edges
  induction edges with
  | nil => intro r; rfl
  | cons e es ih =>
    intro r
    rw [List.foldl_cons, ih, activityEffect_waw]
    by_cases h : e.type = "wasAssociatedWith" ∧ e.src = did ∧ kG e.tgt = true
    · simp [h, List.filter_cons, lastWrite]
    · simp [h, List.filter_cons]

/-! ### The shape `fromPROV` builds

For a well-formed document every `addNode` inside `fromPROV` takes the
insert branch and every `addEdge` the push branch, so the imported graph
is the concatenation below. -/

/-- The node `importEntity` inserts. -/
def importedEntityNode (now : String) (kv : String × EntityRec) : NodeRec :=
  ⟨kv.1, jsOr kv.2.provType "DigitalResource", jsOr kv.2.label (didTail kv.1),
    jsOr kv.2.generatedAtTime now, now, none, none, []⟩

/-- The node `importActivity` inserts. -/
def importedActivityNode (now : String) (kv : String × ActivityRec) : NodeRec :=
  ⟨kv.1, "Activity", jsOr kv.2.label (didTail kv.1),
    jsOr kv.2.startedAtTime now,
    jsOr kv.2.endedAtTime (jsOr kv.2.startedAtTime now),
    some kv.2.startedAtTime, some kv.2.endedAtTime, []⟩

/-- The node `importAgent` inserts. -/
def importedAgentNode (now : String) (kv : String × AgentRec) : NodeRec :=
  ⟨kv.1, jsOr kv.2.provType "Agent", jsOr kv.2.label (didTail kv.1),
    now, now, none, none, []⟩

/-- The edges the custom-key loop of `importEntityRels` pushes. -/
def customEdges (now k : String) (cs : List (String × List String)) : List EdgeRec :=
  cs.flatMap (fun kt =>
    kt.2.map (fun tgt => ⟨k, tgt, String.mk (kt.1.data.drop 6), now, none, []⟩))

/-- The single optional edge of a `wasGeneratedBy` / `wasAttributedTo` /
`wasAssociatedWith` member. -/
def optEdge (now src ty : String) (o : Option String) : List EdgeRec :=
  match o with
  | some a => [⟨src, a, ty, now, none, []⟩]
  | none => []

/-- The edges `importEntityRels` pushes for one entity. -/
def entityRelEdges (now : String) (kv : String × EntityRec) : List EdgeRec :=
  kv.2.wasDerivedFrom.map (fun src => ⟨src, kv.1, "wasDerivedFrom", now, none, []⟩)
  ++ optEdge now kv.1 "wasGeneratedBy" kv.2.wasGeneratedBy
  ++ optEdge now kv.1 "wasAttributedTo" kv.2.wasAttributedTo
  ++ customEdges now kv.1 kv.2.custom

/-- The edges `importActivityRels` pushes for one activity. -/
def activityRelEdges (now : String) (kv : String × ActivityRec) : List EdgeRec :=
  kv.2.used.map (fun t => ⟨kv.1, t, "used", now, none, []⟩)
  ++ optEdge now kv.1 "wasAssociatedWith" kv.2.wasAssociatedWith

def allImportedNodes (d : ProvDoc) (now : String) : List NodeRec :=
  d.entity.map (importedEntityNode now) ++ d.activity.map (importedActivityNode now)
    ++ d.agent.map (importedAgentNode now)

def allImportedEdges (d : ProvDoc) (now : String) : List EdgeRec :=
  d.entity.flatMap (entityRelEdges now) ++ d.activity.flatMap (activityRelEdges now)

/-! ### Well-formedness of a PROV document (the invariants `toPROV`
guarantees, which make `fromPROV` a faithful inverse) -/

def keysE (d : ProvDoc) : List String := d.entity.map Prod.fst

def keysA (d : ProvDoc) : List String := d.activity.map Prod.fst

def keysG (d : ProvDoc) : List String := d.agent.map Prod.fst

def allDids (d : ProvDoc) : List String := keysE d ++ keysA d ++ keysG d

structure EntityWF (d : ProvDoc) (er : EntityRec) : Prop where
  provType_ne : er.provType ≠ ""
  provType_not_act : er.provType ≠ "Activity"
  provType_not_ag : er.provType ∉ agentTypes
  label_ne : er.label ≠ ""
  gat_ne : er.generatedAtTime ≠ ""
  wdf_mem : ∀ s ∈ er.wasDerivedFrom, s ∈ allDids d
  wdf_nodup : er.wasDerivedFrom.Nodup
  wgb_mem : ∀ a, er.wasGeneratedBy = some a → a ∈ keysA d ∧ a ≠ ""
  wat_mem : ∀ a, er.wasAttributedTo = some a → a ∈ keysG d ∧ a ≠ ""
  custom_keys_nodup : (er.custom.map Prod.fst).Nodup
  custom_wf : ∀ kt ∈ er.custom,
    "asset:".data.isPrefixOf kt.1.data = true
    ∧ String.mk (kt.1.data.drop 6) ∈ RELATIONSHIP_TYPES
    ∧ String.mk (kt.1.data.drop 6) ∉ derivFamily
    ∧ ¬ String.mk (kt.1.data.drop 6) = "wasGeneratedBy"
    ∧ ¬ String.mk (kt.1.data.drop 6) = "used"
    ∧ ¬ String.mk (kt.1.data.drop 6) = "wasAttributedTo"
    ∧ ¬ String.mk (kt.1.data.drop 6) = "wasAssociatedWith"
    ∧ kt.1 = "asset:" ++ String.mk (kt.1.data.drop 6)
    ∧ kt.2 ≠ [] ∧ kt.2.Nodup ∧ (∀ t ∈ kt.2, t ∈ allDids d)
  custom_res : er.custom ≠ [] →
    er.provType = "DigitalResource" ∨ er.provType = "AIModel"

structure ActivityWF (d : ProvDoc) (ar : ActivityRec) : Prop where
  label_ne : ar.label ≠ ""
  sat_ne : ar.startedAtTime ≠ ""
  eat_ne : ar.endedAtTime ≠ ""
  used_mem : ∀ t ∈ ar.used, t ∈ keysE d
  used_nodup : ar.used.Nodup
  waw_mem : ∀ a, ar.wasAssociatedWith = some a → a ∈ keysG d ∧ a ≠ ""

structure AgentWF (gr : AgentRec) : Prop where
  provType_ag : gr.provType ∈ agentTypes
  label_ne : gr.label ≠ ""

structure DocWF (d : ProvDoc) : Prop where
  dids_nodup : (allDids d).Nodup
  dids_ne : ∀ k ∈ allDids d, k ≠ ""
  ent_wf : ∀ kv ∈ d.entity, EntityWF d kv.2
  act_wf : ∀ kv ∈ d.activity, ActivityWF d kv.2
  ag_wf : ∀ kv ∈ d.agent, AgentWF kv.2

/-! ### Small association-list and search helpers -/

theorem lookup_of_mem_nodup {α : Type} :
    ∀ {l : List (String × α)} {k : String} {v : α},
      (l.map Prod.fst).Nodup → (k, v) ∈ l → l.lookup k = some v := by
  intro l
  induction l with
  | nil => intro k v _ hm; exact absurd hm (List.not_mem_nil _)
  | cons kv l ih =>
    intro k v hnd hm
    obtain ⟨a, w⟩ := kv
    rcases List.mem_cons.mp hm with heq | hm'
    · rw [Prod.mk.injEq] at heq
      rw [heq.1.symm] at hnd ⊢
      simp [List.lookup, heq.2]
    · have hne : ¬ k = a := by
        intro hk
        subst hk
        exact (List.nodup_cons.mp hnd).1
          (List.mem_map.mpr ⟨(k, v), hm', rfl⟩)
      have hb : (k == a) = false := beq_eq_false_iff_ne.mpr hne
      simp only [List.lookup, hb]
      exact ih (List.nodup_cons.mp hnd).2 hm'

theorem mem_of_lookup_eq_some {α : Type} :
    ∀ {l : List (String × α)} {k : String} {v : α},
      l.lookup k = some v → (k, v) ∈ l := by
  intro l
  induction l with
  | nil => intro k v h; exact Option.noConfusion h
  | cons kv l ih =>
    intro k v h
    obtain ⟨a, w⟩ := kv
    by_cases hk : k = a
    · subst hk
      simp [List.lookup] at h
      exact List.mem_cons.mpr (Or.inl (by rw [h]))
    · have hb : (k == a) = false := beq_eq_false_iff_ne.mpr hk
      simp only [List.lookup, hb] at h
      exact List.mem_cons.mpr (Or.inr (ih h))

theorem lookup_map_pair {α β : Type} (f : String × α → β) (k : String) :
    ∀ (l : List (String × α)),
      (l.map (fun kv => (kv.1, f kv))).lookup k
        = (l.lookup k).map (fun v => f (k, v)) := by
  intro l
  induction l with
  | nil => rfl
  | cons kv l ih =>
    obtain ⟨a, v⟩ := kv
    by_cases hk : k = a
    · subst hk
      simp [List.lookup]
    · have hb : (k == a) = false := beq_eq_false_iff_ne.mpr hk
      simp only [List.map_cons, List.lookup, hb, ih]

theorem any_key_iff (es : List EdgeRec) (src tgt ty : String) :
    es.any (fun e => decide (e.src = src ∧ e.tgt = tgt ∧ e.type = ty)) = true
      ↔ (src, tgt, ty) ∈ es.map edgeKey := by
  rw [List.any_eq_true]
  constructor
  · rintro ⟨e, hm, he⟩
    obtain ⟨h1, h2, h3⟩ := of_decide_eq_true he
    exact List.mem_map.mpr ⟨e, hm, by rw [edgeKey, h1, h2, h3]⟩
  · intro h
    obtain ⟨e, hm, he⟩ := List.mem_map.mp h
    rw [edgeKey, Prod.mk.injEq, Prod.mk.injEq] at he
    exact ⟨e, hm, decide_eq_true ⟨he.1, he.2.1, he.2.2⟩⟩

theorem lastWrite_eq_some :
    ∀ (l : List String) (init : Option String) (a : String),
      lastWrite init l = some a → a ∈ l ∨ init = some a := by
  intro l
  induction l with
  | nil => intro init a h; exact Or.inr h
  | cons t ts ih =>
    intro init a h
    rcases ih (some t) a h with hm | he
    · exact Or.inl (List.mem_cons.mpr (Or.inr hm))
    · exact Or.inl (List.mem_cons.mpr (Or.inl (Option.some.inj he).symm))

theorem lastWrite_singleton (init : Option String) (a : String) :
    lastWrite init [a] = some a := rfl

theorem lastWrite_nil (init : Option String) : lastWrite init [] = init := rfl

theorem lookup_append_of_none {α : Type} :
    ∀ (l1 : List (String × α)) (l2 : List (String × α)) (k : String),
      l1.lookup k = none → (l1 ++ l2).lookup k = l2.lookup k := by
  intro l1
  induction l1 with
  | nil => intro l2 k _; rfl
  | cons kv l1 ih =>
    intro l2 k h
    obtain ⟨a, v⟩ := kv
    by_cases hk : k = a
    · subst hk
      simp [List.lookup] at h
    · have hb : (k == a) = false := beq_eq_false_iff_ne.mpr hk
      simp only [List.lookup, hb] at h
      simp only [List.cons_append, List.lookup, hb]
      exact ih l2 k h

theorem keyUpdate_of_not_mem {α : Type} (k : String) (f : α → α) :
    ∀ (l : List (String × α)), k ∉ l.map Prod.fst →
      l.map (fun kv => if kv.1 = k then (kv.1, f kv.2) else kv) = l := by
  intro l
  induction l with
  | nil => intro _; rfl
  | cons kv l ih =>
    intro h
    obtain ⟨a, v⟩ := kv
    have ha : ¬ a = k := by
      intro hh
      exact h (List.mem_cons.mpr (Or.inl hh.symm))
    rw [keyUpdate_cons, if_neg ha,
      ih (fun hh => h (List.mem_cons.mpr (Or.inr hh)))]

/-- The custom-member fold at the pair level. -/
def pushFold (c : List (String × List String)) (ps : List (String × String)) :
    List (String × List String) :=
  ps.foldl (fun c p => pushPair c p.1 p.2) c

theorem pushFold_nil (c : List (String × List String)) : pushFold c [] = c := rfl

theorem lookup_append_of_some {α : Type} :
    ∀ (l1 : List (String × α)) (l2 : List (String × α)) (k : String) (v : α),
      l1.lookup k = some v → (l1 ++ l2).lookup k = some v := by
  intro l1
  induction l1 with
  | nil => intro l2 k v h; exact Option.noConfusion h
  | cons kv l1 ih =>
    intro l2 k v h
    obtain ⟨a, w⟩ := kv
    by_cases hk : k = a
    · subst hk
      simp [List.lookup] at h ⊢
      exact h
    · have hb : (k == a) = false := beq_eq_false_iff_ne.mpr hk
      simp only [List.lookup, hb] at h
      simp only [List.cons_append, List.lookup, hb]
      exact ih l2 k v h

theorem pushFold_append (c : List (String × List String))
    (a b : List (String × String)) :
    pushFold c (a ++ b) = pushFold (pushFold c a) b := by
  simp [pushFold, List.foldl_append]

theorem pushPair_lookup_self (c : List (String × List String)) (key tgt : String) :
    (pushPair c key tgt).lookup key
      = some ((c.lookup key).getD [] ++ [tgt]) := by
  cases h : c.lookup key with
  | some ts =>
    simp only [pushPair, h]
    rw [lookup_keyUpdate_self c key (fun ts => ts ++ [tgt]), h]
    rfl
  | none =>
    simp only [pushPair, h]
    rw [lookup_append_of_none c _ key h]
    simp [List.lookup]

theorem pushPair_lookup_other (c : List (String × List String)) (key tgt k : String)
    (hne : k ≠ key) : (pushPair c key tgt).lookup k = c.lookup k := by
  cases h : c.lookup key with
  | some ts =>
    simp only [pushPair, h]
    exact lookup_keyUpdate_other c key k (fun ts => ts ++ [tgt]) hne
  | none =>
    simp only [pushPair, h]
    cases hk : c.lookup k with
    | some v => exact lookup_append_of_some c _ k v hk
    | none =>
      rw [lookup_append_of_none c _ k hk]
      have hb : (k == key) = false := beq_eq_false_iff_ne.mpr hne
      simp [List.lookup, hb]

theorem pushPair_keys (c : List (String × List String)) (key tgt : String) :
    (pushPair c key tgt).map Prod.fst
      = if (c.lookup key).isSome = true then c.map Prod.fst
        else c.map Prod.fst ++ [key] := by
  cases h : c.lookup key with
  | some ts =>
    rw [if_pos (show (some ts).isSome = true from rfl)]
    simp only [pushPair, h]
    exact map_fst_keyUpdate c key (fun ts => ts ++ [tgt])
  | none =>
    rw [if_neg (show ¬ ((none : Option (List String)).isSome = true) from
      fun hh => Bool.noConfusion hh)]
    simp only [pushPair, h]
    simp

theorem pushFold_lookup_some :
    ∀ (ps : List (String × String)) (c : List (String × List String))
      (k : String) (ts : List String),
      c.lookup k = some ts →
      (pushFold c ps).lookup k
        = some (ts ++ (ps.filter (fun p => p.1 == k)).map Prod.snd) := by
  intro ps
  induction ps with
  | nil => intro c k ts h; simpa [pushFold] using h
  | cons p rest ih =>
    intro c k ts h
    show (pushFold (pushPair c p.1 p.2) rest).lookup k = _
    by_cases hpk : p.1 = k
    · have hl : (pushPair c p.1 p.2).lookup k = some (ts ++ [p.2]) := by
        rw [← hpk] at h ⊢
        rw [pushPair_lookup_self, h]
        rfl
      rw [ih _ k (ts ++ [p.2]) hl]
      have hb : (p.1 == k) = true := beq_iff_eq.mpr hpk
      simp [List.filter_cons, hb]
    · have hl : (pushPair c p.1 p.2).lookup k = some ts := by
        rw [pushPair_lookup_other c p.1 p.2 k (fun hh => hpk hh.symm)]
        exact h
      rw [ih _ k ts hl]
      have hb : (p.1 == k) = false := beq_eq_false_iff_ne.mpr hpk
      simp [List.filter_cons, hb]

theorem pushFold_lookup_none :
    ∀ (ps : List (String × String)) (c : List (String × List String)) (k : String),
      c.lookup k = none → k ∉ ps.map Prod.fst →
      (pushFold c ps).lookup k = none := by
  intro ps
  induction ps with
  | nil => intro c k h _; exact h
  | cons p rest ih =>
    intro c k h hmem
    show (pushFold (pushPair c p.1 p.2) rest).lookup k = none
    have hpk : ¬ k = p.1 := fun hh =>
      hmem (by rw [hh]; exact List.mem_cons.mpr (Or.inl rfl))
    refine ih _ k ?_ (fun hh => hmem (List.mem_cons.mpr (Or.inr hh)))
    rw [pushPair_lookup_other c p.1 p.2 k hpk]
    exact h

theorem pushFold_lookup_new :
    ∀ (ps : List (String × String)) (c : List (String × List String)) (k : String),
      c.lookup k = none → k ∈ ps.map Prod.fst →
      (pushFold c ps).lookup k
        = some ((ps.filter (fun p => p.1 == k)).map Prod.snd) := by
  intro ps
  induction ps with
  | nil => intro c k _ hmem; exact absurd hmem (List.not_mem_nil _)
  | cons p rest ih =>
    intro c k h hmem
    show (pushFold (pushPair c p.1 p.2) rest).lookup k = _
    by_cases hpk : p.1 = k
    · have hl : (pushPair c p.1 p.2).lookup k = some [p.2] := by
        rw [← hpk] at h ⊢
        rw [pushPair_lookup_self, h]
        rfl
      rw [pushFold_lookup_some rest _ k [p.2] hl]
      have hb : (p.1 == k) = true := beq_iff_eq.mpr hpk
      simp [List.filter_cons, hb]
    · have hl : (pushPair c p.1 p.2).lookup k = none := by
        rw [pushPair_lookup_other c p.1 p.2 k (fun hh => hpk hh.symm)]
        exact h
      have hmem' : k ∈ rest.map Prod.fst := by
        rcases List.mem_cons.mp hmem with hh | hh
        · exact absurd hh.symm hpk
        · exact hh
      rw [ih _ k hl hmem']
      have hb : (p.1 == k) = false := beq_eq_false_iff_ne.mpr hpk
      simp [List.filter_cons, hb]

theorem pushFold_keys_nodup :
    ∀ (ps : List (String × String)) (c : List (String × List String)),
      (c.map Prod.fst).Nodup → ((pushFold c ps).map Prod.fst).Nodup := by
  intro ps
  induction ps with
  | nil => intro c h; exact h
  | cons p rest ih =>
    intro c h
    show ((pushFold (pushPair c p.1 p.2) rest).map Prod.fst).Nodup
    refine ih _ ?_
    rw [pushPair_keys]
    by_cases hs : (c.lookup p.1).isSome = true
    · rw [if_pos hs]
      exact h
    · rw [if_neg hs]
      have hnm : p.1 ∉ c.map Prod.fst := by
        intro hmem
        exact hs ((lookup_isSome_iff c p.1).mpr hmem)
      simp [List.nodup_append, h, hnm]

theorem pushFold_keys_sub :
    ∀ (ps : List (String × String)) (c : List (String × List String)) (k : String),
      k ∈ (pushFold c ps).map Prod.fst →
      k ∈ c.map Prod.fst ∨ k ∈ ps.map Prod.fst := by
  intro ps c k hmem
  by_cases hc : k ∈ c.map Prod.fst
  · exact Or.inl hc
  · by_cases hp : k ∈ ps.map Prod.fst
    · exact Or.inr hp
    · exfalso
      have h0 : c.lookup k = none := (lookup_none_iff' c k).mpr hc
      exact ((lookup_none_iff' _ k).mp (pushFold_lookup_none ps c k h0 hp)) hmem

/-- Flattened `(key, target)` pairs of a custom-member list. -/
def flatPairs (cs : List (String × List String)) : List (String × String) :=
  cs.flatMap (fun kt => kt.2.map (fun t => (kt.1, t)))

theorem pushFold_run (k : String) :
    ∀ (ts' : List String) (acc : List (String × List String)) (pre : List String),
      k ∉ acc.map Prod.fst →
      pushFold (acc ++ [(k, pre)]) (ts'.map (fun t => (k, t)))
        = acc ++ [(k, pre ++ ts')] := by
  intro ts'
  induction ts' with
  | nil => intro acc pre _; simp [pushFold]
  | cons t ts ih =>
    intro acc pre hk
    show pushFold (pushPair (acc ++ [(k, pre)]) k t) (ts.map (fun t => (k, t))) = _
    have hl : (acc ++ [(k, pre)]).lookup k = some pre := by
      rw [lookup_append_of_none acc _ k ((lookup_none_iff' acc k).mpr hk)]
      simp [List.lookup]
    have hstep : pushPair (acc ++ [(k, pre)]) k t = acc ++ [(k, pre ++ [t])] := by
      simp only [pushPair, hl]
      rw [List.map_append, keyUpdate_of_not_mem k (fun ts => ts ++ [t]) acc hk]
      simp
    rw [hstep, ih acc (pre ++ [t]) hk]
    simp

theorem pushFold_rebuild :
    ∀ (cs : List (String × List String)) (acc : List (String × List String)),
      ((acc ++ cs).map Prod.fst).Nodup → (∀ kt ∈ cs, kt.2 ≠ []) →
      pushFold acc (flatPairs cs) = acc ++ cs := by
  intro cs
  induction cs with
  | nil => intro acc _ _; simp [pushFold, flatPairs]
  | cons kt rest ih =>
    intro acc hnd hne
    obtain ⟨k, ts⟩ := kt
    have hknot : k ∉ acc.map Prod.fst := by
      intro hmem
      rw [List.map_append] at hnd
      exact (List.disjoint_of_nodup_append hnd) hmem (by simp)
    show pushFold acc (flatPairs ((k, ts) :: rest)) = _
    have hfl : flatPairs ((k, ts) :: rest)
        = ts.map (fun t => (k, t)) ++ flatPairs rest := rfl
    rw [hfl, pushFold_append]
    have hts : ts ≠ [] := hne (k, ts) (List.mem_cons.mpr (Or.inl rfl))
    have hinner : pushFold acc (ts.map (fun t => (k, t))) = acc ++ [(k, ts)] := by
      cases hts' : ts with
      | nil => exact absurd hts' hts
      | cons t0 rest' =>
        show pushFold (pushPair acc k t0) (rest'.map (fun t => (k, t)))
          = acc ++ [(k, t0 :: rest')]
        have h1 : pushPair acc k t0 = acc ++ [(k, [t0])] := by
          simp only [pushPair, (lookup_none_iff' acc k).mpr hknot]
        rw [h1, pushFold_run k rest' acc [t0] hknot]
        rfl
    rw [hinner]
    have hnd2 : ((acc ++ [(k, ts)]) ++ rest).map Prod.fst
        = (acc ++ (k, ts) :: rest).map Prod.fst := by
      simp
    rw [ih (acc ++ [(k, ts)]) (by rw [hnd2]; exact hnd)
      (fun kt hm => hne kt (List.mem_cons.mpr (Or.inr hm)))]
    simp

/-! ### The node phase of `fromPROV` -/

theorem hasNode_iff_mem (g : Graph) (x : String) :
    hasNode g x = true ↔ x ∈ g.nodes.map NodeRec.did := by
  rw [hasNode, List.any_eq_true]
  constructor
  · rintro ⟨n, hm, hd⟩
    exact List.mem_map.mpr ⟨n, hm, of_decide_eq_true hd⟩
  · intro h
    obtain ⟨n, hm, hd⟩ := List.mem_map.mp h
    exact ⟨n, hm, decide_eq_true hd⟩

theorem hasNode_congr {g1 g2 : Graph} (h : g1.nodes = g2.nodes) (x : String) :
    hasNode g1 x = hasNode g2 x := by
  rw [hasNode, hasNode, h]

theorem importEntity_fresh (now : String) (g : Graph) (kv : String × EntityRec)
    (h : hasNode g kv.1 = false) (hne : ¬ kv.1 = "") :
    importEntity now g kv = some { g with
      nodes := g.nodes ++ [importedEntityNode now kv], modified := true } := by
  rw [importEntity, addNode, if_neg hne,
    if_neg (fun hh => by rw [h] at hh; exact Bool.noConfusion hh)]
  rfl

theorem importActivity_fresh (now : String) (g : Graph) (kv : String × ActivityRec)
    (h : hasNode g kv.1 = false) (hne : ¬ kv.1 = "") :
    importActivity now g kv = some { g with
      nodes := g.nodes ++ [importedActivityNode now kv], modified := true } := by
  rw [importActivity, addNode, if_neg hne,
    if_neg (fun hh => by rw [h] at hh; exact Bool.noConfusion hh)]
  rfl

theorem importAgent_fresh (now : String) (g : Graph) (kv : String × AgentRec)
    (h : hasNode g kv.1 = false) (hne : ¬ kv.1 = "") :
    importAgent now g kv = some { g with
      nodes := g.nodes ++ [importedAgentNode now kv], modified := true } := by
  rw [importAgent, addNode, if_neg hne,
    if_neg (fun hh => by rw [h] at hh; exact Bool.noConfusion hh)]
  rfl

theorem import_fold {β : Type} (imp : Graph → String × β → Option Graph)
    (nodeOf : String × β → NodeRec)
    (hnode : ∀ kv, (nodeOf kv).did = kv.1)
    (himp : ∀ g kv, hasNode g kv.1 = false → ¬ kv.1 = "" →
      imp g kv = some { g with nodes := g.nodes ++ [nodeOf kv], modified := true }) :
    ∀ (l : List (String × β)) (g : Graph),
      (∀ kv ∈ l, ¬ kv.1 = "") →
      (∀ kv ∈ l, hasNode g kv.1 = false) →
      (l.map Prod.fst).Nodup →
      ∃ g', l.foldlM imp g = some g'
        ∧ g'.nodes = g.nodes ++ l.map nodeOf ∧ g'.edges = g.edges := by
  intro l
  induction l with
  | nil =>
    intro g _ _ _
    exact ⟨g, rfl, by simp, rfl⟩
  | cons kv rest ih =>
    intro g hne hfresh hnd
    rw [List.map_cons] at hnd
    have hnd1 := List.nodup_cons.mp hnd
    have hmem0 : kv ∈ kv :: rest := List.mem_cons.mpr (Or.inl rfl)
    have h1 := himp g kv (hfresh kv hmem0) (hne kv hmem0)
    have hfresh' : ∀ kv' ∈ rest,
        hasNode { g with nodes := g.nodes ++ [nodeOf kv], modified := true } kv'.1
          = false := by
      intro kv' hm
      have hx : kv'.1 ≠ kv.1 := by
        intro hh
        exact hnd1.1 (hh ▸ List.mem_map.mpr ⟨kv', hm, rfl⟩)
      have hb : hasNode g kv'.1 = false := hfresh kv' (List.mem_cons.mpr (Or.inr hm))
      show (g.nodes ++ [nodeOf kv]).any (fun n => n.did = kv'.1) = false
      rw [List.any_append]
      rw [hasNode] at hb
      rw [hb]
      have hx' : kv.1 ≠ kv'.1 := fun hh => hx hh.symm
      simp [hnode kv, hx']
    obtain ⟨g', hfold, hn, he⟩ := ih
      { g with nodes := g.nodes ++ [nodeOf kv], modified := true }
      (fun kv' hm => hne kv' (List.mem_cons.mpr (Or.inr hm))) hfresh' hnd1.2
    refine ⟨g', ?_, ?_, he⟩
    · rw [List.foldlM_cons, h1]
      simpa using hfold
    · rw [hn]
      simp

/-! ### The relationship phase of `fromPROV` -/

theorem addEdge_push (g : Graph) (src tgt ty : String)
    (props : List (String × String)) (now : String)
    (hs : hasNode g src = true) (ht : hasNode g tgt = true)
    (hty : ty ∈ RELATIONSHIP_TYPES)
    (hfresh : (src, tgt, ty) ∉ g.edges.map edgeKey) :
    addEdge g src tgt ty props now
      = some { g with
          edges := g.edges ++ [⟨src, tgt, ty, now, none, props⟩],
          modified := true } := by
  rw [addEdge, if_neg (fun hh => hh hs), if_neg (fun hh => hh ht),
    if_neg (fun hh => hh hty),
    if_neg (fun hh => hfresh ((any_key_iff g.edges src tgt ty).mp hh))]

theorem rel_fold {α : Type} (now : String) (mk : α → EdgeRec) (guard : α → String)
    (f : Graph → α → Option Graph)
    (hf : ∀ g a, f g a = if hasNode g (guard a) then
        addEdge g (mk a).src (mk a).tgt (mk a).type [] now else some g)
    (hmk : ∀ a, mk a = ⟨(mk a).src, (mk a).tgt, (mk a).type, now, none, []⟩) :
    ∀ (l : List α) (g : Graph),
      (∀ a ∈ l, hasNode g (guard a) = true ∧ hasNode g (mk a).src = true
        ∧ hasNode g (mk a).tgt = true ∧ (mk a).type ∈ RELATIONSHIP_TYPES) →
      ((g.edges ++ l.map mk).map edgeKey).Nodup →
      ∃ g', l.foldlM f g = some g' ∧ g'.nodes = g.nodes
        ∧ g'.edges = g.edges ++ l.map mk := by
  intro l
  induction l with
  | nil =>
    intro g _ _
    exact ⟨g, rfl, rfl, by simp⟩
  | cons a rest ih =>
    intro g hyp hnd
    have hmem0 : a ∈ a :: rest := List.mem_cons.mpr (Or.inl rfl)
    obtain ⟨hg, hs, ht, hty⟩ := hyp a hmem0
    have hfreshK : edgeKey (mk a) ∉ g.edges.map edgeKey := by
      intro hmem
      rw [List.map_append] at hnd
      refine (List.disjoint_of_nodup_append hnd) hmem ?_
      simp
    have hstep : f g a = some { g with
        edges := g.edges ++ [mk a], modified := true } := by
      rw [hf g a, if_pos hg,
        addEdge_push g (mk a).src (mk a).tgt (mk a).type [] now hs ht hty
          (by rw [show ((mk a).src, (mk a).tgt, (mk a).type) = edgeKey (mk a) from rfl]
              exact hfreshK)]
      rw [show (⟨(mk a).src, (mk a).tgt, (mk a).type, now, none, []⟩ : EdgeRec)
        = mk a from (hmk a).symm]
    have hyp' : ∀ b ∈ rest,
        hasNode { g with edges := g.edges ++ [mk a], modified := true } (guard b) = true
        ∧ hasNode { g with edges := g.edges ++ [mk a], modified := true } (mk b).src = true
        ∧ hasNode { g with edges := g.edges ++ [mk a], modified := true } (mk b).tgt = true
        ∧ (mk b).type ∈ RELATIONSHIP_TYPES := by
      intro b hm
      exact hyp b (List.mem_cons.mpr (Or.inr hm))
    have hnd' : (({ g with edges := g.edges ++ [mk a], modified := true }.edges
        ++ rest.map mk).map edgeKey).Nodup := by
      show (((g.edges ++ [mk a]) ++ rest.map mk).map edgeKey).Nodup
      rw [List.append_assoc]
      simpa using hnd
    obtain ⟨g', hfold, hn, he⟩ := ih
      { g with edges := g.edges ++ [mk a], modified := true } hyp' hnd'
    refine ⟨g', ?_, hn, ?_⟩
    · rw [List.foldlM_cons, hstep]
      simpa using hfold
    · rw [he]
      simp

theorem nodup_map_prefix {α β : Type} (f : α → β) (pre a b : List α)
    (h : ((pre ++ (a ++ b)).map f).Nodup) : ((pre ++ a).map f).Nodup := by
  have hsub : List.Sublist (pre ++ a) (pre ++ (a ++ b)) := by
    rw [← List.append_assoc]
    exact List.sublist_append_left _ _
  exact List.Nodup.sublist (List.Sublist.map f hsub) h

theorem nodup_head_fresh {α β : Type} (f : α → β) (pre rest : List α) (x : α)
    (h : ((pre ++ (x :: rest)).map f).Nodup) : f x ∉ pre.map f := by
  rw [List.map_append] at h
  intro hmem
  exact (List.disjoint_of_nodup_append h) hmem (by simp)

theorem opt_edge_step (now : String) (g : Graph) (src : String) (o : Option String)
    (ty : String) (hty : ty ∈ RELATIONSHIP_TYPES) (hsrc : hasNode g src = true)
    (ho : ∀ a, o = some a → hasNode g a = true ∧ a ≠ "")
    (hfresh : ∀ a, o = some a → (src, a, ty) ∉ g.edges.map edgeKey) :
    ∃ g', importOptEdge now g src ty o = some g'
      ∧ g'.nodes = g.nodes ∧ g'.edges = g.edges ++ optEdge now src ty o := by
  cases o with
  | none => exact ⟨g, rfl, rfl, by simp [optEdge]⟩
  | some a =>
    obtain ⟨hn, hne⟩ := ho a rfl
    show ∃ g', (if a ≠ "" ∧ hasNode g a then addEdge g src a ty [] now else some g)
      = some g' ∧ _ ∧ _
    rw [if_pos ⟨hne, hn⟩]
    exact ⟨_, addEdge_push g src a ty [] now hsrc hn hty (hfresh a rfl), rfl, rfl⟩

theorem custom_fold (now k : String) :
    ∀ (cs : List (String × List String)) (g : Graph),
      hasNode g k = true →
      (∀ kt ∈ cs, "asset:".data.isPrefixOf kt.1.data = true
        ∧ String.mk (kt.1.data.drop 6) ∈ RELATIONSHIP_TYPES
        ∧ (∀ t ∈ kt.2, hasNode g t = true)) →
      ((g.edges ++ customEdges now k cs).map edgeKey).Nodup →
      ∃ g', cs.foldlM (fun g kt =>
          if "asset:".data.isPrefixOf kt.1.data then
            kt.2.foldlM (fun g tgt =>
              if hasNode g tgt then
                addEdge g k tgt (String.mk (kt.1.data.drop 6)) [] now
              else some g) g
          else some g) g = some g'
        ∧ g'.nodes = g.nodes ∧ g'.edges = g.edges ++ customEdges now k cs := by
  intro cs
  induction cs with
  | nil =>
    intro g _ _ _
    exact ⟨g, rfl, rfl, by simp [customEdges]⟩
  | cons kt rest ih =>
    intro g hK hwf hnd
    have hmem0 : kt ∈ kt :: rest := List.mem_cons.mpr (Or.inl rfl)
    obtain ⟨hpre, hty, htgts⟩ := hwf kt hmem0
    have hce : customEdges now k (kt :: rest)
        = kt.2.map (fun tgt =>
            (⟨k, tgt, String.mk (kt.1.data.drop 6), now, none, []⟩ : EdgeRec))
          ++ customEdges now k rest := rfl
    rw [hce] at hnd
    have hnd1 := nodup_map_prefix edgeKey g.edges _ _ hnd
    obtain ⟨g1, h1, hn1, he1⟩ := rel_fold now
      (fun tgt => (⟨k, tgt, String.mk (kt.1.data.drop 6), now, none, []⟩ : EdgeRec))
      (fun tgt => tgt)
      (fun g tgt => if hasNode g tgt then
        addEdge g k tgt (String.mk (kt.1.data.drop 6)) [] now else some g)
      (fun g a => rfl) (fun a => rfl) kt.2 g
      (fun t hm => ⟨htgts t hm, hK, htgts t hm, hty⟩) hnd1
    have hnd2 : ((g1.edges ++ customEdges now k rest).map edgeKey).Nodup := by
      rw [he1, List.append_assoc]
      exact hnd
    have hwf2 : ∀ kt' ∈ rest, "asset:".data.isPrefixOf kt'.1.data = true
        ∧ String.mk (kt'.1.data.drop 6) ∈ RELATIONSHIP_TYPES
        ∧ (∀ t ∈ kt'.2, hasNode g1 t = true) := by
      intro kt' hm
      obtain ⟨ha, hb, hc⟩ := hwf kt' (List.mem_cons.mpr (Or.inr hm))
      exact ⟨ha, hb, fun t hm' => (hasNode_congr hn1 t).trans (hc t hm')⟩
    obtain ⟨g2, h2, hn2, he2⟩ := ih g1 ((hasNode_congr hn1 k).trans hK) hwf2 hnd2
    refine ⟨g2, ?_, hn2.trans hn1, ?_⟩
    · rw [List.foldlM_cons, if_pos hpre, h1]
      simpa using h2
    · rw [he2, he1, hce, List.append_assoc]

theorem importEntityRels_spec (now : String) (kv : String × EntityRec) (g : Graph)
    (hK : hasNode g kv.1 = true)
    (hsrc : ∀ s ∈ kv.2.wasDerivedFrom, hasNode g s = true)
    (hwgb : ∀ a, kv.2.wasGeneratedBy = some a → hasNode g a = true ∧ a ≠ "")
    (hwat : ∀ a, kv.2.wasAttributedTo = some a → hasNode g a = true ∧ a ≠ "")
    (hcust : ∀ kt ∈ kv.2.custom, "asset:".data.isPrefixOf kt.1.data = true
      ∧ String.mk (kt.1.data.drop 6) ∈ RELATIONSHIP_TYPES
      ∧ (∀ t ∈ kt.2, hasNode g t = true))
    (hnd : ((g.edges ++ entityRelEdges now kv).map edgeKey).Nodup) :
    ∃ g', importEntityRels now g kv = some g'
      ∧ g'.nodes = g.nodes ∧ g'.edges = g.edges ++ entityRelEdges now kv := by
  have hre : entityRelEdges now kv
      = kv.2.wasDerivedFrom.map (fun src =>
          (⟨src, kv.1, "wasDerivedFrom", now, none, []⟩ : EdgeRec))
        ++ (optEdge now kv.1 "wasGeneratedBy" kv.2.wasGeneratedBy
        ++ (optEdge now kv.1 "wasAttributedTo" kv.2.wasAttributedTo
        ++ customEdges now kv.1 kv.2.custom)) := by
    rw [entityRelEdges]
    simp [List.append_assoc]
  rw [hre] at hnd
  have hnd1 := nodup_map_prefix edgeKey g.edges _ _ hnd
  obtain ⟨g1, h1, hn1, he1⟩ := rel_fold now
    (fun src => (⟨src, kv.1, "wasDerivedFrom", now, none, []⟩ : EdgeRec))
    (fun src => src)
    (fun g src => if hasNode g src then
      addEdge g src kv.1 "wasDerivedFrom" [] now else some g)
    (fun g a => rfl) (fun a => rfl) kv.2.wasDerivedFrom g
    (fun s hm => ⟨hsrc s hm, hsrc s hm, hK,
      show "wasDerivedFrom" ∈ RELATIONSHIP_TYPES by decide⟩) hnd1
  have hndR1 : (((g.edges ++ kv.2.wasDerivedFrom.map (fun src =>
      (⟨src, kv.1, "wasDerivedFrom", now, none, []⟩ : EdgeRec)))
      ++ (optEdge now kv.1 "wasGeneratedBy" kv.2.wasGeneratedBy
      ++ (optEdge now kv.1 "wasAttributedTo" kv.2.wasAttributedTo
      ++ customEdges now kv.1 kv.2.custom))).map edgeKey).Nodup := by
    rw [List.append_assoc]
    exact hnd
  have hnd2 := nodup_map_prefix edgeKey _ _ _ hndR1
  rw [← he1] at hnd2 hndR1
  obtain ⟨g2, h2, hn2, he2⟩ := opt_edge_step now g1 kv.1 kv.2.wasGeneratedBy
    "wasGeneratedBy" (show "wasGeneratedBy" ∈ RELATIONSHIP_TYPES by decide)
    ((hasNode_congr hn1 kv.1).trans hK)
    (fun a ha => ⟨(hasNode_congr hn1 a).trans (hwgb a ha).1, (hwgb a ha).2⟩)
    (fun a ha => by
      rw [ha] at hndR1
      exact nodup_head_fresh edgeKey g1.edges _ _ hndR1)
  have hndR2 : (((g1.edges ++ optEdge now kv.1 "wasGeneratedBy" kv.2.wasGeneratedBy)
      ++ (optEdge now kv.1 "wasAttributedTo" kv.2.wasAttributedTo
      ++ customEdges now kv.1 kv.2.custom)).map edgeKey).Nodup := by
    rw [List.append_assoc]
    exact hndR1
  have hnd3 := nodup_map_prefix edgeKey _ _ _ hndR2
  rw [← he2] at hnd3 hndR2
  obtain ⟨g3, h3, hn3, he3⟩ := opt_edge_step now g2 kv.1 kv.2.wasAttributedTo
    "wasAttributedTo" (show "wasAttributedTo" ∈ RELATIONSHIP_TYPES by decide)
    ((hasNode_congr (hn2.trans hn1) kv.1).trans hK)
    (fun a ha => ⟨(hasNode_congr (hn2.trans hn1) a).trans (hwat a ha).1,
      (hwat a ha).2⟩)
    (fun a ha => by
      rw [ha] at hndR2
      exact nodup_head_fresh edgeKey g2.edges _ _ hndR2)
  have hndR3 : (((g2.edges ++ optEdge now kv.1 "wasAttributedTo" kv.2.wasAttributedTo)
      ++ customEdges now kv.1 kv.2.custom).map edgeKey).Nodup := by
    rw [List.append_assoc]
    exact hndR2
  rw [← he3] at hndR3
  obtain ⟨g4, h4, hn4, he4⟩ := custom_fold now kv.1 kv.2.custom g3
    ((hasNode_congr (hn3.trans (hn2.trans hn1)) kv.1).trans hK)
    (fun kt hm => ⟨(hcust kt hm).1, (hcust kt hm).2.1,
      fun t hm' => (hasNode_congr (hn3.trans (hn2.trans hn1)) t).trans
        ((hcust kt hm).2.2 t hm')⟩) hndR3
  refine ⟨g4, ?_, hn4.trans (hn3.trans (hn2.trans hn1)), ?_⟩
  · rw [importEntityRels]
    rw [h1]
    simp only [Option.bind_eq_bind, Option.some_bind]
    rw [h2]
    simp only [Option.bind_eq_bind, Option.some_bind]
    rw [h3]
    simp only [Option.bind_eq_bind, Option.some_bind]
    exact h4
  · rw [he4, he3, he2, he1, hre]
    simp [List.append_assoc]

theorem importActivityRels_spec (now : String) (kv : String × ActivityRec) (g : Graph)
    (hK : hasNode g kv.1 = true)
    (hused : ∀ t ∈ kv.2.used, hasNode g t = true)
    (hwaw : ∀ a, kv.2.wasAssociatedWith = some a → hasNode g a = true ∧ a ≠ "")
    (hnd : ((g.edges ++ activityRelEdges now kv).map edgeKey).Nodup) :
    ∃ g', importActivityRels now g kv = some g'
      ∧ g'.nodes = g.nodes ∧ g'.edges = g.edges ++ activityRelEdges now kv := by
  have hre : activityRelEdges now kv
      = kv.2.used.map (fun t => (⟨kv.1, t, "used", now, none, []⟩ : EdgeRec))
        ++ optEdge now kv.1 "wasAssociatedWith" kv.2.wasAssociatedWith := rfl
  rw [hre] at hnd
  have hnd1 := nodup_map_prefix edgeKey g.edges _ _ hnd
  obtain ⟨g1, h1, hn1, he1⟩ := rel_fold now
    (fun t => (⟨kv.1, t, "used", now, none, []⟩ : EdgeRec))
    (fun t => t)
    (fun g t => if hasNode g t then addEdge g kv.1 t "used" [] now else some g)
    (fun g a => rfl) (fun a => rfl) kv.2.used g
    (fun t hm => ⟨hused t hm, hK, hused t hm,
      show "used" ∈ RELATIONSHIP_TYPES by decide⟩) hnd1
  have hndR1 : ((g1.edges ++ optEdge now kv.1 "wasAssociatedWith"
      kv.2.wasAssociatedWith).map edgeKey).Nodup := by
    rw [he1, List.append_assoc]
    exact hnd
  obtain ⟨g2, h2, hn2, he2⟩ := opt_edge_step now g1 kv.1 kv.2.wasAssociatedWith
    "wasAssociatedWith" (show "wasAssociatedWith" ∈ RELATIONSHIP_TYPES by decide)
    ((hasNode_congr hn1 kv.1).trans hK)
    (fun a ha => ⟨(hasNode_congr hn1 a).trans (hwaw a ha).1, (hwaw a ha).2⟩)
    (fun a ha => by
      rw [ha] at hndR1
      exact nodup_head_fresh edgeKey g1.edges _ _ hndR1)
  refine ⟨g2, ?_, hn2.trans hn1, ?_⟩
  · rw [importActivityRels]
    rw [h1]
    simp only [Option.bind_eq_bind, Option.some_bind]
    exact h2
  · rw [he2, he1, hre, List.append_assoc]

/-! ### Key uniqueness of the imported edges -/

/-- The node that determines an imported edge's group: the target for
derivation-family relations, the source otherwise. -/
def keyAnchor (key : String × String × String) : String :=
  if key.2.2 ∈ derivFamily then key.2.1 else key.1

theorem nodup_flatMap_tagged {α β : Type} (groupsOf : α → List β) (tag : β → String)
    (nameOf : α → String) :
    ∀ (l : List α), (l.map nameOf).Nodup →
      (∀ a ∈ l, (groupsOf a).Nodup) →
      (∀ a ∈ l, ∀ b ∈ groupsOf a, tag b = nameOf a) →
      (l.flatMap groupsOf).Nodup := by
  intro l
  induction l with
  | nil => intro _ _ _; simp
  | cons a rest ih =>
    intro hnd hinner htag
    rw [List.map_cons] at hnd
    have hnd1 := List.nodup_cons.mp hnd
    rw [List.flatMap_cons]
    rw [List.nodup_append]
    refine ⟨hinner a (List.mem_cons.mpr (Or.inl rfl)),
      ih hnd1.2 (fun a' hm => hinner a' (List.mem_cons.mpr (Or.inr hm)))
        (fun a' hm => htag a' (List.mem_cons.mpr (Or.inr hm))), ?_⟩
    intro x hx hx'
    obtain ⟨a', hm', hx2⟩ := List.mem_flatMap.mp hx'
    have h1 : tag x = nameOf a := htag a (List.mem_cons.mpr (Or.inl rfl)) x hx
    have h2 : tag x = nameOf a' :=
      htag a' (List.mem_cons.mpr (Or.inr hm')) x hx2
    exact hnd1.1 (h1 ▸ h2 ▸ List.mem_map.mpr ⟨a', hm', rfl⟩)

theorem custom_rts_nodup (cs : List (String × List String))
    (hnd : (cs.map Prod.fst).Nodup)
    (hrec : ∀ kt ∈ cs, kt.1 = "asset:" ++ String.mk (kt.1.data.drop 6)) :
    (cs.map (fun kt => String.mk (kt.1.data.drop 6))).Nodup := by
  have h1 : cs.map Prod.fst
      = cs.map (fun kt => "asset:" ++ String.mk (kt.1.data.drop 6)) :=
    List.map_congr_left hrec
  rw [h1] at hnd
  have h2 : cs.map (fun kt => "asset:" ++ String.mk (kt.1.data.drop 6))
      = (cs.map (fun kt => String.mk (kt.1.data.drop 6))).map
          (fun t => "asset:" ++ t) := by
    rw [List.map_map]
    rfl
  rw [h2] at hnd
  exact List.Nodup.of_map _ hnd

theorem customEdges_keys_nodup (now k : String) (cs : List (String × List String))
    (hknd : (cs.map Prod.fst).Nodup)
    (hwf : ∀ kt ∈ cs, kt.1 = "asset:" ++ String.mk (kt.1.data.drop 6) ∧ kt.2.Nodup) :
    ((customEdges now k cs).map edgeKey).Nodup := by
  rw [customEdges, List.map_flatMap]
  refine nodup_flatMap_tagged _ (fun key => key.2.2)
    (fun kt => String.mk (kt.1.data.drop 6)) cs
    (custom_rts_nodup cs hknd (fun kt hm => (hwf kt hm).1)) ?_ ?_
  · intro kt hm
    rw [List.map_map]
    refine List.Nodup.map ?_ (hwf kt hm).2
    intro t1 t2 hh
    simpa [edgeKey, Prod.ext_iff] using hh
  · intro kt hm key hk
    rw [List.map_map] at hk
    obtain ⟨t, _, ht⟩ := List.mem_map.mp hk
    rw [← ht]
    rfl

theorem mem_customEdges {now k : String} {cs : List (String × List String)}
    {e : EdgeRec} (h : e ∈ customEdges now k cs) :
    ∃ kt ∈ cs, ∃ t ∈ kt.2,
      e = ⟨k, t, String.mk (kt.1.data.drop 6), now, none, []⟩ := by
  rw [customEdges] at h
  obtain ⟨kt, hm, he⟩ := List.mem_flatMap.mp h
  obtain ⟨t, hmt, ht⟩ := List.mem_map.mp he
  exact ⟨kt, hm, t, hmt, ht.symm⟩

theorem mem_optEdge {now src ty : String} {o : Option String} {e : EdgeRec}
    (h : e ∈ optEdge now src ty o) :
    ∃ a, o = some a ∧ e = ⟨src, a, ty, now, none, []⟩ := by
  cases o with
  | none => exact absurd h (List.not_mem_nil _)
  | some a =>
    refine ⟨a, rfl, ?_⟩
    rcases List.mem_cons.mp h with hh | hh
    · exact hh
    · exact absurd hh (List.not_mem_nil _)

theorem entityRelEdges_anchor (now : String) (d : ProvDoc) (kv : String × EntityRec)
    (hwf : EntityWF d kv.2) :
    ∀ e ∈ entityRelEdges now kv, keyAnchor (edgeKey e) = kv.1 := by
  intro e he
  rw [entityRelEdges] at he
  rcases List.mem_append.mp he with he1 | hC
  · rcases List.mem_append.mp he1 with he2 | hA
    · rcases List.mem_append.mp he2 with hD | hG
      · obtain ⟨s, _, hs⟩ := List.mem_map.mp hD
        rw [← hs]
        rfl
      · obtain ⟨a, _, ha⟩ := mem_optEdge hG
        rw [ha]
        rfl
    · obtain ⟨a, _, ha⟩ := mem_optEdge hA
      rw [ha]
      rfl
  · obtain ⟨kt, hm, t, _, ht⟩ := mem_customEdges hC
    rw [ht]
    show (if String.mk (kt.1.data.drop 6) ∈ derivFamily then t else kv.1) = kv.1
    rw [if_neg ((hwf.custom_wf kt hm).2.2.1 :
      String.mk (kt.1.data.drop 6) ∉ derivFamily)]

theorem activityRelEdges_anchor (now : String) (kv : String × ActivityRec) :
    ∀ e ∈ activityRelEdges now kv, keyAnchor (edgeKey e) = kv.1 := by
  intro e he
  rw [activityRelEdges] at he
  rcases List.mem_append.mp he with hU | hW
  · obtain ⟨t, _, ht⟩ := List.mem_map.mp hU
    rw [← ht]
    rfl
  · obtain ⟨a, _, ha⟩ := mem_optEdge hW
    rw [ha]
    rfl

theorem entityRelEdges_keys_nodup (now : String) (d : ProvDoc)
    (kv : String × EntityRec) (hwf : EntityWF d kv.2) :
    ((entityRelEdges now kv).map edgeKey).Nodup := by
  rw [entityRelEdges]
  simp only [List.map_append]
  rw [List.nodup_append, List.nodup_append, List.nodup_append]
  have hD : ((kv.2.wasDerivedFrom.map (fun src =>
      (⟨src, kv.1, "wasDerivedFrom", now, none, []⟩ : EdgeRec))).map edgeKey).Nodup := by
    rw [List.map_map]
    refine List.Nodup.map ?_ hwf.wdf_nodup
    intro s1 s2 hh
    simpa [edgeKey, Prod.ext_iff] using hh
  have hG : ((optEdge now kv.1 "wasGeneratedBy" kv.2.wasGeneratedBy).map
      edgeKey).Nodup := by
    cases kv.2.wasGeneratedBy with
    | none => simp [optEdge]
    | some a => simp [optEdge]
  have hA : ((optEdge now kv.1 "wasAttributedTo" kv.2.wasAttributedTo).map
      edgeKey).Nodup := by
    cases kv.2.wasAttributedTo with
    | none => simp [optEdge]
    | some a => simp [optEdge]
  have hC : ((customEdges now kv.1 kv.2.custom).map edgeKey).Nodup :=
    customEdges_keys_nodup now kv.1 kv.2.custom hwf.custom_keys_nodup
      (fun kt hm => ⟨(hwf.custom_wf kt hm).2.2.2.2.2.2.2.1,
        (hwf.custom_wf kt hm).2.2.2.2.2.2.2.2.2.1⟩)
  have htyD : ∀ x ∈ (kv.2.wasDerivedFrom.map (fun src =>
      (⟨src, kv.1, "wasDerivedFrom", now, none, []⟩ : EdgeRec))).map edgeKey,
      x.2.2 = "wasDerivedFrom" := by
    intro x hx
    rw [List.map_map] at hx
    obtain ⟨s, _, hs⟩ := List.mem_map.mp hx
    rw [← hs]
    rfl
  have htyG : ∀ x ∈ (optEdge now kv.1 "wasGeneratedBy" kv.2.wasGeneratedBy).map
      edgeKey, x.2.2 = "wasGeneratedBy" := by
    intro x hx
    obtain ⟨e, he, hx'⟩ := List.mem_map.mp hx
    obtain ⟨a, _, ha⟩ := mem_optEdge he
    rw [← hx', ha]
    rfl
  have htyA : ∀ x ∈ (optEdge now kv.1 "wasAttributedTo" kv.2.wasAttributedTo).map
      edgeKey, x.2.2 = "wasAttributedTo" := by
    intro x hx
    obtain ⟨e, he, hx'⟩ := List.mem_map.mp hx
    obtain ⟨a, _, ha⟩ := mem_optEdge he
    rw [← hx', ha]
    rfl
  have htyC : ∀ x ∈ (customEdges now kv.1 kv.2.custom).map edgeKey,
      x.2.2 ∉ derivFamily ∧ ¬ x.2.2 = "wasGeneratedBy"
        ∧ ¬ x.2.2 = "wasAttributedTo" := by
    intro x hx
    obtain ⟨e, he, hx'⟩ := List.mem_map.mp hx
    obtain ⟨kt, hm, t, _, ht⟩ := mem_customEdges he
    have hcw := hwf.custom_wf kt hm
    rw [← hx', ht]
    exact ⟨hcw.2.2.1, hcw.2.2.2.1, hcw.2.2.2.2.2.1⟩
  refine ⟨⟨⟨hD, hG, ?_⟩, hA, ?_⟩, hC, ?_⟩
  · intro x hxD hxG
    have h1 := htyD x hxD
    have h2 := htyG x hxG
    rw [h1] at h2
    exact absurd h2 (by decide)
  · intro x hx hxA
    have h2 := htyA x hxA
    rcases List.mem_append.mp hx with hxD | hxG
    · have h1 := htyD x hxD
      rw [h1] at h2
      exact absurd h2 (by decide)
    · have h1 := htyG x hxG
      rw [h1] at h2
      exact absurd h2 (by decide)
  · intro x hx hxC
    have h3 := htyC x hxC
    rcases List.mem_append.mp hx with hx2 | hxA
    · rcases List.mem_append.mp hx2 with hxD | hxG
      · have h1 := htyD x hxD
        exact h3.1 (h1 ▸ (by decide : "wasDerivedFrom" ∈ derivFamily))
      · exact h3.2.1 (htyG x hxG)
    · exact h3.2.2 (htyA x hxA)

theorem activityRelEdges_keys_nodup (now : String) (d : ProvDoc)
    (kv : String × ActivityRec) (hwf : ActivityWF d kv.2) :
    ((activityRelEdges now kv).map edgeKey).Nodup := by
  rw [activityRelEdges]
  simp only [List.map_append]
  rw [List.nodup_append]
  have hU : ((kv.2.used.map (fun t =>
      (⟨kv.1, t, "used", now, none, []⟩ : EdgeRec))).map edgeKey).Nodup := by
    rw [List.map_map]
    refine List.Nodup.map ?_ hwf.used_nodup
    intro t1 t2 hh
    simpa [edgeKey, Prod.ext_iff] using hh
  have hW : ((optEdge now kv.1 "wasAssociatedWith" kv.2.wasAssociatedWith).map
      edgeKey).Nodup := by
    cases kv.2.wasAssociatedWith with
    | none => simp [optEdge]
    | some a => simp [optEdge]
  refine ⟨hU, hW, ?_⟩
  · intro x hxU hxW
    rw [List.map_map] at hxU
    obtain ⟨t, _, ht⟩ := List.mem_map.mp hxU
    obtain ⟨e, he, hx'⟩ := List.mem_map.mp hxW
    obtain ⟨a, _, ha⟩ := mem_optEdge he
    have h1 : x.2.2 = "used" := by rw [← ht]; rfl
    have h2 : x.2.2 = "wasAssociatedWith" := by rw [← hx', ha]; rfl
    rw [h1] at h2
    exact absurd h2 (by decide)

theorem allImportedEdges_keys_nodup (d : ProvDoc) (now : String) (hWF : DocWF d) :
    ((allImportedEdges d now).map edgeKey).Nodup := by
  rw [allImportedEdges, List.map_append]
  have hall : ((keysE d ++ keysA d) ++ keysG d).Nodup := hWF.dids_nodup
  have hEA : (keysE d ++ keysA d).Nodup := List.Nodup.of_append_left hall
  have hkeysE : (keysE d).Nodup := List.Nodup.of_append_left hEA
  have hkeysA : (keysA d).Nodup := List.Nodup.of_append_right hEA
  have hEnt : ((d.entity.flatMap (entityRelEdges now)).map edgeKey).Nodup := by
    rw [List.map_flatMap]
    refine nodup_flatMap_tagged _ keyAnchor Prod.fst d.entity hkeysE ?_ ?_
    · intro kv hm
      exact entityRelEdges_keys_nodup now d kv (hWF.ent_wf kv hm)
    · intro kv hm key hk
      obtain ⟨e, he, hk'⟩ := List.mem_map.mp hk
      rw [← hk']
      exact entityRelEdges_anchor now d kv (hWF.ent_wf kv hm) e he
  have hAct : ((d.activity.flatMap (activityRelEdges now)).map edgeKey).Nodup := by
    rw [List.map_flatMap]
    refine nodup_flatMap_tagged _ keyAnchor Prod.fst d.activity hkeysA ?_ ?_
    · intro kv hm
      exact activityRelEdges_keys_nodup now d kv (hWF.act_wf kv hm)
    · intro kv hm key hk
      obtain ⟨e, he, hk'⟩ := List.mem_map.mp hk
      rw [← hk']
      exact activityRelEdges_anchor now kv e he
  rw [List.nodup_append]
  refine ⟨hEnt, hAct, ?_⟩
  intro x hxE hxA
  rw [List.map_flatMap] at hxE hxA
  obtain ⟨kv1, hm1, hx1⟩ := List.mem_flatMap.mp hxE
  obtain ⟨kv2, hm2, hx2⟩ := List.mem_flatMap.mp hxA
  obtain ⟨e1, he1, hk1⟩ := List.mem_map.mp hx1
  obtain ⟨e2, he2, hk2⟩ := List.mem_map.mp hx2
  have ha1 : keyAnchor x = kv1.1 := by
    rw [← hk1]
    exact entityRelEdges_anchor now d kv1 (hWF.ent_wf kv1 hm1) e1 he1
  have ha2 : keyAnchor x = kv2.1 := by
    rw [← hk2]
    exact activityRelEdges_anchor now kv2 e2 he2
  have hmem1 : keyAnchor x ∈ keysE d := ha1 ▸ List.mem_map.mpr ⟨kv1, hm1, rfl⟩
  have hmem2 : keyAnchor x ∈ keysA d := ha2 ▸ List.mem_map.mpr ⟨kv2, hm2, rfl⟩
  exact (List.disjoint_of_nodup_append hEA) hmem1 hmem2

/-! ### Assembling `fromPROV` -/

theorem hasNode_eq_false (g : Graph) (x : String)
    (h : x ∉ g.nodes.map NodeRec.did) : hasNode g x = false := by
  cases hh : hasNode g x with
  | false => rfl
  | true => exact absurd ((hasNode_iff_mem g x).mp hh) h

theorem entity_rels_fold (now : String) :
    ∀ (ents : List (String × EntityRec)) (g : Graph),
      (∀ kv ∈ ents, hasNode g kv.1 = true
        ∧ (∀ s ∈ kv.2.wasDerivedFrom, hasNode g s = true)
        ∧ (∀ a, kv.2.wasGeneratedBy = some a → hasNode g a = true ∧ a ≠ "")
        ∧ (∀ a, kv.2.wasAttributedTo = some a → hasNode g a = true ∧ a ≠ "")
        ∧ (∀ kt ∈ kv.2.custom, "asset:".data.isPrefixOf kt.1.data = true
            ∧ String.mk (kt.1.data.drop 6) ∈ RELATIONSHIP_TYPES
            ∧ (∀ t ∈ kt.2, hasNode g t = true))) →
      ((g.edges ++ ents.flatMap (entityRelEdges now)).map edgeKey).Nodup →
      ∃ g', ents.foldlM (importEntityRels now) g = some g'
        ∧ g'.nodes = g.nodes
        ∧ g'.edges = g.edges ++ ents.flatMap (entityRelEdges now) := by
  intro ents
  induction ents with
  | nil =>
    intro g _ _
    exact ⟨g, rfl, rfl, by simp⟩
  | cons kv rest ih =>
    intro g hyp hnd
    rw [List.flatMap_cons] at hnd
    have hmem0 : kv ∈ kv :: rest := List.mem_cons.mpr (Or.inl rfl)
    obtain ⟨hK, hsrc, hwgb, hwat, hcust⟩ := hyp kv hmem0
    have hnd1 := nodup_map_prefix edgeKey g.edges _ _ hnd
    obtain ⟨g1, h1, hn1, he1⟩ :=
      importEntityRels_spec now kv g hK hsrc hwgb hwat hcust hnd1
    have hnd2 : ((g1.edges ++ rest.flatMap (entityRelEdges now)).map
        edgeKey).Nodup := by
      rw [he1, List.append_assoc]
      exact hnd
    have hyp2 : ∀ kv' ∈ rest, hasNode g1 kv'.1 = true
        ∧ (∀ s ∈ kv'.2.wasDerivedFrom, hasNode g1 s = true)
        ∧ (∀ a, kv'.2.wasGeneratedBy = some a → hasNode g1 a = true ∧ a ≠ "")
        ∧ (∀ a, kv'.2.wasAttributedTo = some a → hasNode g1 a = true ∧ a ≠ "")
        ∧ (∀ kt ∈ kv'.2.custom, "asset:".data.isPrefixOf kt.1.data = true
            ∧ String.mk (kt.1.data.drop 6) ∈ RELATIONSHIP_TYPES
            ∧ (∀ t ∈ kt.2, hasNode g1 t = true)) := by
      intro kv' hm
      obtain ⟨a1, a2, a3, a4, a5⟩ := hyp kv' (List.mem_cons.mpr (Or.inr hm))
      exact ⟨(hasNode_congr hn1 kv'.1).trans a1,
        fun s hs => (hasNode_congr hn1 s).trans (a2 s hs),
        fun a ha => ⟨(hasNode_congr hn1 a).trans (a3 a ha).1, (a3 a ha).2⟩,
        fun a ha => ⟨(hasNode_congr hn1 a).trans (a4 a ha).1, (a4 a ha).2⟩,
        fun kt hkt => ⟨(a5 kt hkt).1, (a5 kt hkt).2.1,
          fun t ht => (hasNode_congr hn1 t).trans ((a5 kt hkt).2.2 t ht)⟩⟩
    obtain ⟨g2, h2, hn2, he2⟩ := ih g1 hyp2 hnd2
    refine ⟨g2, ?_, hn2.trans hn1, ?_⟩
    · rw [List.foldlM_cons, h1]
      simpa using h2
    · rw [he2, he1, List.flatMap_cons, List.append_assoc]

theorem activity_rels_fold (now : String) :
    ∀ (acts : List (String × ActivityRec)) (g : Graph),
      (∀ kv ∈ acts, hasNode g kv.1 = true
        ∧ (∀ t ∈ kv.2.used, hasNode g t = true)
        ∧ (∀ a, kv.2.wasAssociatedWith = some a → hasNode g a = true ∧ a ≠ "")) →
      ((g.edges ++ acts.flatMap (activityRelEdges now)).map edgeKey).Nodup →
      ∃ g', acts.foldlM (importActivityRels now) g = some g'
        ∧ g'.nodes = g.nodes
        ∧ g'.edges = g.edges ++ acts.flatMap (activityRelEdges now) := by
  intro acts
  induction acts with
  | nil =>
    intro g _ _
    exact ⟨g, rfl, rfl, by simp⟩
  | cons kv rest ih =>
    intro g hyp hnd
    rw [List.flatMap_cons] at hnd
    have hmem0 : kv ∈ kv :: rest := List.mem_cons.mpr (Or.inl rfl)
    obtain ⟨hK, hused, hwaw⟩ := hyp kv hmem0
    have hnd1 := nodup_map_prefix edgeKey g.edges _ _ hnd
    obtain ⟨g1, h1, hn1, he1⟩ :=
      importActivityRels_spec now kv g hK hused hwaw hnd1
    have hnd2 : ((g1.edges ++ rest.flatMap (activityRelEdges now)).map
        edgeKey).Nodup := by
      rw [he1, List.append_assoc]
      exact hnd
    have hyp2 : ∀ kv' ∈ rest, hasNode g1 kv'.1 = true
        ∧ (∀ t ∈ kv'.2.used, hasNode g1 t = true)
        ∧ (∀ a, kv'.2.wasAssociatedWith = some a → hasNode g1 a = true ∧ a ≠ "") := by
      intro kv' hm
      obtain ⟨a1, a2, a3⟩ := hyp kv' (List.mem_cons.mpr (Or.inr hm))
      exact ⟨(hasNode_congr hn1 kv'.1).trans a1,
        fun t ht => (hasNode_congr hn1 t).trans (a2 t ht),
        fun a ha => ⟨(hasNode_congr hn1 a).trans (a3 a ha).1, (a3 a ha).2⟩⟩
    obtain ⟨g2, h2, hn2, he2⟩ := ih g1 hyp2 hnd2
    refine ⟨g2, ?_, hn2.trans hn1, ?_⟩
    · rw [List.foldlM_cons, h1]
      simpa using h2
    · rw [he2, he1, List.flatMap_cons, List.append_assoc]

theorem mem_keysE_allDids {d : ProvDoc} {x : String} (h : x ∈ keysE d) :
    x ∈ allDids d :=
  List.mem_append.mpr (Or.inl (List.mem_append.mpr (Or.inl h)))

theorem mem_keysA_allDids {d : ProvDoc} {x : String} (h : x ∈ keysA d) :
    x ∈ allDids d :=
  List.mem_append.mpr (Or.inl (List.mem_append.mpr (Or.inr h)))

theorem mem_keysG_allDids {d : ProvDoc} {x : String} (h : x ∈ keysG d) :
    x ∈ allDids d :=
  List.mem_append.mpr (Or.inr h)

/-- `fromPROV` on a well-formed document succeeds and produces exactly the
imported node and edge lists. -/
theorem fromPROV_spec (d : ProvDoc) (now : String) (hWF : DocWF d) :
    ∃ g', fromPROV d now = some g'
      ∧ g'.nodes = allImportedNodes d now
      ∧ g'.edges = allImportedEdges d now := by
  have hall : ((keysE d ++ keysA d) ++ keysG d).Nodup := hWF.dids_nodup
  have hEA : (keysE d ++ keysA d).Nodup := List.Nodup.of_append_left hall
  have hkeysE : (keysE d).Nodup := List.Nodup.of_append_left hEA
  have hkeysA : (keysA d).Nodup := List.Nodup.of_append_right hEA
  have hkeysG : (keysG d).Nodup := List.Nodup.of_append_right hall
  obtain ⟨g1, h1, hn1, he1⟩ := import_fold (importEntity now)
    (importedEntityNode now) (fun kv => rfl) (importEntity_fresh now) d.entity
    emptyGraph
    (fun kv hm => hWF.dids_ne kv.1 (mem_keysE_allDids (List.mem_map.mpr ⟨kv, hm, rfl⟩)))
    (fun kv _ => rfl) hkeysE
  have hmapE : g1.nodes.map NodeRec.did = keysE d := by
    rw [hn1]
    show (d.entity.map (importedEntityNode now)).map NodeRec.did = keysE d
    rw [List.map_map]
    rfl
  obtain ⟨g2, h2, hn2, he2⟩ := import_fold (importActivity now)
    (importedActivityNode now) (fun kv => rfl) (importActivity_fresh now) d.activity
    g1
    (fun kv hm => hWF.dids_ne kv.1 (mem_keysA_allDids (List.mem_map.mpr ⟨kv, hm, rfl⟩)))
    (fun kv hm => hasNode_eq_false g1 kv.1 (by
      rw [hmapE]
      exact fun hmem => (List.disjoint_of_nodup_append hEA) hmem
        (List.mem_map.mpr ⟨kv, hm, rfl⟩)))
    hkeysA
  have hmapA : g2.nodes.map NodeRec.did = keysE d ++ keysA d := by
    rw [hn2, List.map_append, hmapE]
    show keysE d ++ (d.activity.map (importedActivityNode now)).map NodeRec.did = _
    rw [List.map_map]
    rfl
  obtain ⟨g3, h3, hn3, he3⟩ := import_fold (importAgent now)
    (importedAgentNode now) (fun kv => rfl) (importAgent_fresh now) d.agent
    g2
    (fun kv hm => hWF.dids_ne kv.1 (mem_keysG_allDids (List.mem_map.mpr ⟨kv, hm, rfl⟩)))
    (fun kv hm => hasNode_eq_false g2 kv.1 (by
      rw [hmapA]
      exact fun hmem => (List.disjoint_of_nodup_append hall) hmem
        (List.mem_map.mpr ⟨kv, hm, rfl⟩)))
    hkeysG
  have hg3nodes : g3.nodes = allImportedNodes d now := by
    rw [hn3, hn2, hn1, allImportedNodes]
    simp [emptyGraph, List.append_assoc]
  have hdids : g3.nodes.map NodeRec.did = allDids d := by
    rw [hn3, List.map_append, hmapA]
    show (keysE d ++ keysA d) ++ (d.agent.map (importedAgentNode now)).map
      NodeRec.did = _
    rw [List.map_map]
    rfl
  have hg3edges : g3.edges = [] := by
    rw [he3, he2, he1]
    rfl
  have hasAll : ∀ x ∈ allDids d, hasNode g3 x = true := by
    intro x hx
    rw [hasNode_iff_mem, hdids]
    exact hx
  have hndAll : ((allImportedEdges d now).map edgeKey).Nodup :=
    allImportedEdges_keys_nodup d now hWF
  have hnd4 : ((g3.edges ++ d.entity.flatMap (entityRelEdges now)).map
      edgeKey).Nodup := by
    rw [hg3edges]
    rw [show ([] : List EdgeRec) ++ d.entity.flatMap (entityRelEdges now)
      = d.entity.flatMap (entityRelEdges now) from rfl]
    exact nodup_map_prefix edgeKey [] _ _ hndAll
  obtain ⟨g4, h4, hn4, he4⟩ := entity_rels_fold now d.entity g3
    (fun kv hm => by
      have hwf := hWF.ent_wf kv hm
      refine ⟨hasAll kv.1 (mem_keysE_allDids (List.mem_map.mpr ⟨kv, hm, rfl⟩)),
        fun s hs => hasAll s (hwf.wdf_mem s hs),
        fun a ha => ⟨hasAll a (mem_keysA_allDids (hwf.wgb_mem a ha).1),
          (hwf.wgb_mem a ha).2⟩,
        fun a ha => ⟨hasAll a (mem_keysG_allDids (hwf.wat_mem a ha).1),
          (hwf.wat_mem a ha).2⟩,
        fun kt hkt => ⟨(hwf.custom_wf kt hkt).1, (hwf.custom_wf kt hkt).2.1,
          fun t ht => hasAll t
            ((hwf.custom_wf kt hkt).2.2.2.2.2.2.2.2.2.2 t ht)⟩⟩)
    hnd4
  have hnd5 : ((g4.edges ++ d.activity.flatMap (activityRelEdges now)).map
      edgeKey).Nodup := by
    rw [he4, hg3edges]
    exact hndAll
  obtain ⟨g5, h5, hn5, he5⟩ := activity_rels_fold now d.activity g4
    (fun kv hm => by
      have hwf := hWF.act_wf kv hm
      have hcongr : ∀ x, hasNode g4 x = hasNode g3 x := hasNode_congr hn4
      refine ⟨(hcongr kv.1).trans
          (hasAll kv.1 (mem_keysA_allDids (List.mem_map.mpr ⟨kv, hm, rfl⟩))),
        fun t ht => (hcongr t).trans
          (hasAll t (mem_keysE_allDids (hwf.used_mem t ht))),
        fun a ha => ⟨(hcongr a).trans
          (hasAll a (mem_keysG_allDids (hwf.waw_mem a ha).1)),
          (hwf.waw_mem a ha).2⟩⟩)
    hnd5
  refine ⟨g5, ?_, hn5.trans (hn4.trans hg3nodes), ?_⟩
  · rw [fromPROV]
    rw [h1]
    simp only [Option.bind_eq_bind, Option.some_bind]
    rw [h2]
    simp only [Option.bind_eq_bind, Option.some_bind]
    rw [h3]
    simp only [Option.bind_eq_bind, Option.some_bind]
    rw [h4]
    simp only [Option.bind_eq_bind, Option.some_bind]
    exact h5
  · rw [he5, he4, hg3edges, allImportedEdges]
    simp

/-! ### Projecting the imported graph back -/

theorem filter_flatMap {α β : Type} (l : List α) (f : α → List β) (p : β → Bool) :
    (l.flatMap f).filter p = l.flatMap (fun a => (f a).filter p) := by
  induction l with
  | nil => rfl
  | cons a rest ih => simp [List.flatMap_cons, List.filter_append, ih]

theorem flatMap_eq_nil {α β : Type} (l : List α) (f : α → List β)
    (h : ∀ a ∈ l, f a = []) : l.flatMap f = [] := by
  induction l with
  | nil => rfl
  | cons a rest ih =>
    rw [List.flatMap_cons, h a (List.mem_cons.mpr (Or.inl rfl)),
      ih (fun a' hm => h a' (List.mem_cons.mpr (Or.inr hm)))]
    rfl

theorem flatMap_single {α β : Type} (nameOf : α → String) (f : α → List β) :
    ∀ (l : List α) (a0 : α), (l.map nameOf).Nodup → a0 ∈ l →
      (∀ a ∈ l, nameOf a ≠ nameOf a0 → f a = []) →
      l.flatMap f = f a0 := by
  intro l
  induction l with
  | nil => intro a0 _ hm _; exact absurd hm (List.not_mem_nil _)
  | cons x rest ih =>
    intro a0 hnd hm hz
    rw [List.map_cons] at hnd
    have hnd1 := List.nodup_cons.mp hnd
    by_cases hx : nameOf x = nameOf a0
    · have hxa : x = a0 := by
        rcases List.mem_cons.mp hm with hh | hh
        · exact hh.symm
        · exact absurd (hx ▸ List.mem_map.mpr ⟨a0, hh, rfl⟩) hnd1.1
      subst hxa
      rw [List.flatMap_cons,
        flatMap_eq_nil rest f (fun a hm' => hz a (List.mem_cons.mpr (Or.inr hm'))
          (fun hh => hnd1.1 (hh ▸ List.mem_map.mpr ⟨a, hm', rfl⟩)))]
      simp
    · have hma : a0 ∈ rest := by
        rcases List.mem_cons.mp hm with hh | hh
        · exact absurd (by rw [hh]) hx
        · exact hh
      rw [List.flatMap_cons, hz x (List.mem_cons.mpr (Or.inl rfl)) hx,
        ih a0 hnd1.2 hma (fun a hm' => hz a (List.mem_cons.mpr (Or.inr hm')))]
      rfl

theorem find?_nodes {β : Type} (f : String × β → NodeRec)
    (hdid : ∀ kv, (f kv).did = kv.1) :
    ∀ (l : List (String × β)) (k : String) (v : β),
      (l.map Prod.fst).Nodup → (k, v) ∈ l →
      (l.map f).find? (fun n => n.did = k) = some (f (k, v)) := by
  intro l
  induction l with
  | nil => intro k v _ hm; exact absurd hm (List.not_mem_nil _)
  | cons kv rest ih =>
    intro k v hnd hm
    rw [List.map_cons] at hnd
    have hnd1 := List.nodup_cons.mp hnd
    rcases List.mem_cons.mp hm with hh | hh
    · rw [← hh]
      rw [List.map_cons, List.find?_cons_of_pos]
      exact decide_eq_true (by rw [hdid (k, v)])
    · have hne : ¬ kv.1 = k := by
        intro he
        exact hnd1.1 (he ▸ List.mem_map.mpr ⟨(k, v), hh, rfl⟩)
      rw [List.map_cons, List.find?_cons_of_neg, ih k v hnd1.2 hh]
      rw [hdid kv]
      exact fun hd => hne (of_decide_eq_true hd)

theorem find?_append_some {α : Type} (l1 l2 : List α) (p : α → Bool) (x : α)
    (h : l1.find? p = some x) : (l1 ++ l2).find? p = some x := by
  rw [List.find?_append, h]
  rfl

/-- `fromType` lookup over the imported node list: every entity sees its
own `provType`. -/
theorem fromTypeOf_imported (d : ProvDoc) (now : String) (hWF : DocWF d)
    (k : String) (er : EntityRec) (hm : (k, er) ∈ d.entity) :
    fromTypeOf (allImportedNodes d now) k = jsOr er.provType "DigitalResource" := by
  have hkeysE : (keysE d).Nodup :=
    List.Nodup.of_append_left (List.Nodup.of_append_left
      (hWF.dids_nodup : ((keysE d ++ keysA d) ++ keysG d).Nodup))
  have h1 : (d.entity.map (importedEntityNode now)).find? (fun n => n.did = k)
      = some (importedEntityNode now (k, er)) :=
    find?_nodes (importedEntityNode now) (fun kv => rfl) d.entity k er hkeysE hm
  have h2 : (allImportedNodes d now).find? (fun n => n.did = k)
      = some (importedEntityNode now (k, er)) := by
    rw [allImportedNodes, List.append_assoc]
    exact find?_append_some _ _ _ _ h1
  rw [fromTypeOf]
  have h3 : (allImportedNodes d now).find? (fun n => decide (n.did = k))
      = some (importedEntityNode now (k, er)) := h2
  rw [h3]
  rfl

theorem jsOr_ne (s d : String) (h : s ≠ "") : jsOr s d = s := by
  rw [jsOr, if_neg h]

/-- The entity record `provAddNode` rebuilds for a reimported entity. -/
def entityBase0 (er : EntityRec) : EntityRec :=
  ⟨er.provType, er.label, er.generatedAtTime, [], none, none, []⟩

/-- The activity record `provAddNode` rebuilds for a reimported activity. -/
def activityBase0 (ar : ActivityRec) : ActivityRec :=
  ⟨ar.startedAtTime, ar.endedAtTime, ar.label, [], none⟩

theorem agentTypes_ne_empty : ∀ x ∈ agentTypes, x ≠ "" := by decide

theorem baseDoc_spec (d : ProvDoc) (now : String) (hWF : DocWF d) :
    (allImportedNodes d now).foldl provAddNode ⟨[], [], []⟩
      = ⟨d.entity.map (fun kv => (kv.1, entityBase0 kv.2)),
         d.activity.map (fun kv => (kv.1, activityBase0 kv.2)),
         d.agent⟩ := by
  rw [provNodes_spec]
  have htypeE : ∀ kv ∈ d.entity,
      (importedEntityNode now kv).type = kv.2.provType := by
    intro kv hm
    exact jsOr_ne kv.2.provType "DigitalResource" (hWF.ent_wf kv hm).provType_ne
  have htypeG : ∀ kv ∈ d.agent,
      (importedAgentNode now kv).type = kv.2.provType := by
    intro kv hm
    refine jsOr_ne kv.2.provType "Agent" ?_
    intro hh
    have h2 := (hWF.ag_wf kv hm).provType_ag
    rw [hh] at h2
    exact absurd h2 (by decide)
  have hfE1 : (d.entity.map (importedEntityNode now)).filter entityCat
      = d.entity.map (importedEntityNode now) := by
    rw [List.filter_eq_self]
    intro n hn
    obtain ⟨kv, hm, hkv⟩ := List.mem_map.mp hn
    have hwf := hWF.ent_wf kv hm
    rw [← hkv]
    refine decide_eq_true ⟨?_, ?_⟩
    · rw [htypeE kv hm]
      exact hwf.provType_not_act
    · rw [htypeE kv hm]
      exact hwf.provType_not_ag
  have hfE2 : (d.activity.map (importedActivityNode now)).filter entityCat = [] := by
    rw [List.filter_eq_nil_iff]
    intro n hn
    obtain ⟨kv, hm, hkv⟩ := List.mem_map.mp hn
    rw [← hkv]
    intro hh
    exact (of_decide_eq_true hh).1 rfl
  have hfE3 : (d.agent.map (importedAgentNode now)).filter entityCat = [] := by
    rw [List.filter_eq_nil_iff]
    intro n hn
    obtain ⟨kv, hm, hkv⟩ := List.mem_map.mp hn
    rw [← hkv]
    intro hh
    refine (of_decide_eq_true hh).2 ?_
    rw [htypeG kv hm]
    exact (hWF.ag_wf kv hm).provType_ag
  have hfA1 : (d.entity.map (importedEntityNode now)).filter
      (fun n => n.type = "Activity") = [] := by
    rw [List.filter_eq_nil_iff]
    intro n hn
    obtain ⟨kv, hm, hkv⟩ := List.mem_map.mp hn
    rw [← hkv]
    intro hh
    refine (hWF.ent_wf kv hm).provType_not_act ?_
    have h3 := of_decide_eq_true hh
    rw [htypeE kv hm] at h3
    exact h3
  have hfA2 : (d.activity.map (importedActivityNode now)).filter
      (fun n => n.type = "Activity") = d.activity.map (importedActivityNode now) := by
    rw [List.filter_eq_self]
    intro n hn
    obtain ⟨kv, hm, hkv⟩ := List.mem_map.mp hn
    rw [← hkv]
    exact decide_eq_true rfl
  have hfA3 : (d.agent.map (importedAgentNode now)).filter
      (fun n => n.type = "Activity") = [] := by
    rw [List.filter_eq_nil_iff]
    intro n hn
    obtain ⟨kv, hm, hkv⟩ := List.mem_map.mp hn
    rw [← hkv]
    intro hh
    have h2 := (hWF.ag_wf kv hm).provType_ag
    have h3 : kv.2.provType = "Activity" :=
      (htypeG kv hm).symm.trans (of_decide_eq_true hh)
    rw [h3] at h2
    exact absurd h2 (by decide)
  have hfG1 : (d.entity.map (importedEntityNode now)).filter
      (fun n => decide (n.type ∈ agentTypes) && ¬ n.type = "Activity") = [] := by
    rw [List.filter_eq_nil_iff]
    intro n hn
    obtain ⟨kv, hm, hkv⟩ := List.mem_map.mp hn
    rw [← hkv]
    intro hh
    rw [Bool.and_eq_true] at hh
    refine (hWF.ent_wf kv hm).provType_not_ag ?_
    have h3 := of_decide_eq_true hh.1
    rw [htypeE kv hm] at h3
    exact h3
  have hfG2 : (d.activity.map (importedActivityNode now)).filter
      (fun n => decide (n.type ∈ agentTypes) && ¬ n.type = "Activity") = [] := by
    rw [List.filter_eq_nil_iff]
    intro n hn
    obtain ⟨kv, hm, hkv⟩ := List.mem_map.mp hn
    rw [← hkv]
    intro hh
    rw [Bool.and_eq_true] at hh
    have h2 := of_decide_eq_true hh.1
    have h3 : ("Activity" : String) ∈ agentTypes := h2
    exact absurd h3 (by decide)
  have hfG3 : (d.agent.map (importedAgentNode now)).filter
      (fun n => decide (n.type ∈ agentTypes) && ¬ n.type = "Activity") =
      d.agent.map (importedAgentNode now) := by
    rw [List.filter_eq_self]
    intro n hn
    obtain ⟨kv, hm, hkv⟩ := List.mem_map.mp hn
    have h2 := (hWF.ag_wf kv hm).provType_ag
    rw [← hkv]
    rw [Bool.and_eq_true]
    refine ⟨decide_eq_true ?_, decide_eq_true ?_⟩
    · rw [htypeG kv hm]
      exact h2
    · intro hh
      have h3 : kv.2.provType = "Activity" := (htypeG kv hm).symm.trans hh
      rw [h3] at h2
      exact absurd h2 (by decide)
  have hmapE : (d.entity.map (importedEntityNode now)).map
      (fun n => (n.did, entityBase n))
      = d.entity.map (fun kv => (kv.1, entityBase0 kv.2)) := by
    rw [List.map_map]
    refine List.map_congr_left ?_
    intro kv hm
    have hwf := hWF.ent_wf kv hm
    show (kv.1, entityBase (importedEntityNode now kv)) = (kv.1, entityBase0 kv.2)
    have h1 : entityBase (importedEntityNode now kv) = entityBase0 kv.2 := by
      show (⟨jsOr kv.2.provType "DigitalResource",
        jsOr (jsOr kv.2.label (didTail kv.1)) kv.1,
        jsOr kv.2.generatedAtTime now, [], none, none, []⟩ : EntityRec) = _
      rw [jsOr_ne kv.2.provType "DigitalResource" hwf.provType_ne,
        jsOr_ne kv.2.label (didTail kv.1) hwf.label_ne,
        jsOr_ne kv.2.label kv.1 hwf.label_ne,
        jsOr_ne kv.2.generatedAtTime now hwf.gat_ne]
      rfl
    rw [h1]
  have hmapA : (d.activity.map (importedActivityNode now)).map
      (fun n => (n.did, activityBase n))
      = d.activity.map (fun kv => (kv.1, activityBase0 kv.2)) := by
    rw [List.map_map]
    refine List.map_congr_left ?_
    intro kv hm
    have hwf := hWF.act_wf kv hm
    show (kv.1, activityBase (importedActivityNode now kv)) = (kv.1, activityBase0 kv.2)
    have h1 : activityBase (importedActivityNode now kv) = activityBase0 kv.2 := by
      show (⟨jsOr kv.2.startedAtTime (jsOr kv.2.startedAtTime now),
        jsOr kv.2.endedAtTime (jsOr kv.2.endedAtTime (jsOr kv.2.startedAtTime now)),
        jsOr (jsOr kv.2.label (didTail kv.1)) kv.1, [], none⟩ : ActivityRec) = _
      rw [jsOr_ne kv.2.startedAtTime (jsOr kv.2.startedAtTime now) hwf.sat_ne,
        jsOr_ne kv.2.endedAtTime
          (jsOr kv.2.endedAtTime (jsOr kv.2.startedAtTime now)) hwf.eat_ne,
        jsOr_ne kv.2.label (didTail kv.1) hwf.label_ne,
        jsOr_ne kv.2.label kv.1 hwf.label_ne]
      rfl
    rw [h1]
  have hmapG : (d.agent.map (importedAgentNode now)).map
      (fun n => (n.did, agentBase n)) = d.agent := by
    rw [List.map_map]
    have hpt : ∀ kv ∈ d.agent,
        ((fun n => (n.did, agentBase n)) ∘ importedAgentNode now) kv = id kv := by
      intro kv hm
      have hwf := hWF.ag_wf kv hm
      have hne : kv.2.provType ≠ "" := by
        intro hh
        have h2 := hwf.provType_ag
        rw [hh] at h2
        exact absurd h2 (by decide)
      show (kv.1, agentBase (importedAgentNode now kv)) = kv
      have h1 : agentBase (importedAgentNode now kv) = kv.2 := by
        show (⟨jsOr kv.2.provType "Agent",
          jsOr (jsOr kv.2.label (didTail kv.1)) kv.1⟩ : AgentRec) = kv.2
        rw [jsOr_ne kv.2.provType "Agent" hne,
          jsOr_ne kv.2.label (didTail kv.1) hwf.label_ne,
          jsOr_ne kv.2.label kv.1 hwf.label_ne]
      rw [h1]
    rw [List.map_congr_left hpt, List.map_id]
  rw [allImportedNodes]
  simp only [List.filter_append, hfE1, hfE2, hfE3, hfA1, hfA2, hfA3, hfG1, hfG2,
    hfG3, List.append_nil, List.nil_append, List.map_append]
  rw [hmapE, hmapA, hmapG]

theorem filter_map_all {α : Type} (f : α → EdgeRec) (p : EdgeRec → Bool)
    (l : List α) (h : ∀ a ∈ l, p (f a) = true) : (l.map f).filter p = l.map f := by
  rw [List.filter_eq_self]
  intro e he
  obtain ⟨a, hm, ha⟩ := List.mem_map.mp he
  rw [← ha]
  exact h a hm

theorem filter_map_none {α : Type} (f : α → EdgeRec) (p : EdgeRec → Bool)
    (l : List α) (h : ∀ a ∈ l, p (f a) = false) : (l.map f).filter p = [] := by
  rw [List.filter_eq_nil_iff]
  intro e he
  obtain ⟨a, hm, ha⟩ := List.mem_map.mp he
  rw [← ha]
  intro hh
  rw [h a hm] at hh
  exact Bool.noConfusion hh

theorem filter_optEdge_none (now src ty : String) (o : Option String)
    (p : EdgeRec → Bool)
    (h : ∀ a, o = some a → p ⟨src, a, ty, now, none, []⟩ = false) :
    (optEdge now src ty o).filter p = [] := by
  cases o with
  | none => rfl
  | some a =>
    show List.filter p [⟨src, a, ty, now, none, []⟩] = []
    rw [List.filter_cons]
    rw [h a rfl]
    rfl

theorem filter_optEdge_all (now src ty : String) (o : Option String)
    (p : EdgeRec → Bool)
    (h : ∀ a, o = some a → p ⟨src, a, ty, now, none, []⟩ = true) :
    (optEdge now src ty o).filter p = optEdge now src ty o := by
  cases o with
  | none => rfl
  | some a =>
    show List.filter p [⟨src, a, ty, now, none, []⟩] = _
    rw [List.filter_cons]
    rw [h a rfl]
    rfl

theorem filter_customEdges_none (now k0 : String) (cs : List (String × List String))
    (p : EdgeRec → Bool)
    (h : ∀ kt ∈ cs, ∀ t ∈ kt.2,
      p ⟨k0, t, String.mk (kt.1.data.drop 6), now, none, []⟩ = false) :
    (customEdges now k0 cs).filter p = [] := by
  rw [customEdges, filter_flatMap]
  refine flatMap_eq_nil _ _ ?_
  intro kt hm
  exact filter_map_none _ p kt.2 (fun t ht => h kt hm t ht)

theorem flatMap_congr' {α β : Type} {l : List α} {f g : α → List β}
    (h : ∀ a ∈ l, f a = g a) : l.flatMap f = l.flatMap g := by
  induction l with
  | nil => rfl
  | cons a rest ih =>
    rw [List.flatMap_cons, List.flatMap_cons, h a (List.mem_cons.mpr (Or.inl rfl)),
      ih (fun a' hm => h a' (List.mem_cons.mpr (Or.inr hm)))]

theorem filter_customEdges_all (now k0 : String) (cs : List (String × List String))
    (p : EdgeRec → Bool)
    (h : ∀ kt ∈ cs, ∀ t ∈ kt.2,
      p ⟨k0, t, String.mk (kt.1.data.drop 6), now, none, []⟩ = true) :
    (customEdges now k0 cs).filter p = customEdges now k0 cs := by
  rw [customEdges, filter_flatMap]
  refine flatMap_congr' ?_
  intro kt hm
  exact filter_map_all _ p kt.2 (fun t ht => h kt hm t ht)

/-! Ground facts about the fixed relation names. -/

theorem hdf_wdf : ("wasDerivedFrom" : String) ∈ derivFamily := by decide

theorem hdfN_wgb : ("wasGeneratedBy" : String) ∉ derivFamily := by decide

theorem hdfN_wat : ("wasAttributedTo" : String) ∉ derivFamily := by decide

theorem hdfN_used : ("used" : String) ∉ derivFamily := by decide

theorem hdfN_waw : ("wasAssociatedWith" : String) ∉ derivFamily := by decide

theorem hne_wdf_wgb : ¬ ("wasDerivedFrom" : String) = "wasGeneratedBy" := by decide

theorem hne_wat_wgb : ¬ ("wasAttributedTo" : String) = "wasGeneratedBy" := by decide

theorem hne_used_wgb : ¬ ("used" : String) = "wasGeneratedBy" := by decide

theorem hne_waw_wgb : ¬ ("wasAssociatedWith" : String) = "wasGeneratedBy" := by decide

theorem hne_wdf_wat : ¬ ("wasDerivedFrom" : String) = "wasAttributedTo" := by decide

theorem hne_wgb_wat : ¬ ("wasGeneratedBy" : String) = "wasAttributedTo" := by decide

theorem hne_used_wat : ¬ ("used" : String) = "wasAttributedTo" := by decide

theorem hne_waw_wat : ¬ ("wasAssociatedWith" : String) = "wasAttributedTo" := by decide

theorem hne_wdf_used : ¬ ("wasDerivedFrom" : String) = "used" := by decide

theorem hne_wgb_used : ¬ ("wasGeneratedBy" : String) = "used" := by decide

theorem hne_wat_used : ¬ ("wasAttributedTo" : String) = "used" := by decide

theorem hne_waw_used : ¬ ("wasAssociatedWith" : String) = "used" := by decide

theorem hne_wdf_waw : ¬ ("wasDerivedFrom" : String) = "wasAssociatedWith" := by decide

theorem hne_wgb_waw : ¬ ("wasGeneratedBy" : String) = "wasAssociatedWith" := by decide

theorem hne_wat_waw : ¬ ("wasAttributedTo" : String) = "wasAssociatedWith" := by decide

theorem hne_used_waw : ¬ ("used" : String) = "wasAssociatedWith" := by decide

/-- Membership facts about a group's custom relation types, packaged the
way the filter computations need them. -/
def CustomTypesOK (cs : List (String × List String)) : Prop :=
  ∀ kt ∈ cs, String.mk (kt.1.data.drop 6) ∉ derivFamily
    ∧ ¬ String.mk (kt.1.data.drop 6) = "wasGeneratedBy"
    ∧ ¬ String.mk (kt.1.data.drop 6) = "used"
    ∧ ¬ String.mk (kt.1.data.drop 6) = "wasAttributedTo"
    ∧ ¬ String.mk (kt.1.data.drop 6) = "wasAssociatedWith"

theorem entityWF_customTypesOK {d : ProvDoc} {er : EntityRec}
    (h : EntityWF d er) : CustomTypesOK er.custom := by
  intro kt hm
  have hc := h.custom_wf kt hm
  exact ⟨hc.2.2.1, hc.2.2.2.1, hc.2.2.2.2.1, hc.2.2.2.2.2.1, hc.2.2.2.2.2.2.1⟩

theorem entityRelEdges_filter_deriv (now k : String) (kv : String × EntityRec)
    (hct : CustomTypesOK kv.2.custom) :
    (entityRelEdges now kv).filter
        (fun e => decide (e.type ∈ derivFamily ∧ e.tgt = k))
      = if kv.1 = k
        then kv.2.wasDerivedFrom.map
          (fun s => ⟨s, kv.1, "wasDerivedFrom", now, none, []⟩)
        else [] := by
  rw [entityRelEdges, List.filter_append, List.filter_append, List.filter_append]
  rw [filter_optEdge_none now kv.1 "wasGeneratedBy" kv.2.wasGeneratedBy _
    (fun a _ => decide_eq_false (fun hh => absurd hh.1 hdfN_wgb))]
  rw [filter_optEdge_none now kv.1 "wasAttributedTo" kv.2.wasAttributedTo _
    (fun a _ => decide_eq_false (fun hh => absurd hh.1 hdfN_wat))]
  rw [filter_customEdges_none now kv.1 kv.2.custom _
    (fun kt hm t _ => decide_eq_false (fun hh => absurd hh.1 (hct kt hm).1))]
  by_cases hk : kv.1 = k
  · rw [if_pos hk]
    rw [filter_map_all _ _ kv.2.wasDerivedFrom
      (fun s _ => decide_eq_true ⟨hdf_wdf, hk⟩)]
    simp
  · rw [if_neg hk]
    rw [filter_map_none _ _ kv.2.wasDerivedFrom
      (fun s _ => decide_eq_false (fun hh => hk hh.2))]
    rfl

theorem activityRelEdges_filter_deriv (now k : String) (kv : String × ActivityRec) :
    (activityRelEdges now kv).filter
        (fun e => decide (e.type ∈ derivFamily ∧ e.tgt = k)) = [] := by
  rw [activityRelEdges, List.filter_append]
  rw [filter_map_none _ _ kv.2.used
    (fun t _ => decide_eq_false (fun hh => absurd hh.1 hdfN_used))]
  rw [filter_optEdge_none now kv.1 "wasAssociatedWith" kv.2.wasAssociatedWith _
    (fun a _ => decide_eq_false (fun hh => absurd hh.1 hdfN_waw))]
  rfl

theorem entityRelEdges_filter_wgb (now k : String) (kv : String × EntityRec)
    (kA : String → Bool) (hct : CustomTypesOK kv.2.custom)
    (hmemA : ∀ a, kv.2.wasGeneratedBy = some a → kA a = true) :
    (entityRelEdges now kv).filter
        (fun e => decide (e.type = "wasGeneratedBy" ∧ e.src = k ∧ kA e.tgt = true))
      = if kv.1 = k then optEdge now kv.1 "wasGeneratedBy" kv.2.wasGeneratedBy
        else [] := by
  rw [entityRelEdges, List.filter_append, List.filter_append, List.filter_append]
  rw [filter_map_none _ _ kv.2.wasDerivedFrom
    (fun s _ => decide_eq_false (fun hh => absurd hh.1 hne_wdf_wgb))]
  rw [filter_optEdge_none now kv.1 "wasAttributedTo" kv.2.wasAttributedTo _
    (fun a _ => decide_eq_false (fun hh => absurd hh.1 hne_wat_wgb))]
  rw [filter_customEdges_none now kv.1 kv.2.custom _
    (fun kt hm t _ => decide_eq_false (fun hh => absurd hh.1 (hct kt hm).2.1))]
  by_cases hk : kv.1 = k
  · rw [if_pos hk]
    rw [filter_optEdge_all now kv.1 "wasGeneratedBy" kv.2.wasGeneratedBy _
      (fun a ha => decide_eq_true ⟨rfl, hk, hmemA a ha⟩)]
    simp
  · rw [if_neg hk]
    rw [filter_optEdge_none now kv.1 "wasGeneratedBy" kv.2.wasGeneratedBy _
      (fun a _ => decide_eq_false (fun hh => hk hh.2.1))]
    rfl

theorem activityRelEdges_filter_wgb (now k : String) (kv : String × ActivityRec)
    (kA : String → Bool) :
    (activityRelEdges now kv).filter
        (fun e => decide (e.type = "wasGeneratedBy" ∧ e.src = k ∧ kA e.tgt = true))
      = [] := by
  rw [activityRelEdges, List.filter_append]
  rw [filter_map_none _ _ kv.2.used
    (fun t _ => decide_eq_false (fun hh => absurd hh.1 hne_used_wgb))]
  rw [filter_optEdge_none now kv.1 "wasAssociatedWith" kv.2.wasAssociatedWith _
    (fun a _ => decide_eq_false (fun hh => absurd hh.1 hne_waw_wgb))]
  rfl

theorem entityRelEdges_filter_wat (now k : String) (kv : String × EntityRec)
    (kG : String → Bool) (hct : CustomTypesOK kv.2.custom)
    (hmemG : ∀ a, kv.2.wasAttributedTo = some a → kG a = true) :
    (entityRelEdges now kv).filter
        (fun e => decide (e.type = "wasAttributedTo" ∧ e.src = k ∧ kG e.tgt = true))
      = if kv.1 = k then optEdge now kv.1 "wasAttributedTo" kv.2.wasAttributedTo
        else [] := by
  rw [entityRelEdges, List.filter_append, List.filter_append, List.filter_append]
  rw [filter_map_none _ _ kv.2.wasDerivedFrom
    (fun s _ => decide_eq_false (fun hh => absurd hh.1 hne_wdf_wat))]
  rw [filter_optEdge_none now kv.1 "wasGeneratedBy" kv.2.wasGeneratedBy _
    (fun a _ => decide_eq_false (fun hh => absurd hh.1 hne_wgb_wat))]
  rw [filter_customEdges_none now kv.1 kv.2.custom _
    (fun kt hm t _ => decide_eq_false (fun hh => absurd hh.1 (hct kt hm).2.2.2.1))]
  by_cases hk : kv.1 = k
  · rw [if_pos hk]
    rw [filter_optEdge_all now kv.1 "wasAttributedTo" kv.2.wasAttributedTo _
      (fun a ha => decide_eq_true ⟨rfl, hk, hmemG a ha⟩)]
    simp
  · rw [if_neg hk]
    rw [filter_optEdge_none now kv.1 "wasAttributedTo" kv.2.wasAttributedTo _
      (fun a _ => decide_eq_false (fun hh => hk hh.2.1))]
    rfl

theorem activityRelEdges_filter_wat (now k : String) (kv : String × ActivityRec)
    (kG : String → Bool) :
    (activityRelEdges now kv).filter
        (fun e => decide (e.type = "wasAttributedTo" ∧ e.src = k ∧ kG e.tgt = true))
      = [] := by
  rw [activityRelEdges, List.filter_append]
  rw [filter_map_none _ _ kv.2.used
    (fun t _ => decide_eq_false (fun hh => absurd hh.1 hne_used_wat))]
  rw [filter_optEdge_none now kv.1 "wasAssociatedWith" kv.2.wasAssociatedWith _
    (fun a _ => decide_eq_false (fun hh => absurd hh.1 hne_waw_wat))]
  rfl

theorem entityRelEdges_filter_used (now k : String) (kv : String × EntityRec)
    (kE : String → Bool) (hct : CustomTypesOK kv.2.custom) :
    (entityRelEdges now kv).filter
        (fun e => decide (e.type = "used" ∧ e.src = k ∧ kE e.tgt = true)) = [] := by
  rw [entityRelEdges, List.filter_append, List.filter_append, List.filter_append]
  rw [filter_map_none _ _ kv.2.wasDerivedFrom
    (fun s _ => decide_eq_false (fun hh => absurd hh.1 hne_wdf_used))]
  rw [filter_optEdge_none now kv.1 "wasGeneratedBy" kv.2.wasGeneratedBy _
    (fun a _ => decide_eq_false (fun hh => absurd hh.1 hne_wgb_used))]
  rw [filter_optEdge_none now kv.1 "wasAttributedTo" kv.2.wasAttributedTo _
    (fun a _ => decide_eq_false (fun hh => absurd hh.1 hne_wat_used))]
  rw [filter_customEdges_none now kv.1 kv.2.custom _
    (fun kt hm t _ => decide_eq_false (fun hh => absurd hh.1 (hct kt hm).2.2.1))]
  rfl

theorem activityRelEdges_filter_used (now k : String) (kv : String × ActivityRec)
    (kE : String → Bool)
    (hmemE : ∀ t ∈ kv.2.used, kE t = true) :
    (activityRelEdges now kv).filter
        (fun e => decide (e.type = "used" ∧ e.src = k ∧ kE e.tgt = true))
      = if kv.1 = k
        then kv.2.used.map (fun t => ⟨kv.1, t, "used", now, none, []⟩)
        else [] := by
  rw [activityRelEdges, List.filter_append]
  rw [filter_optEdge_none now kv.1 "wasAssociatedWith" kv.2.wasAssociatedWith _
    (fun a _ => decide_eq_false (fun hh => absurd hh.1 hne_waw_used))]
  by_cases hk : kv.1 = k
  · rw [if_pos hk]
    rw [filter_map_all _ _ kv.2.used
      (fun t ht => decide_eq_true ⟨rfl, hk, hmemE t ht⟩)]
    simp
  · rw [if_neg hk]
    rw [filter_map_none _ _ kv.2.used
      (fun t _ => decide_eq_false (fun hh => hk hh.2.1))]
    rfl

theorem entityRelEdges_filter_waw (now k : String) (kv : String × EntityRec)
    (kG : String → Bool) (hct : CustomTypesOK kv.2.custom) :
    (entityRelEdges now kv).filter
        (fun e => decide (e.type = "wasAssociatedWith" ∧ e.src = k
          ∧ kG e.tgt = true)) = [] := by
  rw [entityRelEdges, List.filter_append, List.filter_append, List.filter_append]
  rw [filter_map_none _ _ kv.2.wasDerivedFrom
    (fun s _ => decide_eq_false (fun hh => absurd hh.1 hne_wdf_waw))]
  rw [filter_optEdge_none now kv.1 "wasGeneratedBy" kv.2.wasGeneratedBy _
    (fun a _ => decide_eq_false (fun hh => absurd hh.1 hne_wgb_waw))]
  rw [filter_optEdge_none now kv.1 "wasAttributedTo" kv.2.wasAttributedTo _
    (fun a _ => decide_eq_false (fun hh => absurd hh.1 hne_wat_waw))]
  rw [filter_customEdges_none now kv.1 kv.2.custom _
    (fun kt hm t _ => decide_eq_false (fun hh => absurd hh.1 (hct kt hm).2.2.2.2))]
  rfl

theorem activityRelEdges_filter_waw (now k : String) (kv : String × ActivityRec)
    (kG : String → Bool)
    (hmemG : ∀ a, kv.2.wasAssociatedWith = some a → kG a = true) :
    (activityRelEdges now kv).filter
        (fun e => decide (e.type = "wasAssociatedWith" ∧ e.src = k
          ∧ kG e.tgt = true))
      = if kv.1 = k
        then optEdge now kv.1 "wasAssociatedWith" kv.2.wasAssociatedWith
        else [] := by
  rw [activityRelEdges, List.filter_append]
  rw [filter_map_none _ _ kv.2.used
    (fun t _ => decide_eq_false (fun hh => absurd hh.1 hne_used_waw))]
  by_cases hk : kv.1 = k
  · rw [if_pos hk]
    rw [filter_optEdge_all now kv.1 "wasAssociatedWith" kv.2.wasAssociatedWith _
      (fun a ha => decide_eq_true ⟨rfl, hk, hmemG a ha⟩)]
    rfl
  · rw [if_neg hk]
    rw [filter_optEdge_none now kv.1 "wasAssociatedWith" kv.2.wasAssociatedWith _
      (fun a _ => decide_eq_false (fun hh => hk hh.2.1))]
    rfl

theorem entityRelEdges_filter_customPred (now k : String) (N : List NodeRec)
    (kv : String × EntityRec) (hct : CustomTypesOK kv.2.custom)
    (hft : kv.2.custom ≠ [] → kv.1 = k →
      (fromTypeOf N kv.1 = "DigitalResource" ∨ fromTypeOf N kv.1 = "AIModel")) :
    (entityRelEdges now kv).filter (customPred N k)
      = if kv.1 = k then customEdges now kv.1 kv.2.custom else [] := by
  rw [entityRelEdges, List.filter_append, List.filter_append, List.filter_append]
  rw [filter_map_none _ _ kv.2.wasDerivedFrom
    (fun s _ => decide_eq_false (fun hh => hh.1 hdf_wdf))]
  rw [filter_optEdge_none now kv.1 "wasGeneratedBy" kv.2.wasGeneratedBy _
    (fun a _ => decide_eq_false (fun hh => hh.2.1 rfl))]
  rw [filter_optEdge_none now kv.1 "wasAttributedTo" kv.2.wasAttributedTo _
    (fun a _ => decide_eq_false (fun hh => hh.2.2.2.1 rfl))]
  by_cases hk : kv.1 = k
  · rw [if_pos hk]
    rw [filter_customEdges_all now kv.1 kv.2.custom _
      (fun kt hm t _ => by
        have hc := hct kt hm
        refine decide_eq_true
          ⟨hc.1, hc.2.1, hc.2.2.1, hc.2.2.2.1, hc.2.2.2.2,
            hft (List.ne_nil_of_mem hm) hk, hk⟩)]
    simp
  · rw [if_neg hk]
    rw [filter_customEdges_none now kv.1 kv.2.custom _
      (fun kt hm t _ => decide_eq_false (fun hh => hk hh.2.2.2.2.2.2))]
    rfl

theorem activityRelEdges_filter_customPred (now k : String) (N : List NodeRec)
    (kv : String × ActivityRec) :
    (activityRelEdges now kv).filter (customPred N k) = [] := by
  rw [activityRelEdges, List.filter_append]
  rw [filter_map_none _ _ kv.2.used
    (fun t _ => decide_eq_false (fun hh => hh.2.2.1 rfl))]
  rw [filter_optEdge_none now kv.1 "wasAssociatedWith" kv.2.wasAssociatedWith _
    (fun a _ => decide_eq_false (fun hh => hh.2.2.2.2.1 rfl))]
  rfl

/-! ### The whole-edge-list filters -/

theorem allEdges_filter_deriv (d : ProvDoc) (now : String) (hWF : DocWF d)
    (k : String) (er : EntityRec) (hm : (k, er) ∈ d.entity) :
    (allImportedEdges d now).filter
        (fun e => decide (e.type ∈ derivFamily ∧ e.tgt = k))
      = er.wasDerivedFrom.map (fun s => ⟨s, k, "wasDerivedFrom", now, none, []⟩) := by
  have hkeysE : (keysE d).Nodup :=
    List.Nodup.of_append_left (List.Nodup.of_append_left
      (hWF.dids_nodup : ((keysE d ++ keysA d) ++ keysG d).Nodup))
  rw [allImportedEdges, List.filter_append, filter_flatMap, filter_flatMap]
  rw [flatMap_eq_nil d.activity _
    (fun kv _ => activityRelEdges_filter_deriv now k kv)]
  rw [List.append_nil]
  rw [flatMap_single Prod.fst _ d.entity (k, er) hkeysE hm
    (fun kv hm' hne => by
      rw [entityRelEdges_filter_deriv now k kv
        (entityWF_customTypesOK (hWF.ent_wf kv hm'))]
      exact if_neg hne)]
  rw [entityRelEdges_filter_deriv now k (k, er)
    (entityWF_customTypesOK (hWF.ent_wf (k, er) hm))]
  rw [if_pos rfl]

theorem allEdges_filter_wgb (d : ProvDoc) (now : String) (hWF : DocWF d)
    (k : String) (er : EntityRec) (hm : (k, er) ∈ d.entity)
    (kA : String → Bool) (hkA : ∀ a ∈ keysA d, kA a = true) :
    (allImportedEdges d now).filter
        (fun e => decide (e.type = "wasGeneratedBy" ∧ e.src = k ∧ kA e.tgt = true))
      = optEdge now k "wasGeneratedBy" er.wasGeneratedBy := by
  have hkeysE : (keysE d).Nodup :=
    List.Nodup.of_append_left (List.Nodup.of_append_left
      (hWF.dids_nodup : ((keysE d ++ keysA d) ++ keysG d).Nodup))
  rw [allImportedEdges, List.filter_append, filter_flatMap, filter_flatMap]
  rw [flatMap_eq_nil d.activity _
    (fun kv _ => activityRelEdges_filter_wgb now k kv kA)]
  rw [List.append_nil]
  rw [flatMap_single Prod.fst _ d.entity (k, er) hkeysE hm
    (fun kv hm' hne => by
      rw [entityRelEdges_filter_wgb now k kv kA
        (entityWF_customTypesOK (hWF.ent_wf kv hm'))
        (fun a ha => hkA a ((hWF.ent_wf kv hm').wgb_mem a ha).1)]
      exact if_neg hne)]
  rw [entityRelEdges_filter_wgb now k (k, er) kA
    (entityWF_customTypesOK (hWF.ent_wf (k, er) hm))
    (fun a ha => hkA a ((hWF.ent_wf (k, er) hm).wgb_mem a ha).1)]
  rw [if_pos rfl]

theorem allEdges_filter_wat (d : ProvDoc) (now : String) (hWF : DocWF d)
    (k : String) (er : EntityRec) (hm : (k, er) ∈ d.entity)
    (kG : String → Bool) (hkG : ∀ a ∈ keysG d, kG a = true) :
    (allImportedEdges d now).filter
        (fun e => decide (e.type = "wasAttributedTo" ∧ e.src = k ∧ kG e.tgt = true))
      = optEdge now k "wasAttributedTo" er.wasAttributedTo := by
  have hkeysE : (keysE d).Nodup :=
    List.Nodup.of_append_left (List.Nodup.of_append_left
      (hWF.dids_nodup : ((keysE d ++ keysA d) ++ keysG d).Nodup))
  rw [allImportedEdges, List.filter_append, filter_flatMap, filter_flatMap]
  rw [flatMap_eq_nil d.activity _
    (fun kv _ => activityRelEdges_filter_wat now k kv kG)]
  rw [List.append_nil]
  rw [flatMap_single Prod.fst _ d.entity (k, er) hkeysE hm
    (fun kv hm' hne => by
      rw [entityRelEdges_filter_wat now k kv kG
        (entityWF_customTypesOK (hWF.ent_wf kv hm'))
        (fun a ha => hkG a ((hWF.ent_wf kv hm').wat_mem a ha).1)]
      exact if_neg hne)]
  rw [entityRelEdges_filter_wat now k (k, er) kG
    (entityWF_customTypesOK (hWF.ent_wf (k, er) hm))
    (fun a ha => hkG a ((hWF.ent_wf (k, er) hm).wat_mem a ha).1)]
  rw [if_pos rfl]

theorem allEdges_filter_custom (d : ProvDoc) (now : String) (hWF : DocWF d)
    (k : String) (er : EntityRec) (hm : (k, er) ∈ d.entity) :
    (allImportedEdges d now).filter (customPred (allImportedNodes d now) k)
      = customEdges now k er.custom := by
  have hkeysE : (keysE d).Nodup :=
    List.Nodup.of_append_left (List.Nodup.of_append_left
      (hWF.dids_nodup : ((keysE d ++ keysA d) ++ keysG d).Nodup))
  have hft : ∀ (kv : String × EntityRec), kv ∈ d.entity → kv.2.custom ≠ [] →
      kv.1 = k →
      (fromTypeOf (allImportedNodes d now) kv.1 = "DigitalResource"
        ∨ fromTypeOf (allImportedNodes d now) kv.1 = "AIModel") := by
    intro kv hm' hc _
    have hwf := hWF.ent_wf kv hm'
    have h1 : fromTypeOf (allImportedNodes d now) kv.1
        = jsOr kv.2.provType "DigitalResource" := by
      have := fromTypeOf_imported d now hWF kv.1 kv.2 (by
        rcases kv with ⟨a, b⟩
        exact hm')
      exact this
    rw [h1, jsOr_ne kv.2.provType "DigitalResource" hwf.provType_ne]
    exact hwf.custom_res hc
  rw [allImportedEdges, List.filter_append, filter_flatMap, filter_flatMap]
  rw [flatMap_eq_nil d.activity _
    (fun kv _ => activityRelEdges_filter_customPred now k _ kv)]
  rw [List.append_nil]
  rw [flatMap_single Prod.fst _ d.entity (k, er) hkeysE hm
    (fun kv hm' hne => by
      rw [entityRelEdges_filter_customPred now k _ kv
        (entityWF_customTypesOK (hWF.ent_wf kv hm')) (hft kv hm')]
      exact if_neg hne)]
  rw [entityRelEdges_filter_customPred now k _ (k, er)
    (entityWF_customTypesOK (hWF.ent_wf (k, er) hm)) (hft (k, er) hm)]
  rw [if_pos rfl]

theorem allEdges_filter_used (d : ProvDoc) (now : String) (hWF : DocWF d)
    (k : String) (ar : ActivityRec) (hm : (k, ar) ∈ d.activity)
    (kE : String → Bool) (hkE : ∀ t ∈ keysE d, kE t = true) :
    (allImportedEdges d now).filter
        (fun e => decide (e.type = "used" ∧ e.src = k ∧ kE e.tgt = true))
      = ar.used.map (fun t => ⟨k, t, "used", now, none, []⟩) := by
  have hkeysA : (keysA d).Nodup :=
    List.Nodup.of_append_right (List.Nodup.of_append_left
      (hWF.dids_nodup : ((keysE d ++ keysA d) ++ keysG d).Nodup))
  rw [allImportedEdges, List.filter_append, filter_flatMap, filter_flatMap]
  rw [flatMap_eq_nil d.entity _
    (fun kv hm' => entityRelEdges_filter_used now k kv kE
      (entityWF_customTypesOK (hWF.ent_wf kv hm')))]
  rw [show ([] : List EdgeRec) ++ d.activity.flatMap
    (fun a => (activityRelEdges now a).filter
      (fun e => decide (e.type = "used" ∧ e.src = k ∧ kE e.tgt = true)))
    = d.activity.flatMap (fun a => (activityRelEdges now a).filter
      (fun e => decide (e.type = "used" ∧ e.src = k ∧ kE e.tgt = true))) from rfl]
  rw [flatMap_single Prod.fst _ d.activity (k, ar) hkeysA hm
    (fun kv hm' hne => by
      rw [activityRelEdges_filter_used now k kv kE
        (fun t ht => hkE t ((hWF.act_wf kv hm').used_mem t ht))]
      exact if_neg hne)]
  rw [activityRelEdges_filter_used now k (k, ar) kE
    (fun t ht => hkE t ((hWF.act_wf (k, ar) hm).used_mem t ht))]
  rw [if_pos rfl]

theorem allEdges_filter_waw (d : ProvDoc) (now : String) (hWF : DocWF d)
    (k : String) (ar : ActivityRec) (hm : (k, ar) ∈ d.activity)
    (kG : String → Bool) (hkG : ∀ a ∈ keysG d, kG a = true) :
    (allImportedEdges d now).filter
        (fun e => decide (e.type = "wasAssociatedWith" ∧ e.src = k
          ∧ kG e.tgt = true))
      = optEdge now k "wasAssociatedWith" ar.wasAssociatedWith := by
  have hkeysA : (keysA d).Nodup :=
    List.Nodup.of_append_right (List.Nodup.of_append_left
      (hWF.dids_nodup : ((keysE d ++ keysA d) ++ keysG d).Nodup))
  rw [allImportedEdges, List.filter_append, filter_flatMap, filter_flatMap]
  rw [flatMap_eq_nil d.entity _
    (fun kv hm' => entityRelEdges_filter_waw now k kv kG
      (entityWF_customTypesOK (hWF.ent_wf kv hm')))]
  rw [show ([] : List EdgeRec) ++ d.activity.flatMap
    (fun a => (activityRelEdges now a).filter
      (fun e => decide (e.type = "wasAssociatedWith" ∧ e.src = k ∧ kG e.tgt = true)))
    = d.activity.flatMap (fun a => (activityRelEdges now a).filter
      (fun e => decide (e.type = "wasAssociatedWith" ∧ e.src = k ∧ kG e.tgt = true)))
    from rfl]
  rw [flatMap_single Prod.fst _ d.activity (k, ar) hkeysA hm
    (fun kv hm' hne => by
      rw [activityRelEdges_filter_waw now k kv kG
        (fun a ha => hkG a ((hWF.act_wf kv hm').waw_mem a ha).1)]
      exact if_neg hne)]
  rw [activityRelEdges_filter_waw now k (k, ar) kG
    (fun a ha => hkG a ((hWF.act_wf (k, ar) hm).waw_mem a ha).1)]
  rw [if_pos rfl]

theorem entityRecExt (a b : EntityRec)
    (h1 : a.provType = b.provType) (h2 : a.label = b.label)
    (h3 : a.generatedAtTime = b.generatedAtTime)
    (h4 : a.wasDerivedFrom = b.wasDerivedFrom)
    (h5 : a.wasGeneratedBy = b.wasGeneratedBy)
    (h6 : a.wasAttributedTo = b.wasAttributedTo)
    (h7 : a.custom = b.custom) : a = b := by
  cases a
  cases b
  congr

theorem activityRecExt (a b : ActivityRec)
    (h1 : a.startedAtTime = b.startedAtTime) (h2 : a.endedAtTime = b.endedAtTime)
    (h3 : a.label = b.label) (h4 : a.used = b.used)
    (h5 : a.wasAssociatedWith = b.wasAssociatedWith) : a = b := by
  cases a
  cases b
  congr

theorem foldl_pushPair_map :
    ∀ (es : List EdgeRec) (c : List (String × List String)),
      es.foldl (fun c e => pushPair c ("asset:" ++ e.type) e.tgt) c
        = pushFold c (es.map (fun e => ("asset:" ++ e.type, e.tgt))) := by
  intro es
  induction es with
  | nil => intro c; rfl
  | cons e rest ih =>
    intro c
    rw [List.foldl_cons, ih]
    rfl

theorem customEdges_pairs (now x : String) (cs : List (String × List String))
    (hrec : ∀ kt ∈ cs, kt.1 = "asset:" ++ String.mk (kt.1.data.drop 6)) :
    (customEdges now x cs).map (fun e => ("asset:" ++ e.type, e.tgt))
      = flatPairs cs := by
  rw [customEdges, List.map_flatMap, flatPairs]
  refine flatMap_congr' ?_
  intro kt hm
  rw [List.map_map]
  refine List.map_congr_left ?_
  intro t _
  show ("asset:" ++ String.mk (kt.1.data.drop 6), t) = (kt.1, t)
  rw [← hrec kt hm]

/-- The projection of the reimported graph is the original document. -/
theorem provOf_imported (d : ProvDoc) (now : String) (hWF : DocWF d) :
    provOf (allImportedNodes d now) (allImportedEdges d now) = d := by
  have hall : ((keysE d ++ keysA d) ++ keysG d).Nodup := hWF.dids_nodup
  have hEA : (keysE d ++ keysA d).Nodup := List.Nodup.of_append_left hall
  have hkeysE : (keysE d).Nodup := List.Nodup.of_append_left hEA
  have hkeysA : (keysA d).Nodup := List.Nodup.of_append_right hEA
  rw [provOf, baseDoc_spec d now hWF]
  have hkeysBactF : (d.activity.map
      (fun kv => (kv.1, activityBase0 kv.2))).map Prod.fst = keysA d := by
    rw [List.map_map]
    rfl
  have hkeysBentF : (d.entity.map
      (fun kv => (kv.1, entityBase0 kv.2))).map Prod.fst = keysE d := by
    rw [List.map_map]
    rfl
  have hkA : ∀ a ∈ keysA d,
      (((d.activity.map (fun kv => (kv.1, activityBase0 kv.2)))).lookup a).isSome
        = true := by
    intro a ha
    rw [lookup_isSome_iff, hkeysBactF]
    exact ha
  have hkG : ∀ a ∈ keysG d, ((d.agent.lookup a)).isSome = true := by
    intro a ha
    rw [lookup_isSome_iff]
    exact ha
  have hkE : ∀ t ∈ keysE d,
      (((d.entity.map (fun kv => (kv.1, entityBase0 kv.2)))).lookup t).isSome
        = true := by
    intro t ht
    rw [lookup_isSome_iff, hkeysBentF]
    exact ht
  have hAg : ((allImportedEdges d now).foldl
      (provAddEdge (allImportedNodes d now))
      ⟨d.entity.map (fun kv => (kv.1, entityBase0 kv.2)),
       d.activity.map (fun kv => (kv.1, activityBase0 kv.2)), d.agent⟩).agent
      = d.agent := by
    rw [foldl_provAddEdge_agent]
  have hKeysEnt : ((allImportedEdges d now).foldl
      (provAddEdge (allImportedNodes d now))
      ⟨d.entity.map (fun kv => (kv.1, entityBase0 kv.2)),
       d.activity.map (fun kv => (kv.1, activityBase0 kv.2)), d.agent⟩).entity.map
        Prod.fst = keysE d := by
    rw [foldl_provAddEdge_entity_keys]
    exact hkeysBentF
  have hKeysAct : ((allImportedEdges d now).foldl
      (provAddEdge (allImportedNodes d now))
      ⟨d.entity.map (fun kv => (kv.1, entityBase0 kv.2)),
       d.activity.map (fun kv => (kv.1, activityBase0 kv.2)), d.agent⟩).activity.map
        Prod.fst = keysA d := by
    rw [foldl_provAddEdge_activity_keys]
    exact hkeysBactF
  have hlooksE : ∀ x, ((allImportedEdges d now).foldl
      (provAddEdge (allImportedNodes d now))
      ⟨d.entity.map (fun kv => (kv.1, entityBase0 kv.2)),
       d.activity.map (fun kv => (kv.1, activityBase0 kv.2)), d.agent⟩).entity.lookup
        x = d.entity.lookup x := by
    intro x
    by_cases hx : x ∈ keysE d
    · obtain ⟨kv, hmkv, hfst⟩ := List.mem_map.mp hx
      obtain ⟨k0, er⟩ := kv
      rw [show Prod.fst (k0, er) = k0 from rfl] at hfst
      subst hfst
      have hwf := hWF.ent_wf (k0, er) hmkv
      have hlk : d.entity.lookup k0 = some er :=
        lookup_of_mem_nodup hkeysE hmkv
      have hbaseLk : ((d.entity.map
          (fun kv => (kv.1, entityBase0 kv.2)))).lookup k0
          = some (entityBase0 er) := by
        rw [lookup_map_pair (fun kv => entityBase0 kv.2) k0 d.entity, hlk]
        rfl
      rw [foldl_provAddEdge_entity_lookup (allImportedNodes d now) k0
        (fun a => (((d.activity.map
          (fun kv => (kv.1, activityBase0 kv.2)))).lookup a).isSome)
        (fun a => ((d.agent.lookup a)).isSome)
        (allImportedEdges d now)
        ⟨d.entity.map (fun kv => (kv.1, entityBase0 kv.2)),
         d.activity.map (fun kv => (kv.1, activityBase0 kv.2)), d.agent⟩
        (entityBase0 er) (fun a => rfl) (fun a => rfl) hbaseLk, hlk]
      refine congrArg some (entityRecExt _ _ ?_ ?_ ?_ ?_ ?_ ?_ ?_)
      · rw [effectFold_provType]
        rfl
      · rw [effectFold_label]
        rfl
      · rw [effectFold_generatedAtTime]
        rfl
      · rw [effectFold_wdf, allEdges_filter_deriv d now hWF k0 er hmkv]
        rw [List.map_map]
        show [] ++ er.wasDerivedFrom.map (fun s => s) = er.wasDerivedFrom
        simp
      · rw [effectFold_wgb, allEdges_filter_wgb d now hWF k0 er hmkv _ hkA]
        cases er.wasGeneratedBy with
        | none => rfl
        | some a => rfl
      · rw [effectFold_wat, allEdges_filter_wat d now hWF k0 er hmkv _ hkG]
        cases er.wasAttributedTo with
        | none => rfl
        | some a => rfl
      · rw [effectFold_custom, allEdges_filter_custom d now hWF k0 er hmkv]
        show (customEdges now k0 er.custom).foldl
          (fun c e => pushPair c ("asset:" ++ e.type) e.tgt) [] = er.custom
        rw [foldl_pushPair_map, customEdges_pairs now k0 er.custom
          (fun kt hm => (hwf.custom_wf kt hm).2.2.2.2.2.2.2.1)]
        have := pushFold_rebuild er.custom []
          (by
            show ((([] : List (String × List String)) ++ er.custom).map
              Prod.fst).Nodup
            exact hwf.custom_keys_nodup)
          (fun kt hm => (hwf.custom_wf kt hm).2.2.2.2.2.2.2.2.1)
        rw [this]
        rfl
    · rw [(lookup_none_iff' _ x).mpr (by rw [hKeysEnt]; exact hx),
        (lookup_none_iff' _ x).mpr (fun hmem => hx hmem)]
  have hlooksA : ∀ x, ((allImportedEdges d now).foldl
      (provAddEdge (allImportedNodes d now))
      ⟨d.entity.map (fun kv => (kv.1, entityBase0 kv.2)),
       d.activity.map (fun kv => (kv.1, activityBase0 kv.2)), d.agent⟩).activity.lookup
        x = d.activity.lookup x := by
    intro x
    by_cases hx : x ∈ keysA d
    · obtain ⟨kv, hmkv, hfst⟩ := List.mem_map.mp hx
      obtain ⟨k0, ar⟩ := kv
      rw [show Prod.fst (k0, ar) = k0 from rfl] at hfst
      subst hfst
      have hlk : d.activity.lookup k0 = some ar :=
        lookup_of_mem_nodup hkeysA hmkv
      have hbaseLk : ((d.activity.map
          (fun kv => (kv.1, activityBase0 kv.2)))).lookup k0
          = some (activityBase0 ar) := by
        rw [lookup_map_pair (fun kv => activityBase0 kv.2) k0 d.activity, hlk]
        rfl
      rw [foldl_provAddEdge_activity_lookup (allImportedNodes d now) k0
        (fun a => (((d.entity.map
          (fun kv => (kv.1, entityBase0 kv.2)))).lookup a).isSome)
        (fun a => ((d.agent.lookup a)).isSome)
        (allImportedEdges d now)
        ⟨d.entity.map (fun kv => (kv.1, entityBase0 kv.2)),
         d.activity.map (fun kv => (kv.1, activityBase0 kv.2)), d.agent⟩
        (activityBase0 ar) (fun a => rfl) (fun a => rfl) hbaseLk, hlk]
      refine congrArg some (activityRecExt _ _ ?_ ?_ ?_ ?_ ?_)
      · rw [effectFoldA_sat]
        rfl
      · rw [effectFoldA_eat]
        rfl
      · rw [effectFoldA_label]
        rfl
      · rw [effectFoldA_used, allEdges_filter_used d now hWF k0 ar hmkv _ hkE]
        rw [List.map_map]
        show [] ++ ar.used.map (fun t => t) = ar.used
        simp
      · rw [effectFoldA_waw, allEdges_filter_waw d now hWF k0 ar hmkv _ hkG]
        cases ar.wasAssociatedWith with
        | none => rfl
        | some a => rfl
    · rw [(lookup_none_iff' _ x).mpr (by rw [hKeysAct]; exact hx),
        (lookup_none_iff' _ x).mpr (fun hmem => hx hmem)]
  have hEnt := assoc_ext _ d.entity (hKeysEnt.trans rfl)
    (by rw [hKeysEnt]; exact hkeysE) hlooksE
  have hAct := assoc_ext _ d.activity (hKeysAct.trans rfl)
    (by rw [hKeysAct]; exact hkeysA) hlooksA
  have hfinal : ∀ (dd : ProvDoc), dd.entity = d.entity →
      dd.activity = d.activity → dd.agent = d.agent → dd = d := by
    intro dd h1 h2 h3
    calc dd = ⟨dd.entity, dd.activity, dd.agent⟩ := rfl
      _ = ⟨d.entity, d.activity, d.agent⟩ := by rw [h1, h2, h3]
      _ = d := rfl
  exact hfinal _ hEnt hAct hAg

/-! ### Well-formedness of the projection of a well-formed graph -/

/-- Graph-level invariants maintained by the `ResourceGraph` mutators:
unique non-empty node ids with non-empty type / timestamps, edges between
existing nodes with declared relationship types, and at most one edge per
`(source, target, type)`. -/
def graphWF (nodes : List NodeRec) (edges : List EdgeRec) : Prop :=
  (nodes.map NodeRec.did).Nodup
  ∧ (∀ n ∈ nodes, ¬ n.did = "" ∧ ¬ n.type = "" ∧ ¬ n.created = "" ∧ ¬ n.updated = "")
  ∧ (∀ e ∈ edges, e.type ∈ RELATIONSHIP_TYPES
      ∧ e.src ∈ nodes.map NodeRec.did ∧ e.tgt ∈ nodes.map NodeRec.did)
  ∧ edgesUnique edges

/-- At most one derivation-family edge per `(source, target)` pair — the
side condition the round trip needs. -/
def derivUnique (edges : List EdgeRec) : Prop :=
  ((edges.filter (fun e => decide (e.type ∈ derivFamily))).map
    (fun e => (e.src, e.tgt))).Nodup

def kAOf (nodes : List NodeRec) : String → Bool :=
  fun x => ((nodes.foldl provAddNode ⟨[], [], []⟩).activity.lookup x).isSome

def kGOf (nodes : List NodeRec) : String → Bool :=
  fun x => ((nodes.foldl provAddNode ⟨[], [], []⟩).agent.lookup x).isSome

def kEOf (nodes : List NodeRec) : String → Bool :=
  fun x => ((nodes.foldl provAddNode ⟨[], [], []⟩).entity.lookup x).isSome

theorem jsOr_ne_empty (s d : String) (h : ¬ d = "") : ¬ jsOr s d = "" := by
  rw [jsOr]
  by_cases hs : s = ""
  · rw [if_pos hs]
    exact h
  · rw [if_neg hs]
    exact hs

theorem perm_partition3 {α : Type} (p1 p2 p3 : α → Bool)
    (h : ∀ a, (p1 a = true ∧ p2 a = false ∧ p3 a = false)
      ∨ (p1 a = false ∧ p2 a = true ∧ p3 a = false)
      ∨ (p1 a = false ∧ p2 a = false ∧ p3 a = true)) :
    ∀ (l : List α), List.Perm ((l.filter p1 ++ l.filter p2) ++ l.filter p3) l := by
  intro l
  induction l with
  | nil => exact List.Perm.refl _
  | cons a rest ih =>
    rcases h a with ⟨h1, h2, h3⟩ | ⟨h1, h2, h3⟩ | ⟨h1, h2, h3⟩
    · rw [List.filter_cons_of_pos h1, List.filter_cons_of_neg (by rw [h2]; exact Bool.noConfusion),
        List.filter_cons_of_neg (by rw [h3]; exact Bool.noConfusion)]
      exact (List.Perm.cons a ih)
    · rw [List.filter_cons_of_neg (by rw [h1]; exact Bool.noConfusion),
        List.filter_cons_of_pos h2,
        List.filter_cons_of_neg (by rw [h3]; exact Bool.noConfusion)]
      refine List.Perm.trans
        (List.Perm.append_right (rest.filter p3) List.perm_middle) ?_
      exact List.Perm.cons a ih
    · rw [List.filter_cons_of_neg (by rw [h1]; exact Bool.noConfusion),
        List.filter_cons_of_neg (by rw [h2]; exact Bool.noConfusion),
        List.filter_cons_of_pos h3]
      refine List.Perm.trans ?_ (List.Perm.cons a ih)
      exact List.perm_middle

theorem node_cats (n : NodeRec) :
    (entityCat n = true ∧ decide (n.type = "Activity") = false
      ∧ (decide (n.type ∈ agentTypes) && ¬ n.type = "Activity") = false)
    ∨ (entityCat n = false ∧ decide (n.type = "Activity") = true
      ∧ (decide (n.type ∈ agentTypes) && ¬ n.type = "Activity") = false)
    ∨ (entityCat n = false ∧ decide (n.type = "Activity") = false
      ∧ (decide (n.type ∈ agentTypes) && ¬ n.type = "Activity") = true) := by
  by_cases hact : n.type = "Activity"
  · refine Or.inr (Or.inl ⟨?_, decide_eq_true hact, ?_⟩)
    · exact decide_eq_false (fun hh => hh.1 hact)
    · rw [Bool.and_eq_false_iff]
      exact Or.inr (decide_eq_false (fun hh => hh hact))
  · by_cases hag : n.type ∈ agentTypes
    · refine Or.inr (Or.inr ⟨?_, decide_eq_false hact, ?_⟩)
      · exact decide_eq_false (fun hh => hh.2 hag)
      · rw [Bool.and_eq_true]
        exact ⟨decide_eq_true hag, decide_eq_true hact⟩
    · refine Or.inl ⟨decide_eq_true ⟨hact, hag⟩, decide_eq_false hact, ?_⟩
      rw [Bool.and_eq_false_iff]
      exact Or.inl (decide_eq_false hag)

/-- The id lists of the three categories of `provOf`'s base document
partition the node ids. -/
theorem provOf_allDids_perm (nodes : List NodeRec) (edges : List EdgeRec) :
    List.Perm (allDids (provOf nodes edges)) (nodes.map NodeRec.did) := by
  have hkE : keysE (provOf nodes edges)
      = (nodes.filter entityCat).map NodeRec.did := by
    rw [keysE, provOf, foldl_provAddEdge_entity_keys, provNodes_spec]
    simp only [List.nil_append, List.map_map]
    rfl
  have hkA : keysA (provOf nodes edges)
      = (nodes.filter (fun n => n.type = "Activity")).map NodeRec.did := by
    rw [keysA, provOf, foldl_provAddEdge_activity_keys, provNodes_spec]
    simp only [List.nil_append, List.map_map]
    rfl
  have hkG : keysG (provOf nodes edges)
      = (nodes.filter (fun n => decide (n.type ∈ agentTypes)
          && ¬ n.type = "Activity")).map NodeRec.did := by
    rw [keysG, provOf, foldl_provAddEdge_agent, provNodes_spec]
    simp only [List.nil_append, List.map_map]
    rfl
  rw [allDids, hkE, hkA, hkG, ← List.map_append, ← List.map_append]
  exact List.Perm.map NodeRec.did (perm_partition3 _ _ _ node_cats nodes)

theorem provBase_entity (nodes : List NodeRec) :
    (nodes.foldl provAddNode ⟨[], [], []⟩).entity
      = (nodes.filter entityCat).map (fun n => (n.did, entityBase n)) := by
  rw [provNodes_spec]
  rfl

theorem provBase_activity (nodes : List NodeRec) :
    (nodes.foldl provAddNode ⟨[], [], []⟩).activity
      = (nodes.filter (fun n => n.type = "Activity")).map
          (fun n => (n.did, activityBase n)) := by
  rw [provNodes_spec]
  rfl

theorem provBase_agent (nodes : List NodeRec) :
    (nodes.foldl provAddNode ⟨[], [], []⟩).agent
      = (nodes.filter (fun n => decide (n.type ∈ agentTypes)
          && ¬ n.type = "Activity")).map (fun n => (n.did, agentBase n)) := by
  rw [provNodes_spec]
  rfl

theorem map_fst_pair {β : Type} (f : NodeRec → β) (l : List NodeRec) :
    (l.map (fun n => (n.did, f n))).map Prod.fst = l.map NodeRec.did := by
  rw [List.map_map]
  rfl

theorem kAOf_iff (nodes : List NodeRec) (x : String) :
    kAOf nodes x = true
      ↔ x ∈ (nodes.filter (fun n => n.type = "Activity")).map NodeRec.did := by
  rw [kAOf, lookup_isSome_iff, provBase_activity, map_fst_pair]

theorem kGOf_iff (nodes : List NodeRec) (x : String) :
    kGOf nodes x = true
      ↔ x ∈ (nodes.filter (fun n => decide (n.type ∈ agentTypes)
          && ¬ n.type = "Activity")).map NodeRec.did := by
  rw [kGOf, lookup_isSome_iff, provBase_agent, map_fst_pair]

theorem kEOf_iff (nodes : List NodeRec) (x : String) :
    kEOf nodes x = true
      ↔ x ∈ (nodes.filter entityCat).map NodeRec.did := by
  rw [kEOf, lookup_isSome_iff, provBase_entity, map_fst_pair]

theorem keysE_provOf (nodes : List NodeRec) (edges : List EdgeRec) :
    keysE (provOf nodes edges) = (nodes.filter entityCat).map NodeRec.did := by
  rw [keysE, provOf, foldl_provAddEdge_entity_keys, provBase_entity, map_fst_pair]

theorem keysA_provOf (nodes : List NodeRec) (edges : List EdgeRec) :
    keysA (provOf nodes edges)
      = (nodes.filter (fun n => n.type = "Activity")).map NodeRec.did := by
  rw [keysA, provOf, foldl_provAddEdge_activity_keys, provBase_activity,
    map_fst_pair]

theorem keysG_provOf (nodes : List NodeRec) (edges : List EdgeRec) :
    keysG (provOf nodes edges)
      = (nodes.filter (fun n => decide (n.type ∈ agentTypes)
          && ¬ n.type = "Activity")).map NodeRec.did := by
  rw [keysG, provOf, foldl_provAddEdge_agent, provBase_agent, map_fst_pair]

/-- Every entity entry of the projection is the edge fold over the base
record of the unique node with that id. -/
theorem provOf_entity_mem (nodes : List NodeRec) (edges : List EdgeRec)
    (hnd : (nodes.map NodeRec.did).Nodup) (k : String) (er : EntityRec)
    (hm : (k, er) ∈ (provOf nodes edges).entity) :
    ∃ n ∈ nodes, n.did = k ∧ entityCat n = true
      ∧ er = edges.foldl (entityEffect (kAOf nodes) (kGOf nodes) nodes k)
          (entityBase n) := by
  have hkeys : ((provOf nodes edges).entity.map Prod.fst).Nodup := by
    show (keysE (provOf nodes edges)).Nodup
    rw [keysE_provOf]
    exact List.Nodup.sublist (List.Sublist.map _ (List.filter_sublist nodes)) hnd
  have hlook : (provOf nodes edges).entity.lookup k = some er :=
    lookup_of_mem_nodup hkeys hm
  have hkmem : k ∈ (nodes.filter entityCat).map NodeRec.did := by
    have : k ∈ keysE (provOf nodes edges) :=
      List.mem_map.mpr ⟨(k, er), hm, rfl⟩
    rw [keysE_provOf] at this
    exact this
  obtain ⟨n, hnf, hnk⟩ := List.mem_map.mp hkmem
  have hnn : n ∈ nodes := List.mem_of_mem_filter hnf
  have hcat : entityCat n = true := List.of_mem_filter hnf
  refine ⟨n, hnn, hnk, hcat, ?_⟩
  have hbkeys : (((nodes.foldl provAddNode ⟨[], [], []⟩).entity).map
      Prod.fst).Nodup := by
    rw [provBase_entity, map_fst_pair]
    exact List.Nodup.sublist (List.Sublist.map _ (List.filter_sublist nodes)) hnd
  have hbmem : (k, entityBase n)
      ∈ (nodes.foldl provAddNode ⟨[], [], []⟩).entity := by
    rw [provBase_entity]
    exact List.mem_map.mpr ⟨n, hnf, by rw [hnk]⟩
  have hbase : (nodes.foldl provAddNode ⟨[], [], []⟩).entity.lookup k
      = some (entityBase n) := lookup_of_mem_nodup hbkeys hbmem
  have hfold := foldl_provAddEdge_entity_lookup nodes k (kAOf nodes)
    (kGOf nodes) edges (nodes.foldl provAddNode ⟨[], [], []⟩) (entityBase n)
    (fun _ => rfl) (fun _ => rfl) hbase
  have : some er = some (edges.foldl
      (entityEffect (kAOf nodes) (kGOf nodes) nodes k) (entityBase n)) :=
    hlook.symm.trans hfold
  exact Option.some.inj this

/-- Every activity entry of the projection is the edge fold over the base
record of the unique node with that id. -/
theorem provOf_activity_mem (nodes : List NodeRec) (edges : List EdgeRec)
    (hnd : (nodes.map NodeRec.did).Nodup) (k : String) (ar : ActivityRec)
    (hm : (k, ar) ∈ (provOf nodes edges).activity) :
    ∃ n ∈ nodes, n.did = k ∧ n.type = "Activity"
      ∧ ar = edges.foldl (activityEffect (kEOf nodes) (kGOf nodes) k)
          (activityBase n) := by
  have hkeys : ((provOf nodes edges).activity.map Prod.fst).Nodup := by
    show (keysA (provOf nodes edges)).Nodup
    rw [keysA_provOf]
    exact List.Nodup.sublist (List.Sublist.map _ (List.filter_sublist nodes)) hnd
  have hlook : (provOf nodes edges).activity.lookup k = some ar :=
    lookup_of_mem_nodup hkeys hm
  have hkmem : k ∈ (nodes.filter (fun n => n.type = "Activity")).map
      NodeRec.did := by
    have : k ∈ keysA (provOf nodes edges) :=
      List.mem_map.mpr ⟨(k, ar), hm, rfl⟩
    rw [keysA_provOf] at this
    exact this
  obtain ⟨n, hnf, hnk⟩ := List.mem_map.mp hkmem
  have hnn : n ∈ nodes := List.mem_of_mem_filter hnf
  have hcd := (List.mem_filter.mp hnf).2
  have hcat : n.type = "Activity" := of_decide_eq_true hcd
  refine ⟨n, hnn, hnk, hcat, ?_⟩
  have hbkeys : (((nodes.foldl provAddNode ⟨[], [], []⟩).activity).map
      Prod.fst).Nodup := by
    rw [provBase_activity, map_fst_pair]
    exact List.Nodup.sublist (List.Sublist.map _ (List.filter_sublist nodes)) hnd
  have hbmem : (k, activityBase n)
      ∈ (nodes.foldl provAddNode ⟨[], [], []⟩).activity := by
    rw [provBase_activity]
    exact List.mem_map.mpr ⟨n, hnf, by rw [hnk]⟩
  have hbase : (nodes.foldl provAddNode ⟨[], [], []⟩).activity.lookup k
      = some (activityBase n) := lookup_of_mem_nodup hbkeys hbmem
  have hfold := foldl_provAddEdge_activity_lookup nodes k (kEOf nodes)
    (kGOf nodes) edges (nodes.foldl provAddNode ⟨[], [], []⟩) (activityBase n)
    (fun _ => rfl) (fun _ => rfl) hbase
  have : some ar = some (edges.foldl
      (activityEffect (kEOf nodes) (kGOf nodes) k) (activityBase n)) :=
    hlook.symm.trans hfold
  exact Option.some.inj this

/-- Every agent entry of the projection is the base record of a node of an
agent type. -/
theorem provOf_agent_mem (nodes : List NodeRec) (edges : List EdgeRec)
    (k : String) (gr : AgentRec)
    (hm : (k, gr) ∈ (provOf nodes edges).agent) :
    ∃ n ∈ nodes, n.did = k ∧ n.type ∈ agentTypes ∧ gr = agentBase n := by
  have : (provOf nodes edges).agent
      = (nodes.filter (fun n => decide (n.type ∈ agentTypes)
          && ¬ n.type = "Activity")).map (fun n => (n.did, agentBase n)) := by
    rw [provOf, foldl_provAddEdge_agent, provBase_agent]
  rw [this] at hm
  obtain ⟨n, hnf, hnk⟩ := List.mem_map.mp hm
  rw [Prod.mk.injEq] at hnk
  have hag : n.type ∈ agentTypes := by
    have := List.of_mem_filter hnf
    rw [Bool.and_eq_true] at this
    exact of_decide_eq_true this.1
  exact ⟨n, List.mem_of_mem_filter hnf, hnk.1, hag, hnk.2.symm⟩

theorem jsOrO_ne_empty (o : Option String) (d : String) (h : ¬ d = "") :
    ¬ jsOrO o d = "" := by
  cases o with
  | none => exact h
  | some s => exact jsOr_ne_empty s d h

theorem isPrefixOf_append_self {α : Type} [BEq α] [LawfulBEq α] :
    ∀ (l t : List α), l.isPrefixOf (l ++ t) = true := by
  intro l
  induction l with
  | nil => intro t; rw [List.isPrefixOf]
  | cons a as ih =>
    intro t
    show (a == a && as.isPrefixOf (as ++ t)) = true
    rw [beq_self_eq_true, Bool.true_and]
    exact ih t

theorem asset_key_inj (t1 t2 : String)
    (h : "asset:" ++ t1 = "asset:" ++ t2) : t1 = t2 := by
  have hd : "asset:".data ++ t1.data = "asset:".data ++ t2.data :=
    congrArg String.data h
  exact String.ext (List.append_cancel_left hd)

/-- Sources of a list of derivation pairs with a common target are distinct
when the pairs are. -/
theorem nodup_src_of_pairs (k : String) :
    ∀ (l : List EdgeRec),
      ((l.map (fun e => (e.src, e.tgt))).Nodup) → (∀ e ∈ l, e.tgt = k) →
      (l.map (fun e => e.src)).Nodup := by
  intro l
  induction l with
  | nil => intro _ _; exact List.nodup_nil
  | cons e es ih =>
    intro hnd ht
    rw [List.map_cons, List.nodup_cons] at hnd ⊢
    refine ⟨?_, ih hnd.2 (fun e2 hm => ht e2 (List.mem_cons.mpr (Or.inr hm)))⟩
    intro hmem
    obtain ⟨e2, hm2, hs2⟩ := List.mem_map.mp hmem
    refine hnd.1 (List.mem_map.mpr ⟨e2, hm2, ?_⟩)
    rw [Prod.mk.injEq, hs2,
      ht e2 (List.mem_cons.mpr (Or.inr hm2)),
      ht e (List.mem_cons.mpr (Or.inl rfl))]
    exact ⟨rfl, rfl⟩

/-- Targets of edges with a common source and a common type are distinct when
the full edge keys are. -/
theorem nodup_tgt_of_edgeKeys (k : String) :
    ∀ (l : List EdgeRec),
      ((l.map edgeKey).Nodup) → (∀ e ∈ l, e.src = k) →
      (∀ e1 ∈ l, ∀ e2 ∈ l, e1.type = e2.type) →
      (l.map (fun e => e.tgt)).Nodup := by
  intro l
  induction l with
  | nil => intro _ _ _; exact List.nodup_nil
  | cons e es ih =>
    intro hnd hs hty
    rw [List.map_cons, List.nodup_cons] at hnd ⊢
    refine ⟨?_, ih hnd.2 (fun e2 hm => hs e2 (List.mem_cons.mpr (Or.inr hm)))
      (fun e1 h1 e2 h2 => hty e1 (List.mem_cons.mpr (Or.inr h1))
        e2 (List.mem_cons.mpr (Or.inr h2)))⟩
    intro hmem
    obtain ⟨e2, hm2, ht2⟩ := List.mem_map.mp hmem
    refine hnd.1 (List.mem_map.mpr ⟨e2, hm2, ?_⟩)
    rw [edgeKey, edgeKey, Prod.mk.injEq, Prod.mk.injEq, ht2,
      hs e2 (List.mem_cons.mpr (Or.inr hm2)),
      hs e (List.mem_cons.mpr (Or.inl rfl)),
      hty e2 (List.mem_cons.mpr (Or.inr hm2)) e (List.mem_cons.mpr (Or.inl rfl))]
    exact ⟨rfl, rfl, rfl⟩

/-- `find?` on a duplicate-free node list returns the member itself. -/
theorem find?_nodes_self :
    ∀ (nodes : List NodeRec), (nodes.map NodeRec.did).Nodup →
      ∀ n ∈ nodes, nodes.find? (fun m => m.did = n.did) = some n := by
  intro nodes
  induction nodes with
  | nil => intro _ n hm; exact absurd hm (List.not_mem_nil _)
  | cons m ms ih =>
    intro hnd n hm
    rw [List.map_cons, List.nodup_cons] at hnd
    rcases List.mem_cons.mp hm with heq | hm'
    · subst heq
      have hp : (fun (m : NodeRec) => decide (m.did = n.did)) n = true :=
        decide_eq_true rfl
      exact List.find?_cons_of_pos ms hp
    · have hne : ¬ m.did = n.did := by
        intro hh
        exact hnd.1 (hh ▸ List.mem_map.mpr ⟨n, hm', rfl⟩)
      have hp : ¬ (fun (m : NodeRec) => decide (m.did = n.did)) m = true :=
        fun hh => hne (of_decide_eq_true hh)
      rw [List.find?_cons_of_neg ms hp]
      exact ih hnd.2 n hm'

/-- A well-formed graph projects to a well-formed PROV document. -/
theorem docWF_provOf (nodes : List NodeRec) (edges : List EdgeRec)
    (hWF : graphWF nodes edges) (hDU : derivUnique edges) :
    DocWF (provOf nodes edges) := by
  obtain ⟨hnd, hN, hE, hU⟩ := hWF
  have hDU' : ((edges.filter (fun e => decide (e.type ∈ derivFamily))).map
      (fun e => (e.src, e.tgt))).Nodup := hDU
  have hU' : (edges.map edgeKey).Nodup := hU
  have hmemDid : ∀ x, x ∈ nodes.map NodeRec.did
      → x ∈ allDids (provOf nodes edges) :=
    fun x hx => ((provOf_allDids_perm nodes edges).mem_iff).mpr hx
  have hdidne : ∀ x, x ∈ nodes.map NodeRec.did → ¬ x = "" := by
    intro x hx
    obtain ⟨n, hn, hxd⟩ := List.mem_map.mp hx
    rw [← hxd]
    exact (hN n hn).1
  have hsubA : ∀ x, x ∈ (nodes.filter (fun n => n.type = "Activity")).map
      NodeRec.did → x ∈ nodes.map NodeRec.did := by
    intro x hx
    obtain ⟨m, hmf, hmx⟩ := List.mem_map.mp hx
    exact List.mem_map.mpr ⟨m, List.mem_of_mem_filter hmf, hmx⟩
  have hsubG : ∀ x, x ∈ (nodes.filter (fun n => decide (n.type ∈ agentTypes)
      && ¬ n.type = "Activity")).map NodeRec.did
      → x ∈ nodes.map NodeRec.did := by
    intro x hx
    obtain ⟨m, hmf, hmx⟩ := List.mem_map.mp hx
    exact List.mem_map.mpr ⟨m, List.mem_of_mem_filter hmf, hmx⟩
  refine ⟨?_, ?_, ?_, ?_, ?_⟩
  · exact ((provOf_allDids_perm nodes edges).nodup_iff).mpr hnd
  · intro k hk
    exact hdidne k (((provOf_allDids_perm nodes edges).mem_iff).mp hk)
  · intro kv hm
    obtain ⟨k, er⟩ := kv
    obtain ⟨n, hnn, hnk, hcat, her⟩ := provOf_entity_mem nodes edges hnd k er hm
    have hcat' := of_decide_eq_true hcat
    subst her
    show EntityWF (provOf nodes edges)
      (edges.foldl (entityEffect (kAOf nodes) (kGOf nodes) nodes k)
        (entityBase n))
    refine ⟨?_, ?_, ?_, ?_, ?_, ?_, ?_, ?_, ?_, ?_, ?_, ?_⟩
    · rw [effectFold_provType]
      exact (hN n hnn).2.1
    · rw [effectFold_provType]
      exact hcat'.1
    · rw [effectFold_provType]
      exact hcat'.2
    · rw [effectFold_label]
      exact jsOr_ne_empty n.label n.did (hN n hnn).1
    · rw [effectFold_generatedAtTime]
      exact (hN n hnn).2.2.1
    · rw [effectFold_wdf]
      intro s hs
      rcases List.mem_append.mp hs with h0 | h1
      · exact absurd h0 (List.not_mem_nil s)
      · obtain ⟨e, hef, hes⟩ := List.mem_map.mp h1
        rw [← hes]
        exact hmemDid e.src (hE e (List.mem_of_mem_filter hef)).2.1
    · rw [effectFold_wdf]
      show ((edges.filter (fun e => decide (e.type ∈ derivFamily
          ∧ e.tgt = k))).map (fun e => e.src)).Nodup
      have hsub : edges.filter (fun e => decide (e.type ∈ derivFamily
            ∧ e.tgt = k))
          = (edges.filter (fun e => decide (e.type ∈ derivFamily))).filter
              (fun e => decide (e.tgt = k)) := by
        rw [List.filter_filter]
        refine List.filter_congr ?_
        intro e _
        rw [Bool.decide_and, Bool.and_comm]
      have hpair : ((edges.filter (fun e => decide (e.type ∈ derivFamily
          ∧ e.tgt = k))).map (fun e => (e.src, e.tgt))).Nodup := by
        rw [hsub]
        exact List.Nodup.sublist
          (List.Sublist.map _ (List.filter_sublist _)) hDU'
      refine nodup_src_of_pairs k _ hpair ?_
      intro e he
      exact (of_decide_eq_true (List.mem_filter.mp he).2).2
    · rw [effectFold_wgb]
      intro a ha
      rcases lastWrite_eq_some _ _ _ ha with hmem | hinit
      · obtain ⟨e, hef, het⟩ := List.mem_map.mp hmem
        have hp := of_decide_eq_true (List.mem_filter.mp hef).2
        have htA := (kAOf_iff nodes e.tgt).mp hp.2.2
        constructor
        · rw [← het, keysA_provOf]
          exact htA
        · rw [← het]
          exact hdidne e.tgt (hsubA e.tgt htA)
      · exact Option.noConfusion hinit
    · rw [effectFold_wat]
      intro a ha
      rcases lastWrite_eq_some _ _ _ ha with hmem | hinit
      · obtain ⟨e, hef, het⟩ := List.mem_map.mp hmem
        have hp := of_decide_eq_true (List.mem_filter.mp hef).2
        have htG := (kGOf_iff nodes e.tgt).mp hp.2.2
        constructor
        · rw [← het, keysG_provOf]
          exact htG
        · rw [← het]
          exact hdidne e.tgt (hsubG e.tgt htG)
      · exact Option.noConfusion hinit
    · rw [effectFold_custom, foldl_pushPair_map]
      exact pushFold_keys_nodup _ _ List.nodup_nil
    · rw [effectFold_custom, foldl_pushPair_map]
      intro kt hm
      have hknd : ((pushFold (entityBase n).custom
          ((edges.filter (customPred nodes k)).map
            (fun e => ("asset:" ++ e.type, e.tgt)))).map Prod.fst).Nodup :=
        pushFold_keys_nodup _ _ List.nodup_nil
      have hkmem : kt.1 ∈ (pushFold (entityBase n).custom
          ((edges.filter (customPred nodes k)).map
            (fun e => ("asset:" ++ e.type, e.tgt)))).map Prod.fst :=
        List.mem_map.mpr ⟨kt, hm, rfl⟩
      have hkp : kt.1 ∈ ((edges.filter (customPred nodes k)).map
          (fun e => ("asset:" ++ e.type, e.tgt))).map Prod.fst := by
        rcases pushFold_keys_sub _ _ _ hkmem with h0 | h1
        · exact absurd h0 (List.not_mem_nil _)
        · exact h1
      obtain ⟨p0, hp0, hp0k⟩ := List.mem_map.mp hkp
      obtain ⟨e0, he0, he0p⟩ := List.mem_map.mp hp0
      have hkey0 : kt.1 = "asset:" ++ e0.type := by
        rw [← hp0k, ← he0p]
      have he0m : e0 ∈ edges := List.mem_of_mem_filter he0
      have hc0 := (customPred_spec nodes k e0).mp (List.mem_filter.mp he0).2
      have hdata : kt.1.data = "asset:".data ++ e0.type.data := by
        rw [hkey0]
        rfl
      have hdrop : kt.1.data.drop 6 = e0.type.data := by
        rw [hdata]
        exact List.drop_left "asset:".data e0.type.data
      have hmkdrop : String.mk (kt.1.data.drop 6) = e0.type := by
        rw [hdrop]
      have hlook : (pushFold (entityBase n).custom
          ((edges.filter (customPred nodes k)).map
            (fun e => ("asset:" ++ e.type, e.tgt)))).lookup kt.1
          = some kt.2 := lookup_of_mem_nodup hknd hm
      have hnew := pushFold_lookup_new
        ((edges.filter (customPred nodes k)).map
          (fun e => ("asset:" ++ e.type, e.tgt)))
        (entityBase n).custom kt.1 rfl hkp
      have hval : kt.2 = (((edges.filter (customPred nodes k)).map
          (fun e => ("asset:" ++ e.type, e.tgt))).filter
            (fun p => p.1 == kt.1)).map Prod.snd :=
        Option.some.inj (hlook.symm.trans hnew)
      have hfilt : ((edges.filter (customPred nodes k)).map
          (fun e => ("asset:" ++ e.type, e.tgt))).filter
            (fun p => p.1 == kt.1)
          = ((edges.filter (customPred nodes k)).filter
              (fun e => ("asset:" ++ e.type) == kt.1)).map
              (fun e => ("asset:" ++ e.type, e.tgt)) :=
        List.filter_map _ _
      have hE'sub : List.Sublist ((edges.filter (customPred nodes k)).filter
          (fun e => ("asset:" ++ e.type) == kt.1)) edges :=
        List.Sublist.trans (List.filter_sublist _) (List.filter_sublist _)
      have hE'keys : (((edges.filter (customPred nodes k)).filter
          (fun e => ("asset:" ++ e.type) == kt.1)).map edgeKey).Nodup :=
        List.Nodup.sublist (List.Sublist.map _ hE'sub) hU'
      have hE'src : ∀ e ∈ (edges.filter (customPred nodes k)).filter
          (fun e => ("asset:" ++ e.type) == kt.1), e.src = k := by
        intro e he
        exact ((customPred_spec nodes k e).mp
          (List.mem_filter.mp (List.mem_of_mem_filter he)).2).2.2.2.2.2.2
      have hE'ty : ∀ e1 ∈ (edges.filter (customPred nodes k)).filter
          (fun e => ("asset:" ++ e.type) == kt.1),
          ∀ e2 ∈ (edges.filter (customPred nodes k)).filter
            (fun e => ("asset:" ++ e.type) == kt.1), e1.type = e2.type := by
        intro e1 h1 e2 h2
        have hk1 : (("asset:" ++ e1.type) == kt.1) = true :=
          (List.mem_filter.mp h1).2
        have hk2 : (("asset:" ++ e2.type) == kt.1) = true :=
          (List.mem_filter.mp h2).2
        exact asset_key_inj _ _ ((eq_of_beq hk1).trans (eq_of_beq hk2).symm)
      have he0' : e0 ∈ (edges.filter (customPred nodes k)).filter
          (fun e => ("asset:" ++ e.type) == kt.1) := by
        refine List.mem_filter.mpr ⟨he0, ?_⟩
        exact beq_of_eq hkey0.symm
      refine ⟨?_, ?_, ?_, ?_, ?_, ?_, ?_, ?_, ?_, ?_, ?_⟩
      · rw [hdata]
        exact isPrefixOf_append_self _ _
      · rw [hmkdrop]
        exact (hE e0 he0m).1
      · rw [hmkdrop]
        exact hc0.1
      · rw [hmkdrop]
        exact hc0.2.1
      · rw [hmkdrop]
        exact hc0.2.2.1
      · rw [hmkdrop]
        exact hc0.2.2.2.1
      · rw [hmkdrop]
        exact hc0.2.2.2.2.1
      · rw [hmkdrop]
        exact hkey0
      · rw [hval, hfilt]
        exact List.ne_nil_of_mem (List.mem_map.mpr
          ⟨("asset:" ++ e0.type, e0.tgt),
            List.mem_map.mpr ⟨e0, he0', rfl⟩, rfl⟩)
      · rw [hval, hfilt, List.map_map]
        exact nodup_tgt_of_edgeKeys k _ hE'keys hE'src hE'ty
      · intro t ht
        rw [hval, hfilt] at ht
        obtain ⟨p, hp, hpt⟩ := List.mem_map.mp ht
        obtain ⟨e, heE, hep⟩ := List.mem_map.mp hp
        rw [← hpt, ← hep]
        exact hmemDid e.tgt
          (hE e (List.mem_of_mem_filter (List.mem_of_mem_filter heE))).2.2
    · intro hne
      rw [effectFold_custom, foldl_pushPair_map] at hne
      rw [effectFold_provType]
      obtain ⟨kt, hkt⟩ := List.exists_mem_of_ne_nil _ hne
      have hkmem : kt.1 ∈ (pushFold (entityBase n).custom
          ((edges.filter (customPred nodes k)).map
            (fun e => ("asset:" ++ e.type, e.tgt)))).map Prod.fst :=
        List.mem_map.mpr ⟨kt, hkt, rfl⟩
      have hkp : kt.1 ∈ ((edges.filter (customPred nodes k)).map
          (fun e => ("asset:" ++ e.type, e.tgt))).map Prod.fst := by
        rcases pushFold_keys_sub _ _ _ hkmem with h0 | h1
        · exact absurd h0 (List.not_mem_nil _)
        · exact h1
      obtain ⟨p0, hp0, _⟩ := List.mem_map.mp hkp
      obtain ⟨e0, he0, _⟩ := List.mem_map.mp hp0
      have hc0 := (customPred_spec nodes k e0).mp (List.mem_filter.mp he0).2
      have hres := hc0.2.2.2.2.2.1
      rw [hc0.2.2.2.2.2.2] at hres
      have hfind := find?_nodes_self nodes hnd n hnn
      rw [hnk] at hfind
      have hft : fromTypeOf nodes k = n.type := by
        rw [fromTypeOf, hfind]
        rfl
      rw [hft] at hres
      exact hres
  · intro kv hm
    obtain ⟨k, ar⟩ := kv
    obtain ⟨n, hnn, hnk, hact, har⟩ := provOf_activity_mem nodes edges hnd k ar hm
    subst har
    show ActivityWF (provOf nodes edges)
      (edges.foldl (activityEffect (kEOf nodes) (kGOf nodes) k)
        (activityBase n))
    refine ⟨?_, ?_, ?_, ?_, ?_, ?_⟩
    · rw [effectFoldA_label]
      exact jsOr_ne_empty n.label n.did (hN n hnn).1
    · rw [effectFoldA_sat]
      exact jsOrO_ne_empty n.startTime n.created (hN n hnn).2.2.1
    · rw [effectFoldA_eat]
      exact jsOrO_ne_empty n.endTime n.updated (hN n hnn).2.2.2
    · rw [effectFoldA_used]
      intro t ht
      rcases List.mem_append.mp ht with h0 | h1
      · exact absurd h0 (List.not_mem_nil t)
      · obtain ⟨e, hef, het⟩ := List.mem_map.mp h1
        have hp := of_decide_eq_true (List.mem_filter.mp hef).2
        rw [← het, keysE_provOf]
        exact (kEOf_iff nodes e.tgt).mp hp.2.2
    · rw [effectFoldA_used]
      show ((edges.filter (fun e => decide (e.type = "used" ∧ e.src = k
          ∧ kEOf nodes e.tgt = true))).map (fun e => e.tgt)).Nodup
      refine nodup_tgt_of_edgeKeys k _ ?_ ?_ ?_
      · exact List.Nodup.sublist (List.Sublist.map _ (List.filter_sublist _)) hU'
      · intro e he
        exact (of_decide_eq_true (List.mem_filter.mp he).2).2.1
      · intro e1 h1 e2 h2
        rw [(of_decide_eq_true (List.mem_filter.mp h1).2).1,
          (of_decide_eq_true (List.mem_filter.mp h2).2).1]
    · rw [effectFoldA_waw]
      intro a ha
      rcases lastWrite_eq_some _ _ _ ha with hmem | hinit
      · obtain ⟨e, hef, het⟩ := List.mem_map.mp hmem
        have hp := of_decide_eq_true (List.mem_filter.mp hef).2
        have htG := (kGOf_iff nodes e.tgt).mp hp.2.2
        constructor
        · rw [← het, keysG_provOf]
          exact htG
        · rw [← het]
          exact hdidne e.tgt (hsubG e.tgt htG)
      · exact Option.noConfusion hinit
  · intro kv hm
    obtain ⟨k, gr⟩ := kv
    obtain ⟨n, hnn, hnk, hag, hgr⟩ := provOf_agent_mem nodes edges k gr hm
    subst hgr
    exact ⟨hag, jsOr_ne_empty n.label n.did (hN n hnn).1⟩

/-- Two nodes joined by two distinct derivation-family relations over the
same ordered pair — the configuration that defeats the PROV round trip. -/
def c4G : Graph :=
  ((((addNode emptyGraph "A" emptyMeta "t0").bind
      (fun g => addNode g "B" emptyMeta "t0")).bind
      (fun g => addEdge g "A" "B" "wasDerivedFrom" [] "t0")).bind
      (fun g => addEdge g "A" "B" "wasRevisionOf" [] "t0")).getD emptyGraph

/-- Two nodes joined by a single `wasDerivedFrom` relation. -/
def c4W : Graph :=
  (((addNode emptyGraph "A" emptyMeta "t0").bind
      (fun g => addNode g "B" emptyMeta "t0")).bind
      (fun g => addEdge g "A" "B" "wasDerivedFrom" [] "t0")).getD emptyGraph

instance decGraphWF (nodes : List NodeRec) (edges : List EdgeRec) :
    Decidable (graphWF nodes edges) := by
  unfold graphWF edgesUnique
  exact inferInstance

instance decDerivUnique (edges : List EdgeRec) :
    Decidable (derivUnique edges) := by
  unfold derivUnique
  exact inferInstance

/-- C4, unamended part: a maintained, well-formed graph carrying both a
`wasDerivedFrom` and a `wasRevisionOf` edge over the same node pair imports
to a graph whose PROV projection differs from the original projection
(the duplicated `wasDerivedFrom` member collapses on reimport), so the
round trip is not the identity on all graphs. -/
theorem c4_prov_roundtrip_counterexample :
    graphWF c4G.nodes c4G.edges
    ∧ ¬ derivUnique c4G.edges
    ∧ (fromPROV (provOf c4G.nodes c4G.edges) "t1").map
        (fun g' => decide (provOf g'.nodes g'.edges = provOf c4G.nodes c4G.edges))
      = some false := by
  refine ⟨by decide, by decide, by decide⟩

/-- C4 (amended): for every graph satisfying the mutator invariants whose
derivation-family edges are unique per `(source, target)` pair, importing
the PROV projection with `fromPROV` succeeds and the reimported graph has
exactly the same PROV projection. -/
theorem c4_prov_roundtrip (nodes : List NodeRec) (edges : List EdgeRec)
    (now : String) (h1 : graphWF nodes edges) (h2 : derivUnique edges) :
    ∃ g' : Graph, fromPROV (provOf nodes edges) now = some g'
      ∧ provOf g'.nodes g'.edges = provOf nodes edges := by
  have hWF := docWF_provOf nodes edges h1 h2
  obtain ⟨g', hg, hn, he⟩ := fromPROV_spec (provOf nodes edges) now hWF
  refine ⟨g', hg, ?_⟩
  rw [hn, he]
  exact provOf_imported (provOf nodes edges) now hWF

/-- The amended C4 at a concrete two-node graph with one derivation edge. -/
theorem c4_prov_roundtrip_witness :
    (graphWF c4W.nodes c4W.edges ∧ derivUnique c4W.edges)
    ∧ (∃ g' : Graph, fromPROV (provOf c4W.nodes c4W.edges) "t1" = some g'
        ∧ provOf g'.nodes g'.edges = provOf c4W.nodes c4W.edges) :=
  ⟨⟨by decide, by decide⟩,
    c4_prov_roundtrip c4W.nodes c4W.edges "t1" (by decide) (by decide)⟩

end ResourceGraph

/-! ## Hierarchical metadata manager (`HierarchicalMetadataManager`)

Layer data trees are `Json` objects (`DIDFactory.Json`).  The manager's
seven layer slots mirror `this.layers`; a document under construction is
an association list in key insertion order, so an absent key is a missing
entry, never a `null` value. -/

namespace Metadata

open DIDFactory (Json)

/-- `MetadataLayer.get(field)` for a single-segment path: the property's
value, or the `null` default. -/
def jsonGet (j : Json) (field : String) : Json :=
  match j with
  | .obj ps => (ps.lookup field).getD .null
  | _ => .null

/-- `obj[key] = v`: overwrite in place or append. -/
def setKey (l : List (String × Json)) (k : String) (v : Json) : List (String × Json) :=
  if (l.lookup k).isSome then l.map (fun kv => if kv.1 = k then (k, v) else kv)
  else l ++ [(k, v)]

/-- `Object.assign(target, src)`: each member of `src` assigned in order. -/
def objAssign (target : List (String × Json)) (src : List (String × Json)) :
    List (String × Json) :=
  src.foldl (fun acc kv => setKey acc kv.1 kv.2) target

/-- The seven layer slots of `HierarchicalMetadataManager.layers`
(`did`, `c2pa`, `modelCard`, `dataSheet`, `prov`, `mpeg21Rel`,
`general`), each holding the layer's data tree when set. -/
structure MetadataManager where
  did : Option Json
  c2pa : Option Json
  modelCard : Option Json
  dataSheet : Option Json
  prov : Option Json
  mpeg21Rel : Option Json
  general : Option Json

def layerOf (m : MetadataManager) (tag : String) : Option Json :=
  if tag = "did" then m.did
  else if tag = "c2pa" then m.c2pa
  else if tag = "modelCard" then m.modelCard
  else if tag = "dataSheet" then m.dataSheet
  else if tag = "prov" then m.prov
  else if tag = "mpeg21Rel" then m.mpeg21Rel
  else if tag = "general" then m.general
  else none

/-- `IdentificationLayer.toDIDDocument()` (the `updated` fallback to the
layer timestamp is threaded as `layerUpdated`). -/
def toDIDDocument (dj : Json) (layerUpdated : String) : List (String × Json) :=
  [("@context", Json.arr (Json.str "https://www.w3.org/ns/did/v1"
      :: match jsonGet dj "context" with
         | Json.arr l => l
         | _ => [])),
   ("id", jsonGet dj "id"),
   ("controller", jsonGet dj "controller"),
   ("verificationMethod", match jsonGet dj "verificationMethod" with
      | Json.null => Json.arr []
      | v => v),
   ("authentication", match jsonGet dj "authentication" with
      | Json.null => Json.arr []
      | v => v),
   ("service", match jsonGet dj "service" with
      | Json.null => Json.arr []
      | v => v),
   ("created", jsonGet dj "created"),
   ("updated", match jsonGet dj "updated" with
      | Json.null => Json.str layerUpdated
      | v => v)]

/-- `LineageLayer.toPROVJSON()`. -/
def toPROVJSON (pj : Json) : Json :=
  let fld := fun (f : String) =>
    match jsonGet pj f with
    | Json.null => Json.obj []
    | v => v
  Json.obj
    [("prefix", fld "prefix"), ("entity", fld "entity"),
     ("activity", fld "activity"), ("agent", fld "agent"),
     ("wasGeneratedBy", fld "wasGeneratedBy"), ("used", fld "used"),
     ("wasAttributedTo", fld "wasAttributedTo"),
     ("wasDerivedFrom", fld "wasDerivedFrom"),
     ("wasAssociatedWith", fld "wasAssociatedWith")]

/-- One iteration of the `createSelectiveView` layer loop. -/
def selectiveStep (m : MetadataManager) (layerUpdated : String)
    (selective : List (String × Json)) (layer : String) : List (String × Json) :=
  match layerOf m layer with
  | none => selective
  | some data =>
    if layer = "did" then objAssign selective (toDIDDocument data layerUpdated)
    else if layer = "c2pa" then setKey selective "provenance" data
    else if layer = "modelCard" then setKey selective "modelCard" data
    else if layer = "dataSheet" then setKey selective "dataSheet" data
    else if layer = "prov" then setKey selective "lineage" (toPROVJSON data)
    else if layer = "mpeg21Rel" then setKey selective "rights" data
    else if layer = "general" then setKey selective "characteristics" data
    else selective

/-- `HierarchicalMetadataManager.createSelectiveView` in the default
JSON-LD format (`_serialize` is the identity there).  The identification
layer's `id` is always assigned when the layer is present. -/
def createSelectiveView (m : MetadataManager) (layers : List String)
    (layerUpdated : String) : List (String × Json) :=
  let base : List (String × Json) :=
    [("@context", Json.arr [Json.str "https://www.w3.org/ns/did/v1"])]
  let withId :=
    match m.did with
    | some dj => setKey base "id" (jsonGet dj "id")
    | none => base
  layers.foldl (selectiveStep m layerUpdated) withId

/-! ### Claim theorem: C9 (selective views) -/

/-- **C9.**  With all five layers set (identity, provenance,
characteristics as a model card, lineage, rights), requesting the
provenance and rights layer tags returns exactly `@context`, the identity
layer's `id`, the provenance sub-object and the rights sub-object; the
unrequested layer keys (`modelCard`, `dataSheet`, `lineage`,
`characteristics`) are not present at all — omitted rather than `null`. -/
theorem c9_selective_view (dj cj mj pj rj : Json) (layerUpdated : String) :
    createSelectiveView ⟨some dj, some cj, some mj, none, some pj, some rj, none⟩
        ["c2pa", "mpeg21Rel"] layerUpdated
      = [("@context", Json.arr [Json.str "https://www.w3.org/ns/did/v1"]),
         ("id", jsonGet dj "id"), ("provenance", cj), ("rights", rj)]
    ∧ ((createSelectiveView ⟨some dj, some cj, some mj, none, some pj, some rj, none⟩
        ["c2pa", "mpeg21Rel"] layerUpdated).lookup "modelCard" = none
      ∧ (createSelectiveView ⟨some dj, some cj, some mj, none, some pj, some rj, none⟩
        ["c2pa", "mpeg21Rel"] layerUpdated).lookup "dataSheet" = none
      ∧ (createSelectiveView ⟨some dj, some cj, some mj, none, some pj, some rj, none⟩
        ["c2pa", "mpeg21Rel"] layerUpdated).lookup "lineage" = none
      ∧ (createSelectiveView ⟨some dj, some cj, some mj, none, some pj, some rj, none⟩
        ["c2pa", "mpeg21Rel"] layerUpdated).lookup "characteristics" = none) := by
  refine ⟨rfl, ?_, ?_, ?_, ?_⟩ <;> rfl

end Metadata

end DRID
